import Mathlib

/-!
Verification of the composite Bezier-patch surface model implemented in
src/bezier-mesh-projection.js.

Modelling conventions:
* JavaScript numbers are modelled as rationals, so all algebraic facts are
  exact (the source performs only field operations on coordinates).
* THREE.Vector3 values are modelled as the structure V3 below.
* Control points are reference objects in JavaScript; they are modelled as an
  arena: a growable array of point records addressed by a natural-number id.
  Two patch slots alias the same JavaScript object exactly when they store the
  same id.  Mutation of a point is an update of the arena at that id, and
  creating a fresh ControlPoint is a push at the end of the arena.
* Methods that can throw are modelled with Except, or, where the claim is
  about atomicity, as a pair of the state at the moment of the throw and an
  optional error message.
-/

namespace BMP

/-- A THREE.Vector3 value: three rational coordinates. -/
structure V3 where
  x : ℚ
  y : ℚ
  z : ℚ
deriving DecidableEq, Repr

instance : Inhabited V3 := ⟨⟨0, 0, 0⟩⟩

/-- Scalar linear interpolation a + (b - a) * t, the per-component formula of
THREE.Vector3.lerp. -/
def lerpQ (a b t : ℚ) : ℚ := a + (b - a) * t

/-- THREE.Vector3.lerp on V3 values. -/
def V3.lerp (a b : V3) (t : ℚ) : V3 :=
  ⟨lerpQ a.x b.x t, lerpQ a.y b.y t, lerpQ a.z b.z t⟩

/-- Util.computeBernsteinBasis3: the degree-3 Bernstein basis values for the
four valid indices.  The source throws on any other index; this total version
returns 0 there and the throwing behaviour is modelled separately by
computeBernsteinBasis3E. -/
def bernstein3 (i : ℕ) (t : ℚ) : ℚ :=
  match i with
  | 0 => (1 - t) * (1 - t) * (1 - t)
  | 1 => 3 * t * ((1 - t) * (1 - t))
  | 2 => 3 * (t * t) * (1 - t)
  | 3 => t * t * t
  | _ => 0

/-- Util.computeBernsteinBasis3 with the throw on an invalid index made
explicit (the index is a JavaScript number, modelled as an integer). -/
def computeBernsteinBasis3E (i : ℤ) (t : ℚ) : Except String ℚ :=
  if i = 0 then Except.ok ((1 - t) * (1 - t) * (1 - t))
  else if i = 1 then Except.ok (3 * t * ((1 - t) * (1 - t)))
  else if i = 2 then Except.ok (3 * (t * t) * (1 - t))
  else if i = 3 then Except.ok (t * t * t)
  else Except.error ("Invalid index for B3: " ++ toString i)

/-- Util.computeBernsetinDerivative3 with the throw on an invalid index made
explicit. -/
def computeBernsetinDerivative3E (i : ℤ) (t : ℚ) : Except String ℚ :=
  if i = 0 then Except.ok (-(3 * ((1 - t) * (1 - t))))
  else if i = 1 then Except.ok (3 * (t - 1) * (3 * t - 1))
  else if i = 2 then Except.ok (6 * t - 9 * (t * t))
  else if i = 3 then Except.ok (3 * (t * t))
  else Except.error ("Invalid index for B3 derivative: " ++ toString i)

/-- Whether an Except value is an error (a thrown exception). -/
def isErr {ε α : Type} : Except ε α → Bool
  | Except.error _ => true
  | Except.ok _ => false

/-- The value of a cubic Bezier curve with scalar control values a b c d at
parameter t: the sum of the control values weighted by the Bernstein basis,
exactly the loop of BezierCurve3.compute per coordinate. -/
def cubicQ (a b c d t : ℚ) : ℚ :=
  a * bernstein3 0 t + b * bernstein3 1 t + c * bernstein3 2 t + d * bernstein3 3 t

/-- BezierCurve3.compute: evaluate the cubic Bezier curve with control points
p0 p1 p2 p3 at parameter t (componentwise weighted sum). -/
def curveCompute (p0 p1 p2 p3 : V3) (t : ℚ) : V3 :=
  ⟨cubicQ p0.x p1.x p2.x p3.x t,
   cubicQ p0.y p1.y p2.y p3.y t,
   cubicQ p0.z p1.z p2.z p3.z t⟩

/-- A BezierCurve3 holds its list of control points. -/
structure BezierCurve3 where
  points : List V3
deriving DecidableEq, Repr

/-- The BezierCurve3 constructor: throws unless exactly 4 points are given. -/
def mkBezierCurve3 (pts : List V3) : Except String BezierCurve3 :=
  if pts.length ≠ 4 then Except.error ("4 points are required for a bezier curve")
  else Except.ok ⟨pts⟩

/-- Util.deCasteljau: one round of the triangle scheme, lerping consecutive
pairs of points by t. -/
def deCasteljau (t : ℚ) : List V3 → List V3
  | [] => []
  | [_] => []
  | p :: q :: rest => V3.lerp p q t :: deCasteljau t (q :: rest)

/-- The while-loop of Util.subdivideCurve.  The fuel argument is an upper
bound on the number of rounds (the source loop terminates because each
de Casteljau round shortens the point list by one; it is called with the
initial list length). -/
def subdivideLoop (t : ℚ) : ℕ → List V3 → List V3 → List V3 → List V3 × List V3
  | 0, _, c0, c1 => (c0, c1)
  | fuel + 1, ps, c0, c1 =>
    let ps' := deCasteljau t ps
    let c0' := c0 ++ [ps'.headD default]
    let c1' := ps'.getLastD default :: c1
    if ps'.length = 1 then (c0', c1')
    else subdivideLoop t fuel ps' c0' c1'

/-- Util.subdivideCurve: split a Bezier curve at parameter t.  c0 collects the
first point of each de Casteljau round (in order, after the first original
point), c1 collects the last point of each round (prepended, before the last
original point). -/
def subdivideCurve (t : ℚ) (ps : List V3) : List V3 × List V3 :=
  subdivideLoop t ps.length ps [ps.headD default] [ps.getLastD default]

/-- A Domain: an axis-aligned rectangle in parametric (u, v) space.  The
constructor argument order of the source is (u0, v0, u1, v1). -/
structure Domain where
  u0 : ℚ
  v0 : ℚ
  u1 : ℚ
  v1 : ℚ
deriving DecidableEq, Repr

instance : Inhabited Domain := ⟨⟨0, 0, 0, 0⟩⟩

/-- Domain.contains: inclusive on both ends of each axis. -/
def Domain.contains (d : Domain) (u v : ℚ) : Bool :=
  decide (u ≥ d.u0) && decide (u ≤ d.u1) && decide (v ≥ d.v0) && decide (v ≤ d.v1)

/-- A ControlPoint object: its position together with its continuity links.
mirrorPoint stores the ids of (other, reference); parent and children are the
corner-to-handle links managed by addChildren. -/
structure CPoint where
  pos : V3
  mirrorPoint : Option (ℕ × ℕ)
  parent : Option ℕ
  children : List ℕ
deriving DecidableEq, Repr

/-- A fresh ControlPoint as produced by the constructor: a position and no
links. -/
def freshCP (p : V3) : CPoint := ⟨p, none, none, []⟩

instance : Inhabited CPoint := ⟨freshCP default⟩

/-- The arena of ControlPoint objects; a ℕ id addresses one object, and two
patch slots holding the same id model two references to the same JavaScript
object. -/
abbrev Store := Array CPoint

/-- The object at an id. -/
def getCP (st : Store) (i : ℕ) : CPoint := st.getD i default

/-- The position of the point at an id. -/
def valAt (st : Store) (i : ℕ) : V3 := (getCP st i).pos

/-- Update the object at an id in place (all ids used by the source are
live, so the out-of-range no-op of setD is never taken on reachable states). -/
def updCP (st : Store) (i : ℕ) (f : CPoint → CPoint) : Store :=
  st.setD i (f (getCP st i))

/-- Overwrite the position of the point at an id (THREE.Vector3.copy into an
existing ControlPoint). -/
def setPos (st : Store) (i : ℕ) (p : V3) : Store :=
  updCP st i (fun q => { q with pos := p })

/-- Append a fresh ControlPoint (ControlPoint.fromVector); its id is the
arena size before the push. -/
def pushCP (st : Store) (p : V3) : Store := st.push (freshCP p)

/-- A BezierPatch3: its Domain and the ids of its 16 control points, laid out
as a row-major 4 x 4 grid (slot 4 * row + col). -/
structure BezierPatch3 where
  domain : Domain
  controlPoints : List ℕ
deriving DecidableEq, Repr

instance : Inhabited BezierPatch3 := ⟨⟨default, []⟩⟩

/-- The id stored in slot k of a patch. -/
def slotId (p : BezierPatch3) (k : ℕ) : ℕ := p.controlPoints.getD k 0

/-- The position of the control point in slot k of a patch. -/
def netV (st : Store) (p : BezierPatch3) (k : ℕ) : V3 := valAt st (slotId p k)

/-- The Grid: a row-major dense array of nullable patch slots. -/
structure Grid where
  rowCount : ℕ
  colCount : ℕ
  cells : List (Option BezierPatch3)
deriving DecidableEq, Repr

/-- JavaScript Array.prototype.splice restricted to what the Grid uses:
delete delCount elements at start and insert items there.  A negative start
counts from the end of the array (clamped at 0), a start beyond the end is
clamped to the length, and a delete count running past the end is cut off. -/
def spliceList {α : Type} (l : List α) (start : ℤ) (delCount : ℕ)
    (items : List α) : List α :=
  let s : ℕ := if start < 0 then (start + l.length).toNat
               else min start.toNat l.length
  l.take s ++ items ++ l.drop (s + delCount)

/-- Grid.get: bounds-checked lookup, null outside the grid. -/
def Grid.get (g : Grid) (i j : ℤ) : Option BezierPatch3 :=
  if i < 0 ∨ i > (g.rowCount : ℤ) - 1 ∨ j < 0 ∨ j > (g.colCount : ℤ) - 1 then none
  else g.cells.getD (i * g.colCount + j).toNat none

/-- Grid.set (all uses are in range, where List.set matches the source's
index assignment). -/
def Grid.set (g : Grid) (i j : ℕ) (p : BezierPatch3) : Grid :=
  { g with cells := g.cells.set (i * g.colCount + j) (some p) }

/-- Grid.inserRow (sic): splice a row of nulls in front of row index. -/
def Grid.inserRow (g : Grid) (index : ℤ) : Grid :=
  { g with rowCount := g.rowCount + 1,
           cells := spliceList g.cells (index * g.colCount) 0
             (List.replicate g.colCount none) }

/-- Grid.deleteRow. -/
def Grid.deleteRow (g : Grid) (i : ℤ) : Grid :=
  { g with rowCount := g.rowCount - 1,
           cells := spliceList g.cells (i * g.colCount) g.colCount [] }

/-- Grid.insertColumn: for each row i in increasing order splice one null at
position i * (colCount + 1) + index, then increment colCount. -/
def Grid.insertColumn (g : Grid) (index : ℤ) : Grid :=
  { g with colCount := g.colCount + 1,
           cells := (List.range g.rowCount).foldl
             (fun cs (i : ℕ) =>
               spliceList cs ((i : ℤ) * ((g.colCount : ℤ) + 1) + index) 0 [none])
             g.cells }

/-- Grid.deleteColumn: for each row i from the last down to the first splice
out one cell at position i * colCount + j, then decrement colCount. -/
def Grid.deleteColumn (g : Grid) (j : ℤ) : Grid :=
  { g with colCount := g.colCount - 1,
           cells := (List.range g.rowCount).reverse.foldl
             (fun cs (i : ℕ) =>
               spliceList cs ((i : ℤ) * (g.colCount : ℤ) + j) 1 [])
             g.cells }

/-- Grid.rows: the list of rows, each the list of its cells. -/
def Grid.rowsL (g : Grid) : List (List (Option BezierPatch3)) :=
  (List.range g.rowCount).map fun i =>
    (List.range g.colCount).map fun j => g.cells.getD (i * g.colCount + j) none

/-- Grid.columns. -/
def Grid.columnsL (g : Grid) : List (List (Option BezierPatch3)) :=
  (List.range g.colCount).map fun j =>
    (List.range g.rowCount).map fun i => g.cells.getD (i * g.colCount + j) none

/-- The composite Patch: the Grid of bicubic patches plus the arena of
control points. -/
structure PatchState where
  grid : Grid
  store : Store
deriving Repr

/-- The inner double loop of BezierPatch3.compute in bezier mode, per
coordinate: sum over y and x of control value times basis product. -/
def evalBezierQ (c : ℕ → ℚ) (u v : ℚ) : ℚ :=
  (List.range 4).foldl (fun acc y =>
    (List.range 4).foldl (fun acc2 x =>
      acc2 + c (y * 4 + x) * (bernstein3 x u * bernstein3 y v)) acc) 0

/-- BezierPatch3.compute (value semantics): remap the global (u, v) into the
patch's local unit square via its Domain, then evaluate.  Mode linear
bilinearly interpolates the four corner control points; mode bezier does the
tensor-product Bernstein sum; any other mode throws. -/
def patchComputeE (st : Store) (p : BezierPatch3) (u v : ℚ)
    (mode : String) : Except String V3 :=
  let lu := (u - p.domain.u0) / (p.domain.u1 - p.domain.u0)
  let lv := (v - p.domain.v0) / (p.domain.v1 - p.domain.v0)
  if mode = "linear" then
    Except.ok (V3.lerp (V3.lerp (netV st p 0) (netV st p 3) lu)
      (V3.lerp (netV st p 12) (netV st p 15) lu) lv)
  else if mode = "bezier" then
    Except.ok ⟨evalBezierQ (fun k => (netV st p k).x) lu lv,
               evalBezierQ (fun k => (netV st p k).y) lu lv,
               evalBezierQ (fun k => (netV st p k).z) lu lv⟩
  else Except.error ("Invalid patch compute mode: " ++ mode)

/-- The scan of Patch.compute over the flat cell list in row-major order:
return the evaluation of the first cell whose Domain contains (u, v).  A null
cell would make the source throw while reading its domain, so it produces no
point here; if no cell contains the point the scan falls off the end and no
point is returned. -/
def computeCells (st : Store) : List (Option BezierPatch3) → ℚ → ℚ → String →
    Option (Except String V3)
  | [], _, _, _ => none
  | none :: _, _, _, _ => none
  | some p :: rest, u, v, mode =>
    if p.domain.contains u v then some (patchComputeE st p u v mode)
    else computeCells st rest u v mode

/-- Patch.compute. -/
def patchCompute (s : PatchState) (u v : ℚ) (mode : String) :
    Option (Except String V3) :=
  computeCells s.store s.grid.cells u v mode

/-- Scalar multiplication of a vector (THREE.Vector3.multiplyScalar). -/
def V3.scale (a : V3) (s : ℚ) : V3 := ⟨a.x * s, a.y * s, a.z * s⟩

/-- The module-level scratch buffers (buffers.vec3): sixteen vectors reused
for memory efficiency across calls.  BezierPatch3.compute writes entries 0
and 1 and returns entry 0. -/
abbrev Buffers := List V3

/-- The initial buffer contents: sixteen zero vectors. -/
def initBuffers : Buffers := List.replicate 16 default

/-- BezierPatch3.compute with the scratch-buffer mechanics and the read-only
control-point arena made explicit.  The result carries the returned point
value, the buffer state after the call (the returned point is the final
content of buffer 0, which the caller receives as an alias), and the arena,
which the method only reads. -/
def patchComputeBuf (bufs : Buffers) (st : Store) (p : BezierPatch3)
    (u v : ℚ) (mode : String) : Except String (V3 × Buffers × Store) :=
  let lu := (u - p.domain.u0) / (p.domain.u1 - p.domain.u0)
  let lv := (v - p.domain.v0) / (p.domain.v1 - p.domain.v0)
  if mode = "linear" then
    let b0 := V3.lerp (V3.lerp (netV st p 0) (netV st p 3) lu)
      (V3.lerp (netV st p 12) (netV st p 15) lu) lv
    let b1 := V3.lerp (netV st p 12) (netV st p 15) lu
    Except.ok (b0, (bufs.set 0 b0).set 1 b1, st)
  else if mode = "bezier" then
    let b0 : V3 := ⟨evalBezierQ (fun k => (netV st p k).x) lu lv,
                    evalBezierQ (fun k => (netV st p k).y) lu lv,
                    evalBezierQ (fun k => (netV st p k).z) lu lv⟩
    let b1 := V3.scale (netV st p 15) (bernstein3 3 lu * bernstein3 3 lv)
    Except.ok (b0, (bufs.set 0 b0).set 1 b1, st)
  else Except.error ("Invalid patch compute mode: " ++ mode)

/-- The flat traversal of all control-point ids: cells in row-major order,
each cell's controlPoints array in slot order.  This is the iteration order
shared by the clearing pass of relinkControlPoints and by save. -/
def patchSlotIdList (g : Grid) : List ℕ :=
  (g.cells.map (fun oc =>
    match oc with
    | none => []
    | some p => p.controlPoints)).flatten

/-- One primitive link operation of the relinking pass:
addCh anchor args is ControlPoint.addChildren, setMir p other reference is
ControlPoint.mirror with non-null arguments. -/
inductive LinkOp where
  | addCh : ℕ → List ℕ → LinkOp
  | setMir : ℕ → ℕ → ℕ → LinkOp
deriving DecidableEq, Repr

/-- Set the parent field of every id in cs to w, in order (the forEach of
addChildren with w the anchor, and the child-clearing loop of the first
relink pass with w null). -/
def setParentFold (cs : List ℕ) (w : Option ℕ) (st : Store) : Store :=
  cs.foldl (fun s c => updCP s c (fun q => { q with parent := w })) st

/-- Push every id of cs not already present onto the children list of the
anchor a, in order (the membership-guarded push loop of addChildren). -/
def pushChildFold (a : ℕ) (cs : List ℕ) (st : Store) : Store :=
  cs.foldl (fun s c =>
    if c ∈ (getCP s a).children then s
    else updCP s a (fun p => { p with children := p.children ++ [c] })) st

/-- ControlPoint.addChildren: push every argument not already present into
the anchor's children, then set every argument's parent to the anchor. -/
def applyAddChildren (st : Store) (a : ℕ) (cs : List ℕ) : Store :=
  setParentFold cs (some a) (pushChildFold a cs st)

/-- ControlPoint.mirror with two non-null arguments. -/
def applySetMir (st : Store) (p o r : ℕ) : Store :=
  updCP st p (fun q => { q with mirrorPoint := some (o, r) })

/-- Run one link operation. -/
def applyOp (st : Store) : LinkOp → Store
  | LinkOp.addCh a cs => applyAddChildren st a cs
  | LinkOp.setMir p o r => applySetMir st p o r

/-- Run a list of link operations in order. -/
def applyOps (st : Store) (ops : List LinkOp) : Store := ops.foldl applyOp st

/-- The link operations performed for one grid cell by the second pass of
relinkControlPoints, in source order: the four addChildren calls, then the
mirror constraints toward each existing neighbor, then the self-mirror
constraints at exterior corners (two missing neighbors on adjacent sides).
A null cell would make the source throw; it contributes no operations here,
and all verified states have fully populated grids. -/
def cellLinkOps (g : Grid) (i j : ℕ) : List LinkOp :=
  match g.cells.getD (i * g.colCount + j) none with
  | none => []
  | some cur =>
    let cp := fun k => slotId cur k
    let left := g.get (i : ℤ) ((j : ℤ) - 1)
    let right := g.get (i : ℤ) ((j : ℤ) + 1)
    let bottom := g.get ((i : ℤ) - 1) (j : ℤ)
    let top := g.get ((i : ℤ) + 1) (j : ℤ)
    [LinkOp.addCh (cp 0) [cp 1, cp 4, cp 5],
     LinkOp.addCh (cp 3) [cp 2, cp 7, cp 6],
     LinkOp.addCh (cp 12) [cp 8, cp 13, cp 9],
     LinkOp.addCh (cp 15) [cp 14, cp 11, cp 10]]
    ++ (match left with
        | some l => [LinkOp.setMir (cp 1) (slotId l 2) (cp 0),
                     LinkOp.setMir (cp 13) (slotId l 14) (cp 12)]
        | none => [])
    ++ (match right with
        | some r => [LinkOp.setMir (cp 2) (slotId r 1) (cp 3),
                     LinkOp.setMir (cp 14) (slotId r 13) (cp 15)]
        | none => [])
    ++ (match bottom with
        | some b => [LinkOp.setMir (cp 4) (slotId b 8) (cp 0),
                     LinkOp.setMir (cp 7) (slotId b 11) (cp 3)]
        | none => [])
    ++ (match top with
        | some t => [LinkOp.setMir (cp 8) (slotId t 4) (cp 12),
                     LinkOp.setMir (cp 11) (slotId t 7) (cp 15)]
        | none => [])
    ++ (if left.isNone ∧ bottom.isNone then
          [LinkOp.setMir (cp 1) (cp 4) (cp 0), LinkOp.setMir (cp 4) (cp 1) (cp 0)]
        else [])
    ++ (if left.isNone ∧ top.isNone then
          [LinkOp.setMir (cp 8) (cp 13) (cp 12), LinkOp.setMir (cp 13) (cp 8) (cp 12)]
        else [])
    ++ (if right.isNone ∧ top.isNone then
          [LinkOp.setMir (cp 14) (cp 11) (cp 15), LinkOp.setMir (cp 11) (cp 14) (cp 15)]
        else [])
    ++ (if right.isNone ∧ bottom.isNone then
          [LinkOp.setMir (cp 2) (cp 7) (cp 3), LinkOp.setMir (cp 7) (cp 2) (cp 3)]
        else [])

/-- All link operations of the second pass, cells in row-major order. -/
def linkOps (g : Grid) : List LinkOp :=
  ((List.range g.rowCount).map (fun i =>
    ((List.range g.colCount).map (fun j => cellLinkOps g i j)).flatten)).flatten

/-- The ids that appear as addChildren arguments in a list of link
operations (the points whose parent the operations write). -/
def childTargets : List LinkOp → List ℕ
  | [] => []
  | LinkOp.addCh _ cs :: rest => cs ++ childTargets rest
  | LinkOp.setMir _ _ _ :: rest => childTargets rest

/-- The ids whose mirror a list of link operations writes. -/
def mirTargets : List LinkOp → List ℕ
  | [] => []
  | LinkOp.addCh _ _ :: rest => mirTargets rest
  | LinkOp.setMir p _ _ :: rest => p :: mirTargets rest

/-- The ids whose children list a list of link operations writes (the
addChildren anchors). -/
def chAnchors : List LinkOp → List ℕ
  | [] => []
  | LinkOp.addCh a _ :: rest => a :: chAnchors rest
  | LinkOp.setMir _ _ _ :: rest => chAnchors rest

/-- The clearing performed on one control point by the first pass of
relinkControlPoints: clear its mirror, null the parent of each of its current
children, clear its children list. -/
def clearPoint (st : Store) (i : ℕ) : Store :=
  let st1 := updCP st i (fun p => { p with mirrorPoint := none })
  let st2 := setParentFold (getCP st1 i).children none st1
  updCP st2 i (fun p => { p with children := [] })

/-- The first pass of relinkControlPoints: clear every control point of every
cell, in traversal order. -/
def clearLinks (g : Grid) (st : Store) : Store :=
  (patchSlotIdList g).foldl clearPoint st

/-- Patch.relinkControlPoints on the arena: clear all links, then recompute
them from the grid topology. -/
def relinkStore (g : Grid) (st : Store) : Store :=
  applyOps (clearLinks g st) (linkOps g)

/-- Patch.relinkControlPoints. -/
def relinkState (s : PatchState) : PatchState :=
  ⟨s.grid, relinkStore s.grid s.store⟩

/-- One iteration of the subdivideHorizontal loop on cell cur of the split
row, at global split coordinate v.  prev carries the bottom and top patches
built at the previous column (for the left-edge reuse at j > 0).  The store
operations appear in source order: the copies into reused ControlPoints are
in-place position updates, the fresh ControlPoints are pushes whose ids are
the arena size at creation time. -/
def subHStep (st : Store) (cur : BezierPatch3) (v : ℚ)
    (prev : Option (BezierPatch3 × BezierPatch3)) :
    Store × BezierPatch3 × BezierPatch3 :=
  let cp := fun k => slotId cur k
  let localV := (v - cur.domain.v0) / (cur.domain.v1 - cur.domain.v0)
  let a := subdivideCurve localV
    [valAt st (cp 0), valAt st (cp 4), valAt st (cp 8), valAt st (cp 12)]
  let b := subdivideCurve localV
    [valAt st (cp 1), valAt st (cp 5), valAt st (cp 9), valAt st (cp 13)]
  let c := subdivideCurve localV
    [valAt st (cp 2), valAt st (cp 6), valAt st (cp 10), valAt st (cp 14)]
  let d := subdivideCurve localV
    [valAt st (cp 3), valAt st (cp 7), valAt st (cp 11), valAt st (cp 15)]
  let a0 := fun k => a.1.getD k default
  let a1 := fun k => a.2.getD k default
  let b0 := fun k => b.1.getD k default
  let b1 := fun k => b.2.getD k default
  let c0 := fun k => c.1.getD k default
  let c1 := fun k => c.2.getD k default
  let d0 := fun k => d.1.getD k default
  let d1 := fun k => d.2.getD k default
  let branch : Store × (ℕ × ℕ × ℕ × ℕ) × (ℕ × ℕ × ℕ × ℕ) :=
    match prev with
    | some (pb, pt) =>
      (st, (slotId pb 3, slotId pb 7, slotId pb 11, slotId pb 15),
           (slotId pt 3, slotId pt 7, slotId pt 11, slotId pt 15))
    | none =>
      let s1 := setPos st (cp 4) (a0 1)
      let i8 := s1.size
      let s2 := pushCP s1 (a0 2)
      let s3 := setPos s2 (cp 8) (a1 2)
      let i4t := s3.size
      let s4 := pushCP s3 (a1 1)
      let iSh := s4.size
      let s5 := pushCP s4 (a1 0)
      (s5, (cp 0, cp 4, i8, iSh), (iSh, i4t, cp 8, cp 12))
  let st' := branch.1
  let bL := branch.2.1
  let tL := branch.2.2
  let s6 := setPos st' (cp 7) (d0 1)
  let i11b := s6.size
  let s7 := pushCP s6 (d0 2)
  let s8 := setPos s7 (cp 5) (b0 1)
  let s9 := setPos s8 (cp 6) (c0 1)
  let i9b := s9.size
  let s10 := pushCP s9 (b0 2)
  let i10b := s10.size
  let s11 := pushCP s10 (c0 2)
  let s12 := setPos s11 (cp 11) (d1 2)
  let i7t := s12.size
  let s13 := pushCP s12 (d1 1)
  let i5t := s13.size
  let s14 := pushCP s13 (b1 1)
  let i6t := s14.size
  let s15 := pushCP s14 (c1 1)
  let s16 := setPos s15 (cp 9) (b1 2)
  let s17 := setPos s16 (cp 10) (c1 2)
  let i13 := s17.size
  let s18 := pushCP s17 (b1 0)
  let i14 := s18.size
  let s19 := pushCP s18 (c1 0)
  let i15 := s19.size
  let s20 := pushCP s19 (d1 0)
  let bottom : BezierPatch3 :=
    ⟨⟨cur.domain.u0, cur.domain.v0, cur.domain.u1, v⟩,
     [bL.1, cp 1, cp 2, cp 3,
      bL.2.1, cp 5, cp 6, cp 7,
      bL.2.2.1, i9b, i10b, i11b,
      bL.2.2.2, i13, i14, i15]⟩
  let top : BezierPatch3 :=
    ⟨⟨cur.domain.u0, v, cur.domain.u1, cur.domain.v1⟩,
     [tL.1, i13, i14, i15,
      tL.2.1, i5t, i6t, i7t,
      tL.2.2.1, cp 9, cp 10, cp 11,
      tL.2.2.2, cp 13, cp 14, cp 15]⟩
  (s20, bottom, top)

/-- One iteration of the subdivideVertical loop on cell cur of the split
column, at global split coordinate u.  prev carries the left and right
patches built at the previous row (for the bottom-edge reuse at i > 0). -/
def subVStep (st : Store) (cur : BezierPatch3) (u : ℚ)
    (prev : Option (BezierPatch3 × BezierPatch3)) :
    Store × BezierPatch3 × BezierPatch3 :=
  let cp := fun k => slotId cur k
  let localU := (u - cur.domain.u0) / (cur.domain.u1 - cur.domain.u0)
  let a := subdivideCurve localU
    [valAt st (cp 0), valAt st (cp 1), valAt st (cp 2), valAt st (cp 3)]
  let b := subdivideCurve localU
    [valAt st (cp 4), valAt st (cp 5), valAt st (cp 6), valAt st (cp 7)]
  let c := subdivideCurve localU
    [valAt st (cp 8), valAt st (cp 9), valAt st (cp 10), valAt st (cp 11)]
  let d := subdivideCurve localU
    [valAt st (cp 12), valAt st (cp 13), valAt st (cp 14), valAt st (cp 15)]
  let a0 := fun k => a.1.getD k default
  let a1 := fun k => a.2.getD k default
  let b0 := fun k => b.1.getD k default
  let b1 := fun k => b.2.getD k default
  let c0 := fun k => c.1.getD k default
  let c1 := fun k => c.2.getD k default
  let d0 := fun k => d.1.getD k default
  let d1 := fun k => d.2.getD k default
  let branch : Store × (ℕ × ℕ × ℕ × ℕ) × (ℕ × ℕ × ℕ × ℕ) :=
    match prev with
    | some (pl, pr) =>
      (st, (slotId pl 12, slotId pl 13, slotId pl 14, slotId pl 15),
           (slotId pr 12, slotId pr 13, slotId pr 14, slotId pr 15))
    | none =>
      let s1 := setPos st (cp 1) (a0 1)
      let i2 := s1.size
      let s2 := pushCP s1 (a0 2)
      let s3 := setPos s2 (cp 2) (a1 2)
      let i1r := s3.size
      let s4 := pushCP s3 (a1 1)
      let iSh := s4.size
      let s5 := pushCP s4 (a1 0)
      (s5, (cp 0, cp 1, i2, iSh), (iSh, i1r, cp 2, cp 3))
  let st' := branch.1
  let bL := branch.2.1
  let tL := branch.2.2
  let s6 := setPos st' (cp 13) (d0 1)
  let i14L := s6.size
  let s7 := pushCP s6 (d0 2)
  let s8 := setPos s7 (cp 5) (b0 1)
  let s9 := setPos s8 (cp 6) (c0 1)
  let i6L := s9.size
  let s10 := pushCP s9 (b0 2)
  let i10L := s10.size
  let s11 := pushCP s10 (c0 2)
  let s12 := setPos s11 (cp 14) (d1 2)
  let i13r := s12.size
  let s13 := pushCP s12 (d1 1)
  let i5r := s13.size
  let s14 := pushCP s13 (b1 1)
  let i9r := s14.size
  let s15 := pushCP s14 (c1 1)
  let s16 := setPos s15 (cp 9) (b1 2)
  let s17 := setPos s16 (cp 10) (c1 2)
  let i7 := s17.size
  let s18 := pushCP s17 (b1 0)
  let i11 := s18.size
  let s19 := pushCP s18 (c1 0)
  let i15 := s19.size
  let s20 := pushCP s19 (d1 0)
  let leftP : BezierPatch3 :=
    ⟨⟨cur.domain.u0, cur.domain.v0, u, cur.domain.v1⟩,
     [bL.1, bL.2.1, bL.2.2.1, bL.2.2.2,
      cp 4, cp 5, i6L, i7,
      cp 8, cp 6, i10L, i11,
      cp 12, cp 13, i14L, i15]⟩
  let rightP : BezierPatch3 :=
    ⟨⟨u, cur.domain.v0, cur.domain.u1, cur.domain.v1⟩,
     [tL.1, tL.2.1, tL.2.2.1, tL.2.2.2,
      i7, i5r, cp 9, cp 7,
      i11, i9r, cp 10, cp 11,
      i15, i13r, cp 14, cp 15]⟩
  (s20, leftP, rightP)

/-- The row search of subdivideHorizontal:
rows().findIndex(r => r[0].domain.v0 <= v && r[0].domain.v1 >= v).
Reading r[0].domain of an empty row (undefined) or of a null first cell
throws; a completed scan with no match yields -1 as in JavaScript. -/
def findRowIndexGo (v : ℚ) : List (List (Option BezierPatch3)) → ℤ →
    Except String ℤ
  | [], _ => Except.ok (-1)
  | r :: rest, idx =>
    match r.headD none with
    | none => Except.error ("TypeError: cannot read domain of undefined")
    | some p =>
      if p.domain.v0 ≤ v ∧ v ≤ p.domain.v1 then Except.ok idx
      else findRowIndexGo v rest (idx + 1)

/-- The column search of subdivideVertical (same shape, on the u span). -/
def findColIndexGo (u : ℚ) : List (List (Option BezierPatch3)) → ℤ →
    Except String ℤ
  | [], _ => Except.ok (-1)
  | r :: rest, idx =>
    match r.headD none with
    | none => Except.error ("TypeError: cannot read domain of undefined")
    | some p =>
      if p.domain.u0 ≤ u ∧ u ≤ p.domain.u1 then Except.ok idx
      else findColIndexGo u rest (idx + 1)

/-- The column loop of subdivideHorizontal.  row? is rows()[rowIndex], which
is undefined when rowIndex is -1; reading a cell of an undefined row, or a
null cell, throws, and the store mutations made so far persist (the error
carries the store at the moment of the throw). -/
def subHLoopGo (v : ℚ) (row? : Option (List (Option BezierPatch3))) :
    List ℕ → Store → List BezierPatch3 → List BezierPatch3 →
    Except (Store × String) (Store × List BezierPatch3 × List BezierPatch3)
  | [], st, bs, ts => Except.ok (st, bs, ts)
  | j :: rest, st, bs, ts =>
    match row? with
    | none => Except.error (st, "TypeError: cannot read cells of undefined row")
    | some row =>
      match row.getD j none with
      | none => Except.error (st, "TypeError: cannot read properties of null")
      | some cur =>
        let prev : Option (BezierPatch3 × BezierPatch3) :=
          if j = 0 then none
          else some (bs.getD (j - 1) default, ts.getD (j - 1) default)
        let r := subHStep st cur v prev
        subHLoopGo v row? rest r.1 (bs ++ [r.2.1]) (ts ++ [r.2.2])

/-- The row loop of subdivideVertical. -/
def subVLoopGo (u : ℚ) (col? : Option (List (Option BezierPatch3))) :
    List ℕ → Store → List BezierPatch3 → List BezierPatch3 →
    Except (Store × String) (Store × List BezierPatch3 × List BezierPatch3)
  | [], st, ls, rs => Except.ok (st, ls, rs)
  | i :: rest, st, ls, rs =>
    match col? with
    | none => Except.error (st, "TypeError: cannot read cells of undefined column")
    | some col =>
      match col.getD i none with
      | none => Except.error (st, "TypeError: cannot read properties of null")
      | some cur =>
        let prev : Option (BezierPatch3 × BezierPatch3) :=
          if i = 0 then none
          else some (ls.getD (i - 1) default, rs.getD (i - 1) default)
        let r := subVStep st cur u prev
        subVLoopGo u col? rest r.1 (ls ++ [r.2.1]) (rs ++ [r.2.2])

/-- Patch.subdivideHorizontal(v), with the state at the moment of a thrown
exception and the optional error message as result.  On success: locate the
row whose v span contains v, split every cell of that row, insert the two
new rows, populate them, delete the original row, and relink. -/
def subdivideHorizontalRun (s : PatchState) (v : ℚ) :
    PatchState × Option String :=
  match findRowIndexGo v s.grid.rowsL 0 with
  | Except.error msg => (s, some msg)
  | Except.ok rowIndex =>
    let row? : Option (List (Option BezierPatch3)) :=
      if rowIndex < 0 then none else s.grid.rowsL.get? rowIndex.toNat
    match subHLoopGo v row? (List.range s.grid.colCount) s.store [] [] with
    | Except.error (st', msg) => (⟨s.grid, st'⟩, some msg)
    | Except.ok (st', bottoms, tops) =>
      let g1 := s.grid.inserRow (rowIndex + 1)
      let g2 := g1.inserRow (rowIndex + 2)
      let g3 := (List.range g2.colCount).foldl (fun g j =>
        Grid.set (Grid.set g (rowIndex + 1).toNat j (bottoms.getD j default))
          (rowIndex + 2).toNat j (tops.getD j default)) g2
      let g4 := g3.deleteRow rowIndex
      (relinkState ⟨g4, st'⟩, none)

/-- Patch.subdivideVertical(u). -/
def subdivideVerticalRun (s : PatchState) (u : ℚ) :
    PatchState × Option String :=
  match findColIndexGo u s.grid.columnsL 0 with
  | Except.error msg => (s, some msg)
  | Except.ok colIndex =>
    let col? : Option (List (Option BezierPatch3)) :=
      if colIndex < 0 then none else s.grid.columnsL.get? colIndex.toNat
    match subVLoopGo u col? (List.range s.grid.rowCount) s.store [] [] with
    | Except.error (st', msg) => (⟨s.grid, st'⟩, some msg)
    | Except.ok (st', lefts, rights) =>
      let g1 := s.grid.insertColumn (colIndex + 1)
      let g2 := g1.insertColumn (colIndex + 2)
      let g3 := (List.range g2.rowCount).foldl (fun g i =>
        Grid.set (Grid.set g i (colIndex + 1).toNat (lefts.getD i default))
          i (colIndex + 2).toNat (rights.getD i default)) g2
      let g4 := g3.deleteColumn colIndex
      (relinkState ⟨g4, st'⟩, none)

/-- Patch.initFromCorners: build the sixteen control points (ids in creation
order), the single unit-domain patch, and relink. -/
def initFromCorners (topLeft topRight bottomLeft bottomRight : V3) :
    PatchState :=
  let store : Store := Array.mk
    [freshCP topLeft,                                  -- 0: cp12
     freshCP topRight,                                 -- 1: cp15
     freshCP bottomLeft,                               -- 2: cp0
     freshCP bottomRight,                              -- 3: cp3
     freshCP (V3.lerp bottomLeft bottomRight (1 / 3)), -- 4: cp1
     freshCP (V3.lerp bottomLeft bottomRight (2 / 3)), -- 5: cp2
     freshCP (V3.lerp topLeft topRight (1 / 3)),       -- 6: cp13
     freshCP (V3.lerp topLeft topRight (2 / 3)),       -- 7: cp14
     freshCP (V3.lerp bottomLeft topLeft (1 / 3)),     -- 8: cp4
     freshCP (V3.lerp bottomLeft topLeft (2 / 3)),     -- 9: cp8
     freshCP (V3.lerp bottomRight topRight (1 / 3)),   -- 10: cp7
     freshCP (V3.lerp bottomRight topRight (2 / 3)),   -- 11: cp11
     freshCP (V3.lerp bottomLeft topRight (1 / 3)),    -- 12: cp5
     freshCP (V3.lerp bottomLeft topRight (2 / 3)),    -- 13: cp10
     freshCP (V3.lerp topLeft bottomRight (1 / 3)),    -- 14: cp9
     freshCP (V3.lerp topLeft bottomRight (2 / 3))]    -- 15: cp6
  let patch : BezierPatch3 :=
    ⟨⟨0, 0, 1, 1⟩, [2, 4, 5, 3, 8, 12, 15, 10, 9, 14, 13, 11, 0, 6, 7, 1]⟩
  relinkState ⟨⟨1, 1, [some patch]⟩, store⟩

/-- A serialized control point: coordinates, children reference ids, and the
mirror link reference ids (or null). -/
structure SavedPoint where
  pos : V3
  children : List ℕ
  mirrorPoint : Option (ℕ × ℕ)
deriving DecidableEq, Repr

instance : Inhabited SavedPoint := ⟨⟨default, [], none⟩⟩

/-- A serialized patch: its point reference ids and its Domain. -/
structure SavedPatch where
  controlPoints : List ℕ
  domain : Domain
deriving DecidableEq, Repr

/-- The SerializedPatch shape produced by save. -/
structure SavedInstance where
  rows : ℕ
  cols : ℕ
  patches : List SavedPatch
  controlPoints : List SavedPoint
deriving DecidableEq, Repr

/-- The reference assignment of the first pass of save: every slot occurrence
in traversal order assigns its running counter to the point's ref field, so a
point's final ref is the index of its last occurrence.  A point never
referenced from any slot keeps no ref in the source (reading it yields
undefined); such points do not occur in the closed states save is used on,
and default to 0 here. -/
def refFun (g : Grid) : ℕ → ℕ :=
  (patchSlotIdList g).enum.foldl
    (fun f ki => Function.update f ki.2 ki.1) (fun _ => 0)

/-- Patch.save. -/
def saveState (s : PatchState) : SavedInstance :=
  let ref := refFun s.grid
  let cps := (patchSlotIdList s.grid).map (fun id =>
    let p := getCP s.store id
    SavedPoint.mk p.pos (p.children.map ref)
      (p.mirrorPoint.map (fun o => (ref o.1, ref o.2))))
  let patches := (s.grid.cells.filterMap id).map (fun p =>
    SavedPatch.mk (p.controlPoints.map ref) p.domain)
  ⟨s.grid.rowCount, s.grid.colCount, patches, cps⟩

/-- Patch.restore: rebuild the arena with one fresh point per serialized
record, apply children and mirror links by reference id, then place each
patch (Domain plus referenced points) into a freshly sized grid. -/
def restoreState (data : SavedInstance) : PatchState :=
  let st0 : Store := Array.mk (data.controlPoints.map (fun q => freshCP q.pos))
  let st1 := data.controlPoints.enum.foldl (fun st iq =>
    let st' := applyAddChildren st iq.1 iq.2.children
    match iq.2.mirrorPoint with
    | some o => applySetMir st' iq.1 o.1 o.2
    | none => st') st0
  let g0 : Grid := ⟨data.rows, data.cols,
    List.replicate (data.rows * data.cols) none⟩
  let g1 := data.patches.enum.foldl (fun g ipd =>
    g.set (ipd.1 / data.cols) (ipd.1 % data.cols)
      ⟨ipd.2.domain, ipd.2.controlPoints⟩) g0
  ⟨g1, st1⟩

/-- One step of the point-relinking fold of restore: apply the serialized
children of the point at this index, then its mirror record if present. -/
def restoreStep (st : Store) (iq : ℕ × SavedPoint) : Store :=
  let st' := applyAddChildren st iq.1 iq.2.children
  match iq.2.mirrorPoint with
  | some o => applySetMir st' iq.1 o.1 o.2
  | none => st'

/-- The cell of a grid at row i, column j through the row-major layout (the
in-range unchecked read cells[i * colCount + j] used by rows, columns and the
relink pass). -/
def cellD (g : Grid) (i j : ℕ) : Option BezierPatch3 :=
  g.cells.getD (i * g.colCount + j) none

/-- A composite patch grid in its documented shape: a dense row-major cell
array, strictly increasing u breakpoints ub (one per column boundary, from 0
to 1) and v breakpoints vb (one per row boundary), and every cell present
with the Domain of its grid position.  This is the data-model invariant of
the specification (cell Domains tile the unit square along grid lines). -/
def StructuredDomains (g : Grid) (ub vb : List ℚ) : Prop :=
  g.cells.length = g.rowCount * g.colCount ∧
  1 ≤ g.rowCount ∧ 1 ≤ g.colCount ∧
  ub.length = g.colCount + 1 ∧ vb.length = g.rowCount + 1 ∧
  ub.getD 0 0 = 0 ∧ ub.getD g.colCount 0 = 1 ∧
  vb.getD 0 0 = 0 ∧ vb.getD g.rowCount 0 = 1 ∧
  (∀ j < g.colCount, ub.getD j 0 < ub.getD (j + 1) 0) ∧
  (∀ i < g.rowCount, vb.getD i 0 < vb.getD (i + 1) 0) ∧
  (∀ i < g.rowCount, ∀ j < g.colCount, (cellD g i j).isSome ∧
    ((cellD g i j).map (fun p => p.domain)).getD default =
      ⟨ub.getD j 0, vb.getD i 0, ub.getD (j + 1) 0, vb.getD (i + 1) 0⟩)

/-- The cell Domains tile the unit parametric square: every point of the
square lies in some cell's Domain, and the open interiors of the Domains of
two cells at different grid positions are disjoint. -/
def Tiles (g : Grid) : Prop :=
  (∀ u v : ℚ, 0 ≤ u → u ≤ 1 → 0 ≤ v → v ≤ 1 →
    ∃ i < g.rowCount, ∃ j < g.colCount, ∃ p, cellD g i j = some p ∧
      p.domain.contains u v) ∧
  (∀ i < g.rowCount, ∀ j < g.colCount, ∀ i' < g.rowCount, ∀ j' < g.colCount,
    (i, j) ≠ (i', j') →
    ∀ p q, cellD g i j = some p → cellD g i' j' = some q →
    ¬∃ u v : ℚ, p.domain.u0 < u ∧ u < p.domain.u1 ∧
      p.domain.v0 < v ∧ v < p.domain.v1 ∧
      q.domain.u0 < u ∧ u < q.domain.u1 ∧
      q.domain.v0 < v ∧ v < q.domain.v1)

/-- Two vertically adjacent patches share their horizontal boundary by
reference: the top rail slots (12..15) of the lower patch hold the same
ControlPoint ids as the bottom rail slots (0..3) of the upper patch. -/
def SharedHEdge (p q : BezierPatch3) : Prop :=
  slotId p 12 = slotId q 0 ∧ slotId p 13 = slotId q 1 ∧
  slotId p 14 = slotId q 2 ∧ slotId p 15 = slotId q 3

/-- Two horizontally adjacent patches share their vertical boundary by
reference: the right column slots (3, 7, 11, 15) of the left patch hold the
same ControlPoint ids as the left column slots (0, 4, 8, 12) of the right
patch. -/
def SharedVEdge (p q : BezierPatch3) : Prop :=
  slotId p 3 = slotId q 0 ∧ slotId p 7 = slotId q 4 ∧
  slotId p 11 = slotId q 8 ∧ slotId p 15 = slotId q 12

/-- Every pair of grid-adjacent cells references the same ControlPoint
objects at their four shared boundary slots. -/
def EdgeSharing (g : Grid) : Prop :=
  (∀ i j, i + 1 < g.rowCount → j < g.colCount →
    ∀ p q, cellD g i j = some p → cellD g (i + 1) j = some q →
    SharedHEdge p q) ∧
  (∀ i j, i < g.rowCount → j + 1 < g.colCount →
    ∀ p q, cellD g i j = some p → cellD g i (j + 1) = some q →
    SharedVEdge p q)

/-- Pure recursion equivalent to the subdivideHorizontal column loop on a
fully populated row: process the cells left to right, threading the arena
and the previously built bottom/top pair. -/
def subHBuildGo (v : ℚ) (st : Store)
    (prev : Option (BezierPatch3 × BezierPatch3)) :
    List BezierPatch3 → Store × List BezierPatch3 × List BezierPatch3
  | [] => (st, [], [])
  | cur :: rest =>
    let r := subHStep st cur v prev
    let res := subHBuildGo v r.1 (some (r.2.1, r.2.2)) rest
    (res.1, r.2.1 :: res.2.1, r.2.2 :: res.2.2)

/-- Pure recursion equivalent to the subdivideVertical row loop on a fully
populated column. -/
def subVBuildGo (u : ℚ) (st : Store)
    (prev : Option (BezierPatch3 × BezierPatch3)) :
    List BezierPatch3 → Store × List BezierPatch3 × List BezierPatch3
  | [] => (st, [], [])
  | cur :: rest =>
    let r := subVStep st cur u prev
    let res := subVBuildGo u r.1 (some (r.2.1, r.2.2)) rest
    (res.1, r.2.1 :: res.2.1, r.2.2 :: res.2.2)

/-- The patches of grid row r in column order: the input of the
subdivideHorizontal loop when the row is fully populated. -/
def rowPatches (g : Grid) (r : ℕ) : List BezierPatch3 :=
  (List.range' 0 g.colCount).map
    (fun m => (g.cells.getD (r * g.colCount + m) none).getD default)

/-- The patches of grid column c in row order: the input of the
subdivideVertical loop when the column is fully populated. -/
def colPatches (g : Grid) (c : ℕ) : List BezierPatch3 :=
  (List.range' 0 g.rowCount).map
    (fun m => (g.cells.getD (m * g.colCount + c) none).getD default)

/-- A primitive position-only store operation: overwrite the position of an
existing ControlPoint (Vector3.copy) or append a fresh one
(ControlPoint.fromVector).  The subdivision loops touch the arena only
through these two operations. -/
inductive PosOp where
  | set : ℕ → V3 → PosOp
  | push : V3 → PosOp
deriving DecidableEq, Repr

/-- Run a list of position operations in order. -/
def runPosOps (st : Store) (ops : List PosOp) : Store :=
  ops.foldl (fun s op => match op with
    | PosOp.set i p => setPos s i p
    | PosOp.push p => pushCP s p) st

/-- The values pushed by a list of position operations, in order. -/
def pushVals : List PosOp → List V3
  | [] => []
  | PosOp.set _ _ :: rest => pushVals rest
  | PosOp.push p :: rest => p :: pushVals rest

/-- The number of pushes in a list of position operations. -/
def pushCount : List PosOp → ℕ
  | [] => 0
  | PosOp.set _ _ :: rest => pushCount rest
  | PosOp.push _ :: rest => pushCount rest + 1

/-- The ids targeted by the sets of a list of position operations. -/
def setTargets : List PosOp → List ℕ
  | [] => []
  | PosOp.set i _ :: rest => i :: setTargets rest
  | PosOp.push _ :: rest => setTargets rest

/-- The last value a list of position operations writes at an id, starting
from arena size n, if any: a set takes effect only on a live id, a push
writes the id equal to the arena size at its moment. -/
def opsWrite (n : ℕ) : List PosOp → ℕ → Option V3
  | [], _ => none
  | PosOp.set i p :: rest, id =>
    match opsWrite n rest id with
    | some w => some w
    | none => if id = i ∧ i < n then some p else none
  | PosOp.push p :: rest, id =>
    match opsWrite (n + 1) rest id with
    | some w => some w
    | none => if id = n then some p else none

/-- The four control positions of net column x of a patch, in v order (the
input of one subdivideCurve call of subdivideHorizontal). -/
def colVals (st : Store) (q : BezierPatch3) (x : ℕ) : List V3 :=
  [netV st q x, netV st q (4 + x), netV st q (8 + x), netV st q (12 + x)]

/-- The four control positions of net row y of a patch, in u order (the
input of one subdivideCurve call of subdivideVertical). -/
def rowVals (st : Store) (q : BezierPatch3) (y : ℕ) : List V3 :=
  [netV st q (4 * y), netV st q (4 * y + 1), netV st q (4 * y + 2),
   netV st q (4 * y + 3)]

/-- The patch at a grid position (default on a null cell). -/
def cellPatch (g : Grid) (i j : ℕ) : BezierPatch3 := (cellD g i j).getD default

/-- Every control-point id referenced from the grid is live in an arena of
size n. -/
def ClosedIds (g : Grid) (n : ℕ) : Prop :=
  ∀ c ∈ g.cells, ∀ p, c = some p → ∀ id ∈ p.controlPoints, id < n

/-- The interior net slots of row r (net rows 1 and 2, slots 4..11, the only
slots subdivideHorizontal overwrites) are referenced nowhere else in the
grid: an id equal to such a slot's id comes from the same slot, or from the
mandated vertical-edge sharing with the horizontally adjacent cell of the
same row (slot 7 with the right neighbour's 4, slot 11 with its 8). -/
def RowMidDistinct (g : Grid) (r : ℕ) : Prop :=
  ∀ j' < g.colCount, ∀ k', 4 ≤ k' → k' ≤ 11 →
  ∀ i < g.rowCount, ∀ j < g.colCount, ∀ k < 16,
  slotId (cellPatch g i j) k = slotId (cellPatch g r j') k' →
  (i = r ∧ j = j' ∧ k = k') ∨
  (i = r ∧ j = j' + 1 ∧ ((k = 4 ∧ k' = 7) ∨ (k = 8 ∧ k' = 11))) ∨
  (i = r ∧ j + 1 = j' ∧ ((k = 7 ∧ k' = 4) ∨ (k = 11 ∧ k' = 8)))

/-- The interior net slots of column c (net columns 1 and 2, slots with
k mod 4 in {1, 2}, the only slots subdivideVertical overwrites) are
referenced nowhere else in the grid, apart from the mandated
horizontal-edge sharing with the vertically adjacent cell of the same
column. -/
def ColMidDistinct (g : Grid) (c : ℕ) : Prop :=
  ∀ i' < g.rowCount, ∀ k' < 16, (k' % 4 = 1 ∨ k' % 4 = 2) →
  ∀ i < g.rowCount, ∀ j < g.colCount, ∀ k < 16,
  slotId (cellPatch g i j) k = slotId (cellPatch g i' c) k' →
  (j = c ∧ i = i' ∧ k = k') ∨
  (j = c ∧ i = i' + 1 ∧ ((k = 1 ∧ k' = 13) ∨ (k = 2 ∧ k' = 14))) ∨
  (j = c ∧ i + 1 = i' ∧ ((k = 13 ∧ k' = 1) ∨ (k = 14 ∧ k' = 2)))

/-- The ids the tail of the subdivideHorizontal loop from column j0 on can
still overwrite: interior slots 5, 6, 7, 9, 10, 11 of the remaining cells of
row r, plus slots 4 and 8 of the first cell when it is still to come. -/
def RowFineWrites (g : Grid) (r j0 id : ℕ) : Prop :=
  ∃ j', j0 ≤ j' ∧ j' < g.colCount ∧ ∃ k',
    ((k' = 5 ∨ k' = 6 ∨ k' = 7 ∨ k' = 9 ∨ k' = 10 ∨ k' = 11) ∨
      (j' = 0 ∧ (k' = 4 ∨ k' = 8))) ∧
    id = slotId (cellPatch g r j') k'

/-- The ids the tail of the subdivideVertical loop from row i0 on can still
overwrite. -/
def ColFineWrites (g : Grid) (c i0 id : ℕ) : Prop :=
  ∃ i', i0 ≤ i' ∧ i' < g.rowCount ∧ ∃ k',
    ((k' = 5 ∨ k' = 6 ∨ k' = 9 ∨ k' = 10 ∨ k' = 13 ∨ k' = 14) ∨
      (i' = 0 ∧ (k' = 1 ∨ k' = 2))) ∧
    id = slotId (cellPatch g i' c) k'

/-- The position operations of one subdivideHorizontal step on the first
cell of the row (no previous column), in source order. -/
def hOpsNone (st : Store) (cur : BezierPatch3) (v : ℚ) : List PosOp :=
  let cp := fun k => slotId cur k
  let t := (v - cur.domain.v0) / (cur.domain.v1 - cur.domain.v0)
  let a := subdivideCurve t
    [valAt st (cp 0), valAt st (cp 4), valAt st (cp 8), valAt st (cp 12)]
  let b := subdivideCurve t
    [valAt st (cp 1), valAt st (cp 5), valAt st (cp 9), valAt st (cp 13)]
  let c := subdivideCurve t
    [valAt st (cp 2), valAt st (cp 6), valAt st (cp 10), valAt st (cp 14)]
  let d := subdivideCurve t
    [valAt st (cp 3), valAt st (cp 7), valAt st (cp 11), valAt st (cp 15)]
  [PosOp.set (cp 4) (a.1.getD 1 default),
   PosOp.push (a.1.getD 2 default),
   PosOp.set (cp 8) (a.2.getD 2 default),
   PosOp.push (a.2.getD 1 default),
   PosOp.push (a.2.getD 0 default),
   PosOp.set (cp 7) (d.1.getD 1 default),
   PosOp.push (d.1.getD 2 default),
   PosOp.set (cp 5) (b.1.getD 1 default),
   PosOp.set (cp 6) (c.1.getD 1 default),
   PosOp.push (b.1.getD 2 default),
   PosOp.push (c.1.getD 2 default),
   PosOp.set (cp 11) (d.2.getD 2 default),
   PosOp.push (d.2.getD 1 default),
   PosOp.push (b.2.getD 1 default),
   PosOp.push (c.2.getD 1 default),
   PosOp.set (cp 9) (b.2.getD 2 default),
   PosOp.set (cp 10) (c.2.getD 2 default),
   PosOp.push (b.2.getD 0 default),
   PosOp.push (c.2.getD 0 default),
   PosOp.push (d.2.getD 0 default)]

/-- The position operations of one subdivideHorizontal step on a later cell
of the row (left edge reused from the previous column), in source order. -/
def hOpsSome (st : Store) (cur : BezierPatch3) (v : ℚ) : List PosOp :=
  let cp := fun k => slotId cur k
  let t := (v - cur.domain.v0) / (cur.domain.v1 - cur.domain.v0)
  let b := subdivideCurve t
    [valAt st (cp 1), valAt st (cp 5), valAt st (cp 9), valAt st (cp 13)]
  let c := subdivideCurve t
    [valAt st (cp 2), valAt st (cp 6), valAt st (cp 10), valAt st (cp 14)]
  let d := subdivideCurve t
    [valAt st (cp 3), valAt st (cp 7), valAt st (cp 11), valAt st (cp 15)]
  [PosOp.set (cp 7) (d.1.getD 1 default),
   PosOp.push (d.1.getD 2 default),
   PosOp.set (cp 5) (b.1.getD 1 default),
   PosOp.set (cp 6) (c.1.getD 1 default),
   PosOp.push (b.1.getD 2 default),
   PosOp.push (c.1.getD 2 default),
   PosOp.set (cp 11) (d.2.getD 2 default),
   PosOp.push (d.2.getD 1 default),
   PosOp.push (b.2.getD 1 default),
   PosOp.push (c.2.getD 1 default),
   PosOp.set (cp 9) (b.2.getD 2 default),
   PosOp.set (cp 10) (c.2.getD 2 default),
   PosOp.push (b.2.getD 0 default),
   PosOp.push (c.2.getD 0 default),
   PosOp.push (d.2.getD 0 default)]

/-- The invariant carried for the previous column's bottom/top patches
through the subdivideHorizontal loop: their right-edge slots hold the
original shared-column ids (net rows 0 and 2 of the old cell) or fresh ids,
and read the subdivided halves of the shared column's curve. -/
def HPrevInv (g : Grid) (r : ℕ) (t : ℚ) (st0 st : Store) (j : ℕ)
    (pb pt : BezierPatch3) : Prop :=
  slotId pb 3 = slotId (cellPatch g r (j - 1)) 3 ∧
  slotId pb 7 = slotId (cellPatch g r (j - 1)) 7 ∧
  st0.size ≤ slotId pb 11 ∧ slotId pb 11 < st.size ∧
  st0.size ≤ slotId pb 15 ∧ slotId pb 15 < st.size ∧
  st0.size ≤ slotId pt 3 ∧ slotId pt 3 < st.size ∧
  st0.size ≤ slotId pt 7 ∧ slotId pt 7 < st.size ∧
  slotId pt 11 = slotId (cellPatch g r (j - 1)) 11 ∧
  slotId pt 15 = slotId (cellPatch g r (j - 1)) 15 ∧
  (∀ y < 4, valAt st (slotId pb (4 * y + 3))
    = (subdivideCurve t
        (colVals st0 (cellPatch g r (j - 1)) 3)).1.getD y default) ∧
  (∀ y < 4, valAt st (slotId pt (4 * y + 3))
    = (subdivideCurve t
        (colVals st0 (cellPatch g r (j - 1)) 3)).2.getD y default)

/-- A concrete 16-point arena whose points all sit at (1, 2, 0), used in
witnesses. -/
def sampleStore : Store := Array.mk (List.replicate 16 (freshCP ⟨1, 2, 0⟩))

/-- A concrete unit-domain patch over the ids 0..15. -/
def samplePatch : BezierPatch3 :=
  ⟨⟨0, 0, 1, 1⟩, [0, 1, 2, 3, 4, 5, 6, 7, 8, 9, 10, 11, 12, 13, 14, 15]⟩

/-- A concrete one-cell composite patch. -/
def sampleState : PatchState := ⟨⟨1, 1, [some samplePatch]⟩, sampleStore⟩

end BMP

namespace BMP

/-- Closed form of subdivideCurve on a 4-point curve: the left and right
de Casteljau triangles. -/
theorem subdivideCurve_four (t : ℚ) (p0 p1 p2 p3 : V3) :
    subdivideCurve t [p0, p1, p2, p3] =
      ([p0, V3.lerp p0 p1 t,
        V3.lerp (V3.lerp p0 p1 t) (V3.lerp p1 p2 t) t,
        V3.lerp (V3.lerp (V3.lerp p0 p1 t) (V3.lerp p1 p2 t) t)
          (V3.lerp (V3.lerp p1 p2 t) (V3.lerp p2 p3 t) t) t],
       [V3.lerp (V3.lerp (V3.lerp p0 p1 t) (V3.lerp p1 p2 t) t)
          (V3.lerp (V3.lerp p1 p2 t) (V3.lerp p2 p3 t) t) t,
        V3.lerp (V3.lerp p1 p2 t) (V3.lerp p2 p3 t) t,
        V3.lerp p2 p3 t, p3]) := by
  rfl

/-- Two V3 values with equal components are equal. -/
theorem V3.ext' {a b : V3} (hx : a.x = b.x) (hy : a.y = b.y) (hz : a.z = b.z) :
    a = b := by
  cases a; cases b; simp_all

/-- Scalar de Casteljau identity, left piece: the left subdivided cubic
evaluated at s equals the original cubic evaluated at t * s. -/
theorem cubicQ_left (a b c d t s : ℚ) :
    cubicQ a (lerpQ a b t) (lerpQ (lerpQ a b t) (lerpQ b c t) t)
      (lerpQ (lerpQ (lerpQ a b t) (lerpQ b c t) t)
        (lerpQ (lerpQ b c t) (lerpQ c d t) t) t) s
      = cubicQ a b c d (t * s) := by
  simp only [cubicQ, lerpQ, bernstein3]
  ring

/-- Scalar de Casteljau identity, right piece: the right subdivided cubic
evaluated at s equals the original cubic evaluated at t + (1 - t) * s. -/
theorem cubicQ_right (a b c d t s : ℚ) :
    cubicQ (lerpQ (lerpQ (lerpQ a b t) (lerpQ b c t) t)
        (lerpQ (lerpQ b c t) (lerpQ c d t) t) t)
      (lerpQ (lerpQ b c t) (lerpQ c d t) t) (lerpQ c d t) d s
      = cubicQ a b c d (t + (1 - t) * s) := by
  simp only [cubicQ, lerpQ, bernstein3]
  ring

/-- The full de Casteljau point equals the curve value at t. -/
theorem cubicQ_apex (a b c d t : ℚ) :
    lerpQ (lerpQ (lerpQ a b t) (lerpQ b c t) t)
      (lerpQ (lerpQ b c t) (lerpQ c d t) t) t = cubicQ a b c d t := by
  simp only [cubicQ, lerpQ, bernstein3]
  ring

/-- V3 version of the left de Casteljau identity. -/
theorem curveCompute_left (p0 p1 p2 p3 : V3) (t s : ℚ) :
    curveCompute p0 (V3.lerp p0 p1 t)
      (V3.lerp (V3.lerp p0 p1 t) (V3.lerp p1 p2 t) t)
      (V3.lerp (V3.lerp (V3.lerp p0 p1 t) (V3.lerp p1 p2 t) t)
        (V3.lerp (V3.lerp p1 p2 t) (V3.lerp p2 p3 t) t) t) s
      = curveCompute p0 p1 p2 p3 (t * s) := by
  apply V3.ext' <;> simp only [curveCompute, V3.lerp] <;>
    exact cubicQ_left _ _ _ _ _ _

/-- V3 version of the right de Casteljau identity. -/
theorem curveCompute_right (p0 p1 p2 p3 : V3) (t s : ℚ) :
    curveCompute (V3.lerp (V3.lerp (V3.lerp p0 p1 t) (V3.lerp p1 p2 t) t)
        (V3.lerp (V3.lerp p1 p2 t) (V3.lerp p2 p3 t) t) t)
      (V3.lerp (V3.lerp p1 p2 t) (V3.lerp p2 p3 t) t) (V3.lerp p2 p3 t) p3 s
      = curveCompute p0 p1 p2 p3 (t + (1 - t) * s) := by
  apply V3.ext' <;> simp only [curveCompute, V3.lerp] <;>
    exact cubicQ_right _ _ _ _ _ _

/-- V3 version of the apex identity. -/
theorem curveCompute_apex (p0 p1 p2 p3 : V3) (t : ℚ) :
    V3.lerp (V3.lerp (V3.lerp p0 p1 t) (V3.lerp p1 p2 t) t)
      (V3.lerp (V3.lerp p1 p2 t) (V3.lerp p2 p3 t) t) t
      = curveCompute p0 p1 p2 p3 t := by
  apply V3.ext' <;> simp only [curveCompute, V3.lerp] <;>
    exact cubicQ_apex _ _ _ _ _

/-- Claim C3.  Curve subdivision correctness: for every cubic curve given as 4
ordered points and every t strictly between 0 and 1, Util.subdivideCurve
returns two 4-point curves (c0, c1) such that the last point of c0 and the
first point of c1 both equal the de Casteljau evaluation of the curve at t,
and the original curve evaluated at any s in the unit interval equals c0
evaluated at s / t when s is at most t, and c1 evaluated at
(s - t) / (1 - t) when s exceeds t. -/
theorem claim3_subdivideCurve_correct (p0 p1 p2 p3 : V3) (t : ℚ)
    (ht0 : 0 < t) (ht1 : t < 1) :
    ((subdivideCurve t [p0, p1, p2, p3]).1.length = 4 ∧
     (subdivideCurve t [p0, p1, p2, p3]).2.length = 4) ∧
    (subdivideCurve t [p0, p1, p2, p3]).1.getD 3 default
      = curveCompute p0 p1 p2 p3 t ∧
    (subdivideCurve t [p0, p1, p2, p3]).2.getD 0 default
      = curveCompute p0 p1 p2 p3 t ∧
    ∀ s : ℚ, 0 ≤ s → s ≤ 1 →
      (s ≤ t → curveCompute p0 p1 p2 p3 s =
        curveCompute
          ((subdivideCurve t [p0, p1, p2, p3]).1.getD 0 default)
          ((subdivideCurve t [p0, p1, p2, p3]).1.getD 1 default)
          ((subdivideCurve t [p0, p1, p2, p3]).1.getD 2 default)
          ((subdivideCurve t [p0, p1, p2, p3]).1.getD 3 default) (s / t)) ∧
      (t < s → curveCompute p0 p1 p2 p3 s =
        curveCompute
          ((subdivideCurve t [p0, p1, p2, p3]).2.getD 0 default)
          ((subdivideCurve t [p0, p1, p2, p3]).2.getD 1 default)
          ((subdivideCurve t [p0, p1, p2, p3]).2.getD 2 default)
          ((subdivideCurve t [p0, p1, p2, p3]).2.getD 3 default)
          ((s - t) / (1 - t))) := by
  have ht0' : t ≠ 0 := ne_of_gt ht0
  have ht1' : (1 : ℚ) - t ≠ 0 := by
    intro h
    have : t = 1 := by linarith
    exact absurd this (ne_of_lt ht1)
  rw [subdivideCurve_four]
  refine ⟨⟨rfl, rfl⟩, ?_, ?_, ?_⟩
  · simpa using curveCompute_apex p0 p1 p2 p3 t
  · simpa using curveCompute_apex p0 p1 p2 p3 t
  · intro s _ _
    constructor
    · intro _
      have h := curveCompute_left p0 p1 p2 p3 t (s / t)
      have harg : t * (s / t) = s := by field_simp
      rw [harg] at h
      simpa using h.symm
    · intro _
      have h := curveCompute_right p0 p1 p2 p3 t ((s - t) / (1 - t))
      have harg : t + (1 - t) * ((s - t) / (1 - t)) = s := by field_simp
      rw [harg] at h
      simpa using h.symm

/-- Witness for claim C3 at a concrete curve and split parameter t = 1/2. -/
theorem claim3_witness :
    ((0 : ℚ) < 1 / 2 ∧ (1 : ℚ) / 2 < 1) ∧
    (subdivideCurve (1 / 2)
        [⟨0, 0, 0⟩, ⟨1, 2, 0⟩, ⟨3, 1, 0⟩, ⟨4, 0, 0⟩]).1.getD 3 default
      = curveCompute ⟨0, 0, 0⟩ ⟨1, 2, 0⟩ ⟨3, 1, 0⟩ ⟨4, 0, 0⟩ (1 / 2) := by
  refine ⟨⟨by norm_num, by norm_num⟩, ?_⟩
  exact (claim3_subdivideCurve_correct ⟨0, 0, 0⟩ ⟨1, 2, 0⟩ ⟨3, 1, 0⟩ ⟨4, 0, 0⟩
    (1 / 2) (by norm_num) (by norm_num)).2.1

/-- On a grid whose cells are all non-null, the Patch.compute scan returns
the evaluation of the first cell (in list order) whose Domain contains the
query point, and nothing when no cell contains it. -/
theorem computeCells_eq_find (st : Store) (cells : List (Option BezierPatch3))
    (u v : ℚ) (mode : String) (hfull : ∀ c ∈ cells, c.isSome) :
    computeCells st cells u v mode =
      ((cells.filterMap id).find? (fun p => p.domain.contains u v)).map
        (fun p => patchComputeE st p u v mode) := by
  induction cells with
  | nil => rfl
  | cons c rest ih =>
    cases c with
    | none =>
      have := hfull none (by simp)
      simp at this
    | some p =>
      by_cases h : p.domain.contains u v
      · simp [computeCells, h, List.find?_cons_of_pos]
      · have h' : (p.domain.contains u v) = false := by
          simpa using h
        simp only [computeCells, List.filterMap_cons, id, h', if_false]
        rw [List.find?_cons_of_neg _ (by simp [h'])]
        exact ih (fun c hc => hfull c (by simp [hc]))

/-- Claim C6.  Patch.compute dispatch: on a grid with no null cells the scan
visits the cells in row-major order and returns the evaluation of the first
cell whose Domain contains (u, v); the Domain containment test is inclusive
on both ends of each axis, so a point on a boundary shared by two domains
resolves to the earlier cell in scan order, and if no cell contains the
point, no point is returned. -/
theorem claim6_compute_dispatch (s : PatchState) (u v : ℚ) (mode : String)
    (hfull : ∀ c ∈ s.grid.cells, c.isSome) :
    patchCompute s u v mode =
      ((s.grid.cells.filterMap id).find? (fun p => p.domain.contains u v)).map
        (fun p => patchComputeE s.store p u v mode) ∧
    ∀ (d : Domain) (a b : ℚ),
      d.contains a b = true ↔ (d.u0 ≤ a ∧ a ≤ d.u1 ∧ d.v0 ≤ b ∧ b ≤ d.v1) := by
  constructor
  · exact computeCells_eq_find s.store s.grid.cells u v mode hfull
  · intro d a b
    simp [Domain.contains, ge_iff_le, and_assoc]

/-- Witness for claim C6 on a concrete one-cell composite patch. -/
theorem claim6_witness :
    (∀ c ∈ sampleState.grid.cells, c.isSome) ∧
    patchCompute sampleState (1 / 2) (1 / 3) "bezier" =
      ((sampleState.grid.cells.filterMap id).find?
          (fun p => p.domain.contains (1 / 2) (1 / 3))).map
        (fun p => patchComputeE sampleState.store p (1 / 2) (1 / 3) "bezier") :=
  ⟨by decide,
   (claim6_compute_dispatch sampleState (1 / 2) (1 / 3) "bezier" (by decide)).1⟩

/-- Claim C9.  Programmer errors fail immediately: an invalid Bernstein basis
or derivative index throws, an invalid patch compute mode throws, and the
BezierCurve3 constructor throws unless exactly 4 points are supplied. -/
theorem claim9_programmer_errors_throw :
    (∀ (i : ℤ) (t : ℚ), i ≠ 0 → i ≠ 1 → i ≠ 2 → i ≠ 3 →
      isErr (computeBernsteinBasis3E i t) = true ∧
      isErr (computeBernsetinDerivative3E i t) = true) ∧
    (∀ (st : Store) (p : BezierPatch3) (u v : ℚ) (mode : String),
      mode ≠ "bezier" → mode ≠ "linear" →
      isErr (patchComputeE st p u v mode) = true) ∧
    ∀ pts : List V3, pts.length ≠ 4 → isErr (mkBezierCurve3 pts) = true := by
  refine ⟨?_, ?_, ?_⟩
  · intro i t h0 h1 h2 h3
    constructor <;>
      simp [computeBernsteinBasis3E, computeBernsetinDerivative3E,
        h0, h1, h2, h3, isErr]
  · intro st p u v mode hb hl
    simp [patchComputeE, hb, hl, isErr]
  · intro pts h
    simp [mkBezierCurve3, h, isErr]

/-- Witness for claim C9 at concrete invalid inputs. -/
theorem claim9_witness :
    ((5 : ℤ) ≠ 0 ∧ "coons" ≠ "bezier" ∧ ([] : List V3).length ≠ 4) ∧
    isErr (computeBernsteinBasis3E 5 0) = true ∧
    isErr (patchComputeE sampleStore samplePatch 0 0 "coons") = true ∧
    isErr (mkBezierCurve3 []) = true :=
  ⟨⟨by decide, by decide, by decide⟩,
   (claim9_programmer_errors_throw.1 5 0 (by decide) (by decide) (by decide)
      (by decide)).1,
   claim9_programmer_errors_throw.2.1 sampleStore samplePatch 0 0 "coons"
     (by decide) (by decide),
   claim9_programmer_errors_throw.2.2 [] (by decide)⟩

/-- Counterexample for claim C7 as stated: BezierPatch3.compute does modify
program state outside the patch, namely the module-level scratch buffers
(buffers.vec3), whose entries 0 and 1 it overwrites; the returned point is an
alias of buffer 0.  At this concrete call the buffer state after the call
differs from the buffer state before it. -/
theorem claim7_counterexample :
    (patchComputeBuf initBuffers sampleStore samplePatch (1 / 2) (1 / 2)
        "linear").toOption =
      some (⟨1, 2, 0⟩,
        ((initBuffers.set 0 ⟨1, 2, 0⟩).set 1 ⟨1, 2, 0⟩), sampleStore) ∧
    ((initBuffers.set 0 (⟨1, 2, 0⟩ : V3)).set 1 ⟨1, 2, 0⟩) ≠ initBuffers := by
  constructor
  · simp only [patchComputeBuf, samplePatch, sampleStore, initBuffers, netV,
      valAt, getCP, slotId, V3.lerp, lerpQ, Except.toOption]
    norm_num [List.replicate, List.range, List.range', List.getD, freshCP,
      V3.lerp, lerpQ]
  · simp only [initBuffers, List.replicate, List.set, ne_eq, List.cons.injEq,
      not_and]
    intro h
    rw [show (default : V3) = ⟨0, 0, 0⟩ from rfl] at h
    simp at h

/-- Claim C7, amended.  BezierPatch3.compute never writes the control-point
arena (so the patch's control points and Domain are unchanged), and its
returned point value is a pure function of (u, v, mode, control values): it
does not depend on the scratch-buffer state, so two calls with the same
arguments and control values return the same point value.  The only state it
writes is the module-level scratch buffer pair. -/
theorem claim7_amended_compute_pure (bufs1 bufs2 : Buffers) (st : Store)
    (p : BezierPatch3) (u v : ℚ) (mode : String) :
    (patchComputeBuf bufs1 st p u v mode).map (fun r => r.1)
      = patchComputeE st p u v mode ∧
    (patchComputeBuf bufs1 st p u v mode).map (fun r => r.2.2)
      = (patchComputeE st p u v mode).map (fun _ => st) ∧
    (patchComputeBuf bufs1 st p u v mode).map (fun r => r.1)
      = (patchComputeBuf bufs2 st p u v mode).map (fun r => r.1) := by
  by_cases hl : mode = "linear"
  · simp [patchComputeBuf, patchComputeE, hl, Except.map]
  · by_cases hb : mode = "bezier"
    · simp [patchComputeBuf, patchComputeE, hl, hb, Except.map]
    · simp [patchComputeBuf, patchComputeE, hl, hb, Except.map]

/-- Witness for the amended claim C7 (the statement has no hypotheses; this
instantiates it at a concrete call). -/
theorem claim7_witness :
    (patchComputeBuf initBuffers sampleStore samplePatch (1 / 3) (1 / 4)
        "bezier").map (fun r => r.1)
      = patchComputeE sampleStore samplePatch (1 / 3) (1 / 4) "bezier" :=
  (claim7_amended_compute_pure initBuffers initBuffers sampleStore samplePatch
    (1 / 3) (1 / 4) "bezier").1

/-- The row search returns -1 when every row's first cell exists and none of
their v spans contains v. -/
theorem findRowIndexGo_none (v : ℚ) (rows : List (List (Option BezierPatch3)))
    (idx : ℤ)
    (h : ∀ r ∈ rows, ∃ p, r.headD none = some p ∧
      ¬(p.domain.v0 ≤ v ∧ v ≤ p.domain.v1)) :
    findRowIndexGo v rows idx = Except.ok (-1) := by
  induction rows generalizing idx with
  | nil => rfl
  | cons r rest ih =>
    obtain ⟨p, hp, hnp⟩ := h r (by simp)
    simp only [findRowIndexGo, hp]
    rw [if_neg hnp]
    exact ih _ (fun r' hr' => h r' (by simp [hr']))

/-- The column search returns -1 when every column's first cell exists and
none of their u spans contains u. -/
theorem findColIndexGo_none (u : ℚ) (cols : List (List (Option BezierPatch3)))
    (idx : ℤ)
    (h : ∀ r ∈ cols, ∃ p, r.headD none = some p ∧
      ¬(p.domain.u0 ≤ u ∧ u ≤ p.domain.u1)) :
    findColIndexGo u cols idx = Except.ok (-1) := by
  induction cols generalizing idx with
  | nil => rfl
  | cons r rest ih =>
    obtain ⟨p, hp, hnp⟩ := h r (by simp)
    simp only [findColIndexGo, hp]
    rw [if_neg hnp]
    exact ih _ (fun r' hr' => h r' (by simp [hr']))

/-- Every row produced by Grid.rows has the form of the map over its column
indices. -/
theorem mem_rowsL (g : Grid) (r : List (Option BezierPatch3))
    (hr : r ∈ g.rowsL) :
    ∃ i < g.rowCount,
      r = (List.range g.colCount).map
        (fun j => g.cells.getD (i * g.colCount + j) none) := by
  simp only [Grid.rowsL, List.mem_map, List.mem_range] at hr
  obtain ⟨i, hi, hr⟩ := hr
  exact ⟨i, hi, hr.symm⟩

/-- Every column produced by Grid.columns has the form of the map over its
row indices. -/
theorem mem_columnsL (g : Grid) (r : List (Option BezierPatch3))
    (hr : r ∈ g.columnsL) :
    ∃ j < g.colCount,
      r = (List.range g.rowCount).map
        (fun i => g.cells.getD (i * g.colCount + j) none) := by
  simp only [Grid.columnsL, List.mem_map, List.mem_range] at hr
  obtain ⟨j, hj, hr⟩ := hr
  exact ⟨j, hj, hr.symm⟩

/-- The head of a map over the range 0 .. n - 1 with n positive. -/
theorem headD_map_range {α : Type} (n : ℕ) (hn : 1 ≤ n) (f : ℕ → α) (d : α) :
    ((List.range n).map f).headD d = f 0 := by
  cases n with
  | zero => omega
  | succ k =>
    rw [List.range_succ_eq_map]
    rfl

/-- A getD at an in-range position of a full cell list is some cell. -/
theorem getD_isSome_of_full (cells : List (Option BezierPatch3)) (k : ℕ)
    (hk : k < cells.length) (hfull : ∀ c ∈ cells, c.isSome) :
    ∃ p, cells.getD k none = some p := by
  rw [List.getD_eq_getElem?_getD, List.getElem?_eq_getElem hk]
  have := hfull cells[k] (List.getElem_mem hk)
  cases h : cells[k] with
  | none => rw [h] at this; simp at this
  | some p => exact ⟨p, rfl⟩

/-- Claim C10.  Atomicity of subdivision on an out-of-range parameter: when
the split coordinate lies in no row's v span (respectively no column's u
span) of a well-formed grid, subdivideHorizontal (respectively
subdivideVertical) throws while reading the nonexistent row (column) and no
mutation has happened: the resulting state, with its grid, its cells and all
its control points, is exactly the state before the call. -/
theorem claim10_out_of_range_subdivision_atomic (s : PatchState) (v u : ℚ)
    (hlen : s.grid.cells.length = s.grid.rowCount * s.grid.colCount)
    (hrows : 1 ≤ s.grid.rowCount) (hcols : 1 ≤ s.grid.colCount)
    (hfull : ∀ c ∈ s.grid.cells, c.isSome)
    (hnorow : ∀ i < s.grid.rowCount, ∀ p,
      s.grid.cells.getD (i * s.grid.colCount) none = some p →
      ¬(p.domain.v0 ≤ v ∧ v ≤ p.domain.v1))
    (hnocol : ∀ j < s.grid.colCount, ∀ p,
      s.grid.cells.getD j none = some p →
      ¬(p.domain.u0 ≤ u ∧ u ≤ p.domain.u1)) :
    (∃ msg, subdivideHorizontalRun s v = (s, some msg)) ∧
    (∃ msg, subdivideVerticalRun s u = (s, some msg)) := by
  constructor
  · refine ⟨"TypeError: cannot read cells of undefined row", ?_⟩
    have hfind : findRowIndexGo v s.grid.rowsL 0 = Except.ok (-1) := by
      apply findRowIndexGo_none
      intro r hr
      obtain ⟨i, hi, rfl⟩ := mem_rowsL s.grid r hr
      rw [headD_map_range _ hcols]
      have hk : i * s.grid.colCount < s.grid.cells.length := by
        rw [hlen]
        have h1 : (i + 1) * s.grid.colCount ≤ s.grid.rowCount * s.grid.colCount :=
          Nat.mul_le_mul_right _ (by omega)
        have h2 : (i + 1) * s.grid.colCount = i * s.grid.colCount + s.grid.colCount := by
          ring
        omega
      obtain ⟨p, hp⟩ := getD_isSome_of_full _ _ hk hfull
      rw [Nat.add_zero] at *
      exact ⟨p, by simpa using hp, hnorow i hi p hp⟩
    unfold subdivideHorizontalRun
    rw [hfind]
    have hcc : ∃ k, s.grid.colCount = k + 1 := ⟨s.grid.colCount - 1, by omega⟩
    obtain ⟨k, hk⟩ := hcc
    simp only [hk, List.range_succ_eq_map]
    norm_num [subHLoopGo]
  · refine ⟨"TypeError: cannot read cells of undefined column", ?_⟩
    have hfind : findColIndexGo u s.grid.columnsL 0 = Except.ok (-1) := by
      apply findColIndexGo_none
      intro r hr
      obtain ⟨j, hj, rfl⟩ := mem_columnsL s.grid r hr
      rw [headD_map_range _ hrows]
      have hk : j < s.grid.cells.length := by
        rw [hlen]
        calc j < s.grid.colCount := hj
          _ ≤ s.grid.rowCount * s.grid.colCount := by
              have := Nat.mul_le_mul_right s.grid.colCount hrows
              omega
      obtain ⟨p, hp⟩ := getD_isSome_of_full _ _ hk hfull
      have hp' : s.grid.cells.getD (0 * s.grid.colCount + j) none = some p := by
        simpa using hp
      exact ⟨p, hp', hnocol j hj p hp⟩
    unfold subdivideVerticalRun
    rw [hfind]
    have hcc : ∃ k, s.grid.rowCount = k + 1 := ⟨s.grid.rowCount - 1, by omega⟩
    obtain ⟨k, hk⟩ := hcc
    simp only [hk, List.range_succ_eq_map]
    norm_num [subVLoopGo]

/-- Witness for claim C10: the one-cell sample state with the out-of-range
split parameter 2. -/
theorem claim10_witness :
    (sampleState.grid.cells.length
        = sampleState.grid.rowCount * sampleState.grid.colCount ∧
      (∀ i < sampleState.grid.rowCount, ∀ p : BezierPatch3,
        sampleState.grid.cells.getD (i * sampleState.grid.colCount) none = some p →
        ¬(p.domain.v0 ≤ (2 : ℚ) ∧ (2 : ℚ) ≤ p.domain.v1))) ∧
    (∃ msg, subdivideHorizontalRun sampleState 2 = (sampleState, some msg)) := by
  have h1 : sampleState.grid.cells.length
      = sampleState.grid.rowCount * sampleState.grid.colCount := by decide
  have h2 : ∀ i < sampleState.grid.rowCount, ∀ p : BezierPatch3,
      sampleState.grid.cells.getD (i * sampleState.grid.colCount) none = some p →
      ¬(p.domain.v0 ≤ (2 : ℚ) ∧ (2 : ℚ) ≤ p.domain.v1) := by
    intro i hi p hp
    have hi' : i = 0 := by
      have hb : sampleState.grid.rowCount = 1 := rfl
      omega
    subst hi'
    have hp' : p = samplePatch := by
      have hb : sampleState.grid.cells.getD (0 * sampleState.grid.colCount) none
          = some samplePatch := rfl
      rw [hb] at hp
      exact (Option.some_inj.mp hp).symm
    subst hp'
    simp only [samplePatch]
    norm_num
  have h3 : ∀ j < sampleState.grid.colCount, ∀ p : BezierPatch3,
      sampleState.grid.cells.getD j none = some p →
      ¬(p.domain.u0 ≤ (2 : ℚ) ∧ (2 : ℚ) ≤ p.domain.u1) := by
    intro j hj p hp
    have hj' : j = 0 := by
      have hb : sampleState.grid.colCount = 1 := rfl
      omega
    subst hj'
    have hp' : p = samplePatch := by
      have hb : sampleState.grid.cells.getD 0 none = some samplePatch := rfl
      rw [hb] at hp
      exact (Option.some_inj.mp hp).symm
    subst hp'
    simp only [samplePatch]
    norm_num
  exact ⟨⟨h1, h2⟩,
    (claim10_out_of_range_subdivision_atomic sampleState 2 2 h1
      (by decide) (by decide) (by decide) h2 h3).1⟩

/-- An out-of-range id addresses the default ControlPoint. -/
theorem getCP_of_ge (st : Store) (k : ℕ) (h : st.size ≤ k) :
    getCP st k = default := by
  unfold getCP
  rw [Array.getD_eq_get?, Array.getElem?_len_le st h]
  rfl

/-- updCP preserves the arena size. -/
theorem size_updCP (st : Store) (i : ℕ) (f : CPoint → CPoint) :
    (updCP st i f).size = st.size := by
  simp [updCP]

/-- Lookup after an in-place update. -/
theorem getCP_updCP (st : Store) (i : ℕ) (f : CPoint → CPoint) (k : ℕ) :
    getCP (updCP st i f) k =
      if k = i ∧ i < st.size then f (getCP st i) else getCP st k := by
  by_cases hi : i < st.size
  · have hset : updCP st i f = st.set ⟨i, hi⟩ (f (getCP st i)) := by
      simp [updCP, Array.setD, hi]
    by_cases hk : k = i
    · subst hk
      rw [hset, if_pos ⟨rfl, hi⟩]
      unfold getCP
      rw [Array.getD_eq_get?, Array.getElem?_set_eq]
      rfl
    · rw [hset, if_neg (fun hc => hk hc.1)]
      unfold getCP
      simp only [Array.getD_eq_get?]
      rw [Array.getElem?_set_ne]
      exact Ne.symm hk
  · have hset : updCP st i f = st := by
      simp [updCP, Array.setD, hi]
    rw [hset, if_neg (fun hc => hi hc.2)]

/-- setParentFold preserves the arena size. -/
theorem setParentFold_size (cs : List ℕ) (w : Option ℕ) (st : Store) :
    (setParentFold cs w st).size = st.size := by
  induction cs generalizing st with
  | nil => rfl
  | cons c cs ih =>
    simp only [setParentFold, List.foldl_cons] at *
    rw [ih, size_updCP]

/-- Lookup after setParentFold: the parents of the in-range listed ids become
w, everything else is untouched. -/
theorem getCP_setParentFold (cs : List ℕ) (w : Option ℕ) (st : Store) (k : ℕ) :
    getCP (setParentFold cs w st) k =
      if k ∈ cs ∧ k < st.size then { getCP st k with parent := w }
      else getCP st k := by
  induction cs generalizing st with
  | nil => simp [setParentFold]
  | cons c cs ih =>
    have hstep : setParentFold (c :: cs) w st
        = setParentFold cs w (updCP st c (fun q => { q with parent := w })) := rfl
    rw [hstep, ih, size_updCP, getCP_updCP]
    by_cases hmem : k ∈ cs <;> by_cases hkc : k = c <;>
      by_cases hlt : k < st.size <;> simp_all [List.mem_cons]

/-- Two ControlPoints with the same four fields are equal. -/
theorem cpoint_eq_of_fields {p q : CPoint} (h1 : p.pos = q.pos)
    (h2 : p.mirrorPoint = q.mirrorPoint) (h3 : p.parent = q.parent)
    (h4 : p.children = q.children) : p = q := by
  cases p; cases q; simp_all

/-- In-range lookups through getCP. -/
theorem getCP_lt (st : Store) (i : ℕ) (h : i < st.size) : getCP st i = st[i] := by
  unfold getCP
  rw [Array.getD_eq_get?, Array.getElem?_lt st h]
  rfl

/-- Two arenas of the same size with the same objects at every id are
equal. -/
theorem store_ext {x y : Store} (hs : x.size = y.size)
    (h : ∀ k, getCP x k = getCP y k) : x = y := by
  apply Array.ext _ _ hs
  intro i h1 h2
  rw [← getCP_lt x i h1, ← getCP_lt y i h2]
  exact h i

/-- pushChildFold preserves the arena size. -/
theorem pushChildFold_size (a : ℕ) (cs : List ℕ) (st : Store) :
    (pushChildFold a cs st).size = st.size := by
  induction cs generalizing st with
  | nil => rfl
  | cons c cs ih =>
    have hstep : pushChildFold a (c :: cs) st = pushChildFold a cs
        (if c ∈ (getCP st a).children then st
         else updCP st a (fun p => { p with children := p.children ++ [c] })) := rfl
    rw [hstep, ih]
    split <;> simp [size_updCP]

/-- pushChildFold leaves every id other than the anchor untouched. -/
theorem getCP_pushChildFold_ne (a : ℕ) (cs : List ℕ) (st : Store) (k : ℕ)
    (hk : k ≠ a) : getCP (pushChildFold a cs st) k = getCP st k := by
  induction cs generalizing st with
  | nil => rfl
  | cons c cs ih =>
    have hstep : pushChildFold a (c :: cs) st = pushChildFold a cs
        (if c ∈ (getCP st a).children then st
         else updCP st a (fun p => { p with children := p.children ++ [c] })) := rfl
    rw [hstep, ih]
    split
    · rfl
    · rw [getCP_updCP, if_neg (fun hc => hk hc.1)]

/-- pushChildFold changes only the children field. -/
theorem getCP_pushChildFold_fields (a : ℕ) (cs : List ℕ) (st : Store) (k : ℕ) :
    (getCP (pushChildFold a cs st) k).pos = (getCP st k).pos ∧
    (getCP (pushChildFold a cs st) k).mirrorPoint = (getCP st k).mirrorPoint ∧
    (getCP (pushChildFold a cs st) k).parent = (getCP st k).parent := by
  induction cs generalizing st with
  | nil => exact ⟨rfl, rfl, rfl⟩
  | cons c cs ih =>
    have hstep : pushChildFold a (c :: cs) st = pushChildFold a cs
        (if c ∈ (getCP st a).children then st
         else updCP st a (fun p => { p with children := p.children ++ [c] })) := rfl
    rw [hstep]
    by_cases hb : c ∈ (getCP st a).children
    · rw [if_pos hb]
      exact ih st
    · rw [if_neg hb]
      have h2 := ih (updCP st a (fun p => { p with children := p.children ++ [c] }))
      refine ⟨?_, ?_, ?_⟩ <;>
        [rw [h2.1]; rw [h2.2.1]; rw [h2.2.2]] <;>
        rw [getCP_updCP] <;> split <;> simp_all

/-- The children after pushChildFold depend only on the children before. -/
theorem pushChildFold_children_congr (a : ℕ) (cs : List ℕ) :
    ∀ (x y : Store), x.size = y.size →
    (∀ k, (getCP x k).children = (getCP y k).children) →
    ∀ k, (getCP (pushChildFold a cs x) k).children
      = (getCP (pushChildFold a cs y) k).children := by
  induction cs with
  | nil => intro x y _ hch k; exact hch k
  | cons c cs ih =>
    intro x y hsize hch k
    have hstepx : pushChildFold a (c :: cs) x = pushChildFold a cs
        (if c ∈ (getCP x a).children then x
         else updCP x a (fun p => { p with children := p.children ++ [c] })) := rfl
    have hstepy : pushChildFold a (c :: cs) y = pushChildFold a cs
        (if c ∈ (getCP y a).children then y
         else updCP y a (fun p => { p with children := p.children ++ [c] })) := rfl
    rw [hstepx, hstepy]
    by_cases hb : c ∈ (getCP x a).children
    · have hb' : c ∈ (getCP y a).children := by rw [← hch a]; exact hb
      rw [if_pos hb, if_pos hb']
      exact ih x y hsize hch k
    · have hb' : c ∉ (getCP y a).children := by rw [← hch a]; exact hb
      rw [if_neg hb, if_neg hb']
      apply ih
      · simp [size_updCP, hsize]
      · intro m
        rw [getCP_updCP, getCP_updCP, hsize]
        split <;> simp [hch]

/-- A child present after pushChildFold was present before or is one of the
pushed ids. -/
theorem pushChildFold_children_subset (a : ℕ) (cs : List ℕ) :
    ∀ (st : Store) (k c' : ℕ),
    c' ∈ (getCP (pushChildFold a cs st) k).children →
    c' ∈ (getCP st k).children ∨ c' ∈ cs := by
  induction cs with
  | nil => intro st k c' h; exact Or.inl h
  | cons c cs ih =>
    intro st k c' h
    have hstep : pushChildFold a (c :: cs) st = pushChildFold a cs
        (if c ∈ (getCP st a).children then st
         else updCP st a (fun p => { p with children := p.children ++ [c] })) := rfl
    rw [hstep] at h
    by_cases hb : c ∈ (getCP st a).children
    · rw [if_pos hb] at h
      rcases ih st k c' h with h' | h'
      · exact Or.inl h'
      · exact Or.inr (by simp [h'])
    · rw [if_neg hb] at h
      rcases ih _ k c' h with h' | h'
      · rw [getCP_updCP] at h'
        by_cases hc : k = a ∧ a < st.size
        · rw [if_pos hc] at h'
          simp only [List.mem_append, List.mem_singleton] at h'
          rcases h' with h' | h'
          · exact Or.inl (by rw [hc.1]; exact h')
          · exact Or.inr (by simp [h'])
        · rw [if_neg hc] at h'
          exact Or.inl h'
      · exact Or.inr (by simp [h'])

/-- applyAddChildren preserves the arena size. -/
theorem applyAddChildren_size (st : Store) (a : ℕ) (cs : List ℕ) :
    (applyAddChildren st a cs).size = st.size := by
  unfold applyAddChildren
  rw [setParentFold_size, pushChildFold_size]

/-- setParentFold leaves children untouched. -/
theorem setParentFold_children (cs : List ℕ) (w : Option ℕ) (st : Store)
    (k : ℕ) :
    (getCP (setParentFold cs w st) k).children = (getCP st k).children := by
  rw [getCP_setParentFold]
  split <;> rfl

/-- setParentFold leaves positions and mirrors untouched. -/
theorem setParentFold_pos_mir (cs : List ℕ) (w : Option ℕ) (st : Store)
    (k : ℕ) :
    (getCP (setParentFold cs w st) k).pos = (getCP st k).pos ∧
    (getCP (setParentFold cs w st) k).mirrorPoint
      = (getCP st k).mirrorPoint := by
  rw [getCP_setParentFold]
  split <;> exact ⟨rfl, rfl⟩

/-- The parent field after applyAddChildren. -/
theorem getCP_applyAddChildren_parent (st : Store) (a : ℕ) (cs : List ℕ)
    (k : ℕ) :
    (getCP (applyAddChildren st a cs) k).parent
      = if k ∈ cs ∧ k < st.size then some a else (getCP st k).parent := by
  unfold applyAddChildren
  rw [getCP_setParentFold, pushChildFold_size]
  split
  · rfl
  · exact (getCP_pushChildFold_fields a cs st k).2.2

/-- applyAddChildren leaves positions and mirrors untouched. -/
theorem getCP_applyAddChildren_pos_mir (st : Store) (a : ℕ) (cs : List ℕ)
    (k : ℕ) :
    (getCP (applyAddChildren st a cs) k).pos = (getCP st k).pos ∧
    (getCP (applyAddChildren st a cs) k).mirrorPoint
      = (getCP st k).mirrorPoint := by
  unfold applyAddChildren
  have h1 := setParentFold_pos_mir cs (some a) (pushChildFold a cs st) k
  have h2 := getCP_pushChildFold_fields a cs st k
  exact ⟨h1.1.trans h2.1, h1.2.trans h2.2.1⟩

/-- applyAddChildren leaves the children of ids other than the anchor
untouched. -/
theorem applyAddChildren_children_ne (st : Store) (a : ℕ) (cs : List ℕ)
    (k : ℕ) (hk : k ≠ a) :
    (getCP (applyAddChildren st a cs) k).children = (getCP st k).children := by
  unfold applyAddChildren
  rw [setParentFold_children, getCP_pushChildFold_ne _ _ _ _ hk]

/-- The children after applyAddChildren depend only on the children before. -/
theorem applyAddChildren_children_congr (a : ℕ) (cs : List ℕ) (x y : Store)
    (hsize : x.size = y.size)
    (hch : ∀ k, (getCP x k).children = (getCP y k).children) (k : ℕ) :
    (getCP (applyAddChildren x a cs) k).children
      = (getCP (applyAddChildren y a cs) k).children := by
  unfold applyAddChildren
  rw [setParentFold_children, setParentFold_children]
  exact pushChildFold_children_congr a cs x y hsize hch k

/-- A child present after applyAddChildren was present before or is one of
the arguments. -/
theorem applyAddChildren_children_subset (st : Store) (a : ℕ) (cs : List ℕ)
    (k c' : ℕ)
    (h : c' ∈ (getCP (applyAddChildren st a cs) k).children) :
    c' ∈ (getCP st k).children ∨ c' ∈ cs := by
  unfold applyAddChildren at h
  rw [setParentFold_children] at h
  exact pushChildFold_children_subset a cs st k c' h

/-- Lookup after applySetMir. -/
theorem getCP_applySetMir (st : Store) (p o r k : ℕ) :
    getCP (applySetMir st p o r) k =
      if k = p ∧ p < st.size then
        { getCP st p with mirrorPoint := some (o, r) }
      else getCP st k := by
  unfold applySetMir
  exact getCP_updCP st p _ k

/-- applyOps preserves the arena size. -/
theorem applyOps_size (ops : List LinkOp) : ∀ st : Store,
    (applyOps st ops).size = st.size := by
  induction ops with
  | nil => intro st; rfl
  | cons op rest ih =>
    intro st
    cases op with
    | addCh a cs =>
      show (applyOps (applyAddChildren st a cs) rest).size = _
      rw [ih, applyAddChildren_size]
    | setMir p o r =>
      show (applyOps (applySetMir st p o r) rest).size = _
      rw [ih]
      unfold applySetMir
      rw [size_updCP]

/-- applyOps leaves every position untouched. -/
theorem applyOps_pos (ops : List LinkOp) : ∀ (st : Store) (k : ℕ),
    (getCP (applyOps st ops) k).pos = (getCP st k).pos := by
  induction ops with
  | nil => intro st k; rfl
  | cons op rest ih =>
    intro st k
    cases op with
    | addCh a cs =>
      show (getCP (applyOps (applyAddChildren st a cs) rest) k).pos = _
      rw [ih, (getCP_applyAddChildren_pos_mir st a cs k).1]
    | setMir p o r =>
      show (getCP (applyOps (applySetMir st p o r) rest) k).pos = _
      rw [ih, getCP_applySetMir]
      by_cases hc : k = p ∧ p < st.size
      · rw [if_pos hc, hc.1]
      · rw [if_neg hc]

/-- applyOps leaves the mirror of every id outside its mirror targets
untouched. -/
theorem applyOps_mirror_ne (ops : List LinkOp) : ∀ (st : Store) (k : ℕ),
    k ∉ mirTargets ops →
    (getCP (applyOps st ops) k).mirrorPoint = (getCP st k).mirrorPoint := by
  induction ops with
  | nil => intro st k _; rfl
  | cons op rest ih =>
    intro st k hk
    cases op with
    | addCh a cs =>
      have hk' : k ∉ mirTargets rest := hk
      show (getCP (applyOps (applyAddChildren st a cs) rest) k).mirrorPoint = _
      rw [ih _ _ hk', (getCP_applyAddChildren_pos_mir st a cs k).2]
    | setMir p o r =>
      have hk1 : k ≠ p := fun h => hk (by simp [mirTargets, h])
      have hk' : k ∉ mirTargets rest := fun h => hk (by simp [mirTargets, h])
      show (getCP (applyOps (applySetMir st p o r) rest) k).mirrorPoint = _
      rw [ih _ _ hk', getCP_applySetMir, if_neg (fun hc => hk1 hc.1)]

/-- applyOps leaves the children of every id outside its anchors untouched. -/
theorem applyOps_children_ne (ops : List LinkOp) : ∀ (st : Store) (k : ℕ),
    k ∉ chAnchors ops →
    (getCP (applyOps st ops) k).children = (getCP st k).children := by
  induction ops with
  | nil => intro st k _; rfl
  | cons op rest ih =>
    intro st k hk
    cases op with
    | addCh a cs =>
      have hk1 : k ≠ a := fun h => hk (by simp [chAnchors, h])
      have hk' : k ∉ chAnchors rest := fun h => hk (by simp [chAnchors, h])
      show (getCP (applyOps (applyAddChildren st a cs) rest) k).children = _
      rw [ih _ _ hk', applyAddChildren_children_ne st a cs k hk1]
    | setMir p o r =>
      have hk' : k ∉ chAnchors rest := hk
      show (getCP (applyOps (applySetMir st p o r) rest) k).children = _
      rw [ih _ _ hk', getCP_applySetMir]
      by_cases hc : k = p ∧ p < st.size
      · rw [if_pos hc, hc.1]
      · rw [if_neg hc]

/-- applyOps leaves the parent of every id outside its child targets
untouched. -/
theorem applyOps_parent_ne (ops : List LinkOp) : ∀ (st : Store) (k : ℕ),
    k ∉ childTargets ops →
    (getCP (applyOps st ops) k).parent = (getCP st k).parent := by
  induction ops with
  | nil => intro st k _; rfl
  | cons op rest ih =>
    intro st k hk
    cases op with
    | addCh a cs =>
      have hk1 : k ∉ cs := fun h => hk (by simp [childTargets, h])
      have hk' : k ∉ childTargets rest := fun h => hk (by simp [childTargets, h])
      show (getCP (applyOps (applyAddChildren st a cs) rest) k).parent = _
      rw [ih _ _ hk', getCP_applyAddChildren_parent,
        if_neg (fun hc => hk1 hc.1)]
    | setMir p o r =>
      have hk' : k ∉ childTargets rest := hk
      show (getCP (applyOps (applySetMir st p o r) rest) k).parent = _
      rw [ih _ _ hk', getCP_applySetMir]
      by_cases hc : k = p ∧ p < st.size
      · rw [if_pos hc, hc.1]
      · rw [if_neg hc]

/-- A child present after applyOps was present before or is a child target
of the operations. -/
theorem applyOps_children_subset (ops : List LinkOp) : ∀ (st : Store) (k c' : ℕ),
    c' ∈ (getCP (applyOps st ops) k).children →
    c' ∈ (getCP st k).children ∨ c' ∈ childTargets ops := by
  induction ops with
  | nil => intro st k c' h; exact Or.inl h
  | cons op rest ih =>
    intro st k c' h
    cases op with
    | addCh a cs =>
      have h1 := ih (applyAddChildren st a cs) k c' h
      rcases h1 with h1 | h1
      · rcases applyAddChildren_children_subset st a cs k c' h1 with h2 | h2
        · exact Or.inl h2
        · exact Or.inr (by simp [childTargets, h2])
      · exact Or.inr (by simp [childTargets, h1])
    | setMir p o r =>
      have h1 := ih (applySetMir st p o r) k c' h
      rcases h1 with h1 | h1
      · rw [getCP_applySetMir] at h1
        by_cases hc : k = p ∧ p < st.size
        · rw [if_pos hc] at h1
          exact Or.inl (by rw [hc.1]; exact h1)
        · rw [if_neg hc] at h1
          exact Or.inl h1
      · exact Or.inr h1

/-- Congruence for the relinking pass: two arenas of equal size that agree on
all positions, mirrors and children, and agree on parents outside the child
targets of the operations, are mapped to equal arenas. -/
theorem applyOps_congr (ops : List LinkOp) : ∀ (x y : Store),
    x.size = y.size →
    (∀ k, (getCP x k).pos = (getCP y k).pos) →
    (∀ k, (getCP x k).mirrorPoint = (getCP y k).mirrorPoint) →
    (∀ k, (getCP x k).children = (getCP y k).children) →
    (∀ k, k ∈ childTargets ops ∨ (getCP x k).parent = (getCP y k).parent) →
    applyOps x ops = applyOps y ops := by
  induction ops with
  | nil =>
    intro x y hs hp hm hc hpar
    apply store_ext hs
    intro k
    apply cpoint_eq_of_fields (hp k) (hm k) _ (hc k)
    rcases hpar k with h | h
    · cases h
    · exact h
  | cons op rest ih =>
    intro x y hs hp hm hc hpar
    cases op with
    | setMir p o r =>
      show applyOps (applySetMir x p o r) rest
        = applyOps (applySetMir y p o r) rest
      have hsize : (applySetMir x p o r).size = (applySetMir y p o r).size := by
        unfold applySetMir
        rw [size_updCP, size_updCP, hs]
      apply ih _ _ hsize
      · intro k
        rw [getCP_applySetMir, getCP_applySetMir, hs]
        by_cases hcond : k = p ∧ p < y.size
        · rw [if_pos hcond, if_pos hcond]
          simp only []
          rw [hp p]
        · rw [if_neg hcond, if_neg hcond]
          exact hp k
      · intro k
        rw [getCP_applySetMir, getCP_applySetMir, hs]
        by_cases hcond : k = p ∧ p < y.size
        · rw [if_pos hcond, if_pos hcond]
        · rw [if_neg hcond, if_neg hcond]
          exact hm k
      · intro k
        rw [getCP_applySetMir, getCP_applySetMir, hs]
        by_cases hcond : k = p ∧ p < y.size
        · rw [if_pos hcond, if_pos hcond]
          simp only []
          rw [hc p]
        · rw [if_neg hcond, if_neg hcond]
          exact hc k
      · intro k
        rcases hpar k with h | h
        · exact Or.inl h
        · right
          rw [getCP_applySetMir, getCP_applySetMir, hs]
          by_cases hcond : k = p ∧ p < y.size
          · rw [if_pos hcond, if_pos hcond]
            show (getCP x p).parent = (getCP y p).parent
            rw [hcond.1] at h
            exact h
          · rw [if_neg hcond, if_neg hcond]
            exact h
    | addCh a cs =>
      show applyOps (applyAddChildren x a cs) rest
        = applyOps (applyAddChildren y a cs) rest
      have hsize : (applyAddChildren x a cs).size
          = (applyAddChildren y a cs).size := by
        rw [applyAddChildren_size, applyAddChildren_size, hs]
      apply ih _ _ hsize
      · intro k
        rw [(getCP_applyAddChildren_pos_mir x a cs k).1,
          (getCP_applyAddChildren_pos_mir y a cs k).1]
        exact hp k
      · intro k
        rw [(getCP_applyAddChildren_pos_mir x a cs k).2,
          (getCP_applyAddChildren_pos_mir y a cs k).2]
        exact hm k
      · exact applyAddChildren_children_congr a cs x y hs hc
      · intro k
        rw [getCP_applyAddChildren_parent, getCP_applyAddChildren_parent, hs]
        by_cases hcond : k ∈ cs ∧ k < y.size
        · right
          rw [if_pos hcond, if_pos hcond]
        · rw [if_neg hcond, if_neg hcond]
          rcases hpar k with h | h
          · simp only [childTargets, List.mem_append] at h
            rcases h with h | h
            · by_cases hlt : k < y.size
              · exact absurd ⟨h, hlt⟩ hcond
              · right
                rw [getCP_of_ge x k (by omega), getCP_of_ge y k (by omega)]
            · exact Or.inl h
          · exact Or.inr h

/-- clearPoint preserves the arena size. -/
theorem clearPoint_size (st : Store) (i : ℕ) :
    (clearPoint st i).size = st.size := by
  unfold clearPoint
  rw [size_updCP, setParentFold_size, size_updCP]

/-- clearPoint leaves every position untouched. -/
theorem clearPoint_pos (st : Store) (i k : ℕ) :
    (getCP (clearPoint st i) k).pos = (getCP st k).pos := by
  unfold clearPoint
  rw [getCP_updCP]
  have h1 : ∀ m, (getCP (setParentFold
      (getCP (updCP st i (fun p => { p with mirrorPoint := none })) i).children
      none (updCP st i (fun p => { p with mirrorPoint := none }))) m).pos
      = (getCP st m).pos := by
    intro m
    rw [(setParentFold_pos_mir _ _ _ _).1, getCP_updCP]
    split <;> simp_all
  split
  · rename_i hc
    simp only []
    rw [h1 i, hc.1]
  · exact h1 k

/-- The mirror after clearPoint. -/
theorem clearPoint_mirror (st : Store) (i k : ℕ) :
    (getCP (clearPoint st i) k).mirrorPoint =
      if k = i then none else (getCP st k).mirrorPoint := by
  unfold clearPoint
  rw [getCP_updCP]
  have h1 : ∀ m, (getCP (setParentFold
      (getCP (updCP st i (fun p => { p with mirrorPoint := none })) i).children
      none (updCP st i (fun p => { p with mirrorPoint := none }))) m).mirrorPoint
      = (getCP (updCP st i (fun p => { p with mirrorPoint := none })) m).mirrorPoint := by
    intro m
    rw [(setParentFold_pos_mir _ _ _ _).2]
  rw [setParentFold_size, size_updCP]
  by_cases hk : k = i
  · subst hk
    by_cases hlt : k < st.size
    · rw [if_pos ⟨rfl, hlt⟩, if_pos rfl]
      show (getCP (setParentFold _ none _) k).mirrorPoint = none
      rw [h1 k, getCP_updCP, if_pos ⟨rfl, hlt⟩]
    · rw [if_neg (fun hc => hlt hc.2), if_pos rfl, h1 k, getCP_updCP,
        if_neg (fun hc => hlt hc.2), getCP_of_ge st k (by omega)]
      rfl
  · rw [if_neg (fun hc => hk hc.1), if_neg hk, h1 k, getCP_updCP,
      if_neg (fun hc => hk hc.1)]

/-- The children after clearPoint. -/
theorem clearPoint_children (st : Store) (i k : ℕ) :
    (getCP (clearPoint st i) k).children =
      if k = i then [] else (getCP st k).children := by
  unfold clearPoint
  rw [getCP_updCP]
  rw [setParentFold_size, size_updCP]
  by_cases hk : k = i
  · subst hk
    by_cases hlt : k < st.size
    · rw [if_pos ⟨rfl, hlt⟩, if_pos rfl]
    · rw [if_neg (fun hc => hlt hc.2), if_pos rfl, setParentFold_children,
        getCP_updCP, if_neg (fun hc => hlt hc.2), getCP_of_ge st k (by omega)]
      rfl
  · rw [if_neg (fun hc => hk hc.1), if_neg hk, setParentFold_children,
      getCP_updCP, if_neg (fun hc => hk hc.1)]

/-- The parent after clearPoint: nulled exactly on the point's current
children. -/
theorem clearPoint_parent (st : Store) (i k : ℕ) :
    (getCP (clearPoint st i) k).parent =
      if k ∈ (getCP st i).children then none else (getCP st k).parent := by
  unfold clearPoint
  have hch : (getCP (updCP st i (fun p => { p with mirrorPoint := none })) i).children
      = (getCP st i).children := by
    rw [getCP_updCP]
    split <;> simp_all
  rw [getCP_updCP, setParentFold_size, size_updCP]
  have hpar : ∀ m, (getCP (setParentFold
      (getCP (updCP st i (fun p => { p with mirrorPoint := none })) i).children
      none (updCP st i (fun p => { p with mirrorPoint := none }))) m).parent
      = if m ∈ (getCP st i).children ∧ m < st.size then none
        else (getCP st m).parent := by
    intro m
    rw [getCP_setParentFold, hch, size_updCP]
    by_cases hc : m ∈ (getCP st i).children ∧ m < st.size
    · rw [if_pos hc, if_pos hc]
    · rw [if_neg hc, if_neg hc, getCP_updCP]
      split <;> simp_all
  by_cases hk : k = i ∧ i < st.size
  · rw [if_pos hk]
    show (getCP (setParentFold _ none _) i).parent = _
    rw [hpar i]
    by_cases hmem : i ∈ (getCP st i).children
    · rw [if_pos ⟨hmem, hk.2⟩, if_pos (by rw [hk.1]; exact hmem)]
    · rw [if_neg (fun hc => hmem hc.1), hk.1, if_neg hmem]
  · rw [if_neg hk, hpar k]
    by_cases hmem : k ∈ (getCP st i).children
    · by_cases hlt : k < st.size
      · rw [if_pos ⟨hmem, hlt⟩, if_pos hmem]
      · rw [if_neg (fun hc => hlt hc.2), if_pos hmem,
          getCP_of_ge st k (by omega)]
        rfl
    · rw [if_neg (fun hc => hmem hc.1), if_neg hmem]

/-- The fold of clearPoint over a list of ids: size preserved. -/
theorem clearFold_size (P : List ℕ) : ∀ st : Store,
    (P.foldl clearPoint st).size = st.size := by
  induction P with
  | nil => intro st; rfl
  | cons p P ih =>
    intro st
    show (P.foldl clearPoint (clearPoint st p)).size = _
    rw [ih, clearPoint_size]

/-- The fold of clearPoint: positions untouched. -/
theorem clearFold_pos (P : List ℕ) : ∀ (st : Store) (k : ℕ),
    (getCP (P.foldl clearPoint st) k).pos = (getCP st k).pos := by
  induction P with
  | nil => intro st k; rfl
  | cons p P ih =>
    intro st k
    show (getCP (P.foldl clearPoint (clearPoint st p)) k).pos = _
    rw [ih, clearPoint_pos]

/-- The fold of clearPoint: mirrors cleared exactly on the listed ids. -/
theorem clearFold_mirror (P : List ℕ) : ∀ (st : Store) (k : ℕ),
    (getCP (P.foldl clearPoint st) k).mirrorPoint =
      if k ∈ P then none else (getCP st k).mirrorPoint := by
  induction P with
  | nil => intro st k; rfl
  | cons p P ih =>
    intro st k
    show (getCP (P.foldl clearPoint (clearPoint st p)) k).mirrorPoint = _
    rw [ih, clearPoint_mirror]
    by_cases h1 : k ∈ P <;> by_cases h2 : k = p <;> simp_all

/-- The fold of clearPoint: children cleared exactly on the listed ids. -/
theorem clearFold_children (P : List ℕ) : ∀ (st : Store) (k : ℕ),
    (getCP (P.foldl clearPoint st) k).children =
      if k ∈ P then [] else (getCP st k).children := by
  induction P with
  | nil => intro st k; rfl
  | cons p P ih =>
    intro st k
    show (getCP (P.foldl clearPoint (clearPoint st p)) k).children = _
    rw [ih, clearPoint_children]
    by_cases h1 : k ∈ P <;> by_cases h2 : k = p <;> simp_all

/-- The fold of clearPoint: parents nulled exactly on the union of the
children lists of the listed ids (as read in the starting arena). -/
theorem clearFold_parent (P : List ℕ) : ∀ (st : Store) (k : ℕ),
    (getCP (P.foldl clearPoint st) k).parent =
      if ∃ p ∈ P, k ∈ (getCP st p).children then none
      else (getCP st k).parent := by
  induction P with
  | nil => intro st k; simp
  | cons p P ih =>
    intro st k
    show (getCP (P.foldl clearPoint (clearPoint st p)) k).parent = _
    rw [ih]
    by_cases hex : ∃ q ∈ P, k ∈ (getCP (clearPoint st p) q).children
    · rw [if_pos hex]
      obtain ⟨q, hq, hkq⟩ := hex
      rw [clearPoint_children] at hkq
      by_cases hqp : q = p
      · rw [if_pos hqp] at hkq
        cases hkq
      · rw [if_neg hqp] at hkq
        rw [if_pos ⟨q, by simp [hq], hkq⟩]
    · rw [if_neg hex, clearPoint_parent]
      by_cases hkp : k ∈ (getCP st p).children
      · rw [if_pos hkp, if_pos ⟨p, by simp, hkp⟩]
      · rw [if_neg hkp]
        rw [if_neg ?_]
        intro hc
        obtain ⟨q, hq, hkq⟩ := hc
        simp only [List.mem_cons] at hq
        rcases hq with rfl | hq
        · exact hkp hkq
        · apply hex
          refine ⟨q, hq, ?_⟩
          rw [clearPoint_children]
          by_cases hqp : q = p
          · rw [hqp] at hkq
            exact absurd hkq hkp
          · rw [if_neg hqp]
            exact hkq

/-- mirTargets distributes over concatenation. -/
theorem mirTargets_append (l1 l2 : List LinkOp) :
    mirTargets (l1 ++ l2) = mirTargets l1 ++ mirTargets l2 := by
  induction l1 with
  | nil => rfl
  | cons op rest ih =>
    cases op <;> simp [mirTargets, ih]

/-- chAnchors distributes over concatenation. -/
theorem chAnchors_append (l1 l2 : List LinkOp) :
    chAnchors (l1 ++ l2) = chAnchors l1 ++ chAnchors l2 := by
  induction l1 with
  | nil => rfl
  | cons op rest ih =>
    cases op <;> simp [chAnchors, ih]

/-- Every mirror target of a cell's link operations is one of the cell's own
sixteen slot ids. -/
theorem cellLinkOps_mirTargets (g : Grid) (i j t : ℕ)
    (ht : t ∈ mirTargets (cellLinkOps g i j)) :
    ∃ cur, g.cells.getD (i * g.colCount + j) none = some cur ∧
      ∃ k, k < 16 ∧ t = slotId cur k := by
  unfold cellLinkOps at ht
  cases hcell : g.cells.getD (i * g.colCount + j) none with
  | none => rw [hcell] at ht; cases ht
  | some cur =>
    rw [hcell] at ht
    refine ⟨cur, rfl, ?_⟩
    simp only [mirTargets_append, List.mem_append] at ht
    have hb1 : mirTargets
        [LinkOp.addCh (slotId cur 0) [slotId cur 1, slotId cur 4, slotId cur 5],
         LinkOp.addCh (slotId cur 3) [slotId cur 2, slotId cur 7, slotId cur 6],
         LinkOp.addCh (slotId cur 12) [slotId cur 8, slotId cur 13, slotId cur 9],
         LinkOp.addCh (slotId cur 15) [slotId cur 14, slotId cur 11, slotId cur 10]]
        = [] := rfl
    rcases ht with ((((((((h | h) | h) | h) | h) | h) | h) | h) | h)
    · rw [hb1] at h
      cases h
    · rcases hL : g.get (i : ℤ) ((j : ℤ) - 1) with _ | l <;> rw [hL] at h <;>
        simp [mirTargets] at h
      rcases h with rfl | rfl
      · exact ⟨1, by omega, rfl⟩
      · exact ⟨13, by omega, rfl⟩
    · rcases hR : g.get (i : ℤ) ((j : ℤ) + 1) with _ | r <;> rw [hR] at h <;>
        simp [mirTargets] at h
      rcases h with rfl | rfl
      · exact ⟨2, by omega, rfl⟩
      · exact ⟨14, by omega, rfl⟩
    · rcases hB : g.get ((i : ℤ) - 1) (j : ℤ) with _ | b <;> rw [hB] at h <;>
        simp [mirTargets] at h
      rcases h with rfl | rfl
      · exact ⟨4, by omega, rfl⟩
      · exact ⟨7, by omega, rfl⟩
    · rcases hT : g.get ((i : ℤ) + 1) (j : ℤ) with _ | tp <;> rw [hT] at h <;>
        simp [mirTargets] at h
      rcases h with rfl | rfl
      · exact ⟨8, by omega, rfl⟩
      · exact ⟨11, by omega, rfl⟩
    · by_cases hc : (g.get (i : ℤ) ((j : ℤ) - 1)).isNone
          ∧ (g.get ((i : ℤ) - 1) (j : ℤ)).isNone <;>
        simp only [hc, if_true, if_false] at h <;> simp [mirTargets] at h
      rcases h with rfl | rfl
      · exact ⟨1, by omega, rfl⟩
      · exact ⟨4, by omega, rfl⟩
    · by_cases hc : (g.get (i : ℤ) ((j : ℤ) - 1)).isNone
          ∧ (g.get ((i : ℤ) + 1) (j : ℤ)).isNone <;>
        simp only [hc, if_true, if_false] at h <;> simp [mirTargets] at h
      rcases h with rfl | rfl
      · exact ⟨8, by omega, rfl⟩
      · exact ⟨13, by omega, rfl⟩
    · by_cases hc : (g.get (i : ℤ) ((j : ℤ) + 1)).isNone
          ∧ (g.get ((i : ℤ) + 1) (j : ℤ)).isNone <;>
        simp only [hc, if_true, if_false] at h <;> simp [mirTargets] at h
      rcases h with rfl | rfl
      · exact ⟨14, by omega, rfl⟩
      · exact ⟨11, by omega, rfl⟩
    · by_cases hc : (g.get (i : ℤ) ((j : ℤ) + 1)).isNone
          ∧ (g.get ((i : ℤ) - 1) (j : ℤ)).isNone <;>
        simp only [hc, if_true, if_false] at h <;> simp [mirTargets] at h
      rcases h with rfl | rfl
      · exact ⟨2, by omega, rfl⟩
      · exact ⟨7, by omega, rfl⟩

/-- Every addChildren anchor of a cell's link operations is one of the cell's
corner slot ids. -/
theorem cellLinkOps_chAnchors (g : Grid) (i j t : ℕ)
    (ht : t ∈ chAnchors (cellLinkOps g i j)) :
    ∃ cur, g.cells.getD (i * g.colCount + j) none = some cur ∧
      ∃ k, k < 16 ∧ t = slotId cur k := by
  unfold cellLinkOps at ht
  cases hcell : g.cells.getD (i * g.colCount + j) none with
  | none => rw [hcell] at ht; cases ht
  | some cur =>
    rw [hcell] at ht
    refine ⟨cur, rfl, ?_⟩
    simp only [chAnchors_append, List.mem_append] at ht
    rcases ht with ((((((((h | h) | h) | h) | h) | h) | h) | h) | h)
    · simp [chAnchors] at h
      rcases h with rfl | rfl | rfl | rfl
      · exact ⟨0, by omega, rfl⟩
      · exact ⟨3, by omega, rfl⟩
      · exact ⟨12, by omega, rfl⟩
      · exact ⟨15, by omega, rfl⟩
    · rcases hL : g.get (i : ℤ) ((j : ℤ) - 1) with _ | l <;> rw [hL] at h <;>
        simp [chAnchors] at h
    · rcases hR : g.get (i : ℤ) ((j : ℤ) + 1) with _ | r <;> rw [hR] at h <;>
        simp [chAnchors] at h
    · rcases hB : g.get ((i : ℤ) - 1) (j : ℤ) with _ | b <;> rw [hB] at h <;>
        simp [chAnchors] at h
    · rcases hT : g.get ((i : ℤ) + 1) (j : ℤ) with _ | tp <;> rw [hT] at h <;>
        simp [chAnchors] at h
    · by_cases hc : (g.get (i : ℤ) ((j : ℤ) - 1)).isNone
          ∧ (g.get ((i : ℤ) - 1) (j : ℤ)).isNone <;>
        simp only [hc, if_true, if_false] at h <;> simp [chAnchors] at h
    · by_cases hc : (g.get (i : ℤ) ((j : ℤ) - 1)).isNone
          ∧ (g.get ((i : ℤ) + 1) (j : ℤ)).isNone <;>
        simp only [hc, if_true, if_false] at h <;> simp [chAnchors] at h
    · by_cases hc : (g.get (i : ℤ) ((j : ℤ) + 1)).isNone
          ∧ (g.get ((i : ℤ) + 1) (j : ℤ)).isNone <;>
        simp only [hc, if_true, if_false] at h <;> simp [chAnchors] at h
    · by_cases hc : (g.get (i : ℤ) ((j : ℤ) + 1)).isNone
          ∧ (g.get ((i : ℤ) - 1) (j : ℤ)).isNone <;>
        simp only [hc, if_true, if_false] at h <;> simp [chAnchors] at h

/-- A cell returned by a getD lookup with a non-null result occurs in the
cell list. -/
theorem getD_mem_cells (cells : List (Option BezierPatch3)) (n : ℕ)
    (cur : BezierPatch3) (h : cells.getD n none = some cur) :
    some cur ∈ cells := by
  by_cases hn : n < cells.length
  · rw [List.getD_eq_getElem?_getD, List.getElem?_eq_getElem hn] at h
    simp only [Option.getD_some] at h
    rw [← h]
    exact List.getElem_mem hn
  · rw [List.getD_eq_getElem?_getD, List.getElem?_eq_none (by omega)] at h
    cases h

/-- A slot id of a cell that occurs in the grid occurs in the flat slot-id
traversal. -/
theorem slotId_mem_patchSlotIdList (g : Grid) (n : ℕ) (cur : BezierPatch3)
    (hc : g.cells.getD n none = some cur)
    (hlen : cur.controlPoints.length = 16) (k : ℕ) (hk : k < 16) :
    slotId cur k ∈ patchSlotIdList g := by
  have h1 : slotId cur k ∈ cur.controlPoints := by
    unfold slotId
    have hk' : k < cur.controlPoints.length := by omega
    rw [List.getD_eq_getElem?_getD, List.getElem?_eq_getElem hk']
    exact List.getElem_mem hk'
  have h2 : cur.controlPoints ∈ g.cells.map (fun oc =>
      match oc with
      | none => []
      | some p => p.controlPoints) := by
    refine List.mem_map.mpr ⟨some cur, getD_mem_cells _ _ _ hc, rfl⟩
  exact List.mem_flatten.mpr ⟨cur.controlPoints, h2, h1⟩

/-- Every mirror target of the full relinking pass is a live patch slot id. -/
theorem linkOps_mirTargets_sub (g : Grid)
    (hlen16 : ∀ c ∈ g.cells, ∀ p, c = some p → p.controlPoints.length = 16)
    (t : ℕ) (ht : t ∈ mirTargets (linkOps g)) : t ∈ patchSlotIdList g := by
  unfold linkOps at ht
  have flat1 : ∀ (L : List (List LinkOp)) (x : ℕ), x ∈ mirTargets L.flatten →
      ∃ l ∈ L, x ∈ mirTargets l := by
    intro L
    induction L with
    | nil => intro x hx; cases hx
    | cons l rest ih =>
      intro x hx
      rw [List.flatten_cons, mirTargets_append, List.mem_append] at hx
      rcases hx with hx | hx
      · exact ⟨l, by simp, hx⟩
      · obtain ⟨l', hl', hx'⟩ := ih x hx
        exact ⟨l', by simp [hl'], hx'⟩
  obtain ⟨l, hl, ht1⟩ := flat1 _ _ ht
  simp only [List.mem_map, List.mem_range] at hl
  obtain ⟨i, hi, rfl⟩ := hl
  obtain ⟨l2, hl2, ht2⟩ := flat1 _ _ ht1
  simp only [List.mem_map, List.mem_range] at hl2
  obtain ⟨j, hj, rfl⟩ := hl2
  obtain ⟨cur, hcur, k, hk, rfl⟩ := cellLinkOps_mirTargets g i j t ht2
  exact slotId_mem_patchSlotIdList g _ cur hcur
    (hlen16 _ (getD_mem_cells _ _ _ hcur) cur rfl) k hk

/-- Every addChildren anchor of the full relinking pass is a live patch slot
id. -/
theorem linkOps_chAnchors_sub (g : Grid)
    (hlen16 : ∀ c ∈ g.cells, ∀ p, c = some p → p.controlPoints.length = 16)
    (t : ℕ) (ht : t ∈ chAnchors (linkOps g)) : t ∈ patchSlotIdList g := by
  unfold linkOps at ht
  have flat1 : ∀ (L : List (List LinkOp)) (x : ℕ), x ∈ chAnchors L.flatten →
      ∃ l ∈ L, x ∈ chAnchors l := by
    intro L
    induction L with
    | nil => intro x hx; cases hx
    | cons l rest ih =>
      intro x hx
      rw [List.flatten_cons, chAnchors_append, List.mem_append] at hx
      rcases hx with hx | hx
      · exact ⟨l, by simp, hx⟩
      · obtain ⟨l', hl', hx'⟩ := ih x hx
        exact ⟨l', by simp [hl'], hx'⟩
  obtain ⟨l, hl, ht1⟩ := flat1 _ _ ht
  simp only [List.mem_map, List.mem_range] at hl
  obtain ⟨i, hi, rfl⟩ := hl
  obtain ⟨l2, hl2, ht2⟩ := flat1 _ _ ht1
  simp only [List.mem_map, List.mem_range] at hl2
  obtain ⟨j, hj, rfl⟩ := hl2
  obtain ⟨cur, hcur, k, hk, rfl⟩ := cellLinkOps_chAnchors g i j t ht2
  exact slotId_mem_patchSlotIdList g _ cur hcur
    (hlen16 _ (getD_mem_cells _ _ _ hcur) cur rfl) k hk

/-- Claim C8.  Idempotence of continuity relinking: on a composite Patch
whose cells all carry their sixteen control points, running
relinkControlPoints a second time with no intervening mutation leaves
exactly the same mirror-link and parent/children link state as the first
run; all links are cleared and recomputed from the grid topology, never
accumulated. -/
theorem claim8_relink_idempotent (s : PatchState)
    (hlen16 : ∀ c ∈ s.grid.cells, ∀ p, c = some p →
      p.controlPoints.length = 16) :
    relinkState (relinkState s) = relinkState s := by
  show PatchState.mk s.grid (relinkStore s.grid (relinkStore s.grid s.store))
    = PatchState.mk s.grid (relinkStore s.grid s.store)
  have hstore : relinkStore s.grid (relinkStore s.grid s.store)
      = relinkStore s.grid s.store := by
    unfold relinkStore clearLinks
    apply applyOps_congr
    · rw [clearFold_size, applyOps_size, clearFold_size]
    · intro k
      rw [clearFold_pos, applyOps_pos, clearFold_pos]
    · intro k
      rw [clearFold_mirror, clearFold_mirror]
      by_cases hk : k ∈ patchSlotIdList s.grid
      · rw [if_pos hk, if_pos hk]
      · rw [if_neg hk, if_neg hk,
          applyOps_mirror_ne _ _ k
            (fun hm => hk (linkOps_mirTargets_sub s.grid hlen16 k hm)),
          clearFold_mirror, if_neg hk]
    · intro k
      rw [clearFold_children, clearFold_children]
      by_cases hk : k ∈ patchSlotIdList s.grid
      · rw [if_pos hk, if_pos hk]
      · rw [if_neg hk, if_neg hk,
          applyOps_children_ne _ _ k
            (fun hm => hk (linkOps_chAnchors_sub s.grid hlen16 k hm)),
          clearFold_children, if_neg hk]
    · intro k
      by_cases hk : k ∈ childTargets (linkOps s.grid)
      · exact Or.inl hk
      · right
        rw [clearFold_parent]
        have hcond : ¬∃ p ∈ patchSlotIdList s.grid,
            k ∈ (getCP (applyOps
              ((patchSlotIdList s.grid).foldl clearPoint s.store)
              (linkOps s.grid)) p).children := by
          intro hc
          obtain ⟨p, hp, hkp⟩ := hc
          rcases applyOps_children_subset _ _ p k hkp with h | h
          · rw [clearFold_children, if_pos hp] at h
            cases h
          · exact hk h
        rw [if_neg hcond]
        exact applyOps_parent_ne _ _ k hk
  rw [hstore]

/-- Witness for claim C8 on the concrete one-cell composite patch. -/
theorem claim8_witness :
    (∀ c ∈ sampleState.grid.cells, ∀ p, c = some p →
      p.controlPoints.length = 16) ∧
    relinkState (relinkState sampleState) = relinkState sampleState := by
  have h : ∀ c ∈ sampleState.grid.cells, ∀ p, c = some p →
      p.controlPoints.length = 16 := by
    intro c hc p hp
    simp only [sampleState, List.mem_singleton] at hc
    subst hc
    obtain rfl : p = samplePatch := by
      injection hp with h1
      exact h1.symm
    decide
  exact ⟨h, claim8_relink_idempotent sampleState h⟩

/-- Splicing an insertion at an in-range nonnegative position. -/
theorem spliceList_insert {α : Type} (l : List α) (pos : ℕ)
    (hpos : pos ≤ l.length) (items : List α) :
    spliceList l (pos : ℤ) 0 items = l.take pos ++ items ++ l.drop pos := by
  unfold spliceList
  have h1 : ¬((pos : ℤ) < 0) := by omega
  simp only [h1, if_false, Int.toNat_ofNat, Nat.add_zero]
  rw [min_eq_left hpos]

/-- Splicing a deletion at an in-range nonnegative position. -/
theorem spliceList_delete {α : Type} (l : List α) (pos : ℕ)
    (hpos : pos ≤ l.length) (d : ℕ) :
    spliceList l (pos : ℤ) d [] = l.take pos ++ l.drop (pos + d) := by
  unfold spliceList
  have h1 : ¬((pos : ℤ) < 0) := by omega
  simp only [h1, if_false, Int.toNat_ofNat, List.nil_append]
  rw [min_eq_left hpos]
  simp

/-- A splice whose position lies beyond a prefix acts on the suffix. -/
theorem spliceList_append_right {α : Type} (A B : List α) (m d : ℕ)
    (items : List α) :
    spliceList (A ++ B) ((A.length + m : ℕ) : ℤ) d items
      = A ++ spliceList B (m : ℤ) d items := by
  unfold spliceList
  have h1 : ¬(((A.length + m : ℕ) : ℤ) < 0) := by omega
  have h2 : ¬((m : ℤ) < 0) := by omega
  simp only [h1, h2, if_false, Int.toNat_ofNat]
  rw [List.length_append]
  have hmin : min (A.length + m) (A.length + B.length)
      = A.length + min m B.length := by omega
  rw [hmin]
  have hsum : A.length + min m B.length + d
      = A.length + (min m B.length + d) := by omega
  rw [hsum, List.take_append, List.drop_append]
  simp [List.append_assoc]

/-- A splice wholly inside a prefix leaves the suffix alone. -/
theorem spliceList_append_left {α : Type} (A B : List α) (pos d : ℕ)
    (items : List α) (h : pos + d ≤ A.length) :
    spliceList (A ++ B) (pos : ℤ) d items
      = spliceList A (pos : ℤ) d items ++ B := by
  unfold spliceList
  have h1 : ¬((pos : ℤ) < 0) := by omega
  simp only [h1, if_false, Int.toNat_ofNat]
  rw [List.length_append]
  have hmin1 : min pos (A.length + B.length) = pos := by omega
  have hmin2 : min pos A.length = pos := by omega
  rw [hmin1, hmin2]
  rw [List.take_append_of_le_length (by omega),
    List.drop_append_of_le_length (by omega)]
  simp [List.append_assoc]

/-- Setting the element right after a prefix of the stated length. -/
theorem set_after_prefix {α : Type} (A : List α) (x y : α) (B : List α)
    (n : ℕ) (hn : n = A.length) :
    (A ++ (x :: B)).set n y = A ++ (y :: B) := by
  subst hn
  rw [List.set_append_right _ _ (le_refl _), Nat.sub_self, List.set_cons_zero]

/-- The filling loop of subdivideHorizontal: writing the bottom and top
patches over the two freshly inserted null blocks. -/
theorem fill_cells_go (C : ℕ) (bt tp : List BezierPatch3)
    (hbt : bt.length = C) (htp : tp.length = C)
    (A B : List (Option BezierPatch3)) :
    ∀ (n j : ℕ), j + n = C →
    (List.range' j n).foldl
      (fun cs m => (cs.set (A.length + m) (some (bt.getD m default))).set
        (A.length + C + m) (some (tp.getD m default)))
      (A ++ ((bt.take j).map some ++ (List.replicate (C - j) none
        ++ ((tp.take j).map some ++ (List.replicate (C - j) none ++ B)))))
    = A ++ (bt.map some ++ ((tp.map some) ++ B)) := by
  intro n
  induction n with
  | zero =>
    intro j hj
    have hj' : j = C := by omega
    subst hj'
    rw [List.take_of_length_le (le_of_eq hbt),
      List.take_of_length_le (le_of_eq htp)]
    simp
  | succ m ih =>
    intro j hj
    have hjC : j < C := by omega
    have hlenP1 : ((bt.take j).map some).length = j := by
      rw [List.length_map, List.length_take]
      omega
    have hlenP2 : ((tp.take j).map some).length = j := by
      rw [List.length_map, List.length_take]
      omega
    have hrep : List.replicate (C - j) (none : Option BezierPatch3)
        = none :: List.replicate (C - j - 1) none := by
      conv_lhs => rw [show C - j = (C - j - 1) + 1 by omega]
      rw [List.replicate_succ]
    have hstep : List.range' j (m + 1) = j :: List.range' (j + 1) m := rfl
    rw [hstep, List.foldl_cons, hrep]
    -- first set: view the state with the first null block's head exposed
    have hview1 : A ++ ((bt.take j).map some
          ++ ((none :: List.replicate (C - j - 1) none)
          ++ ((tp.take j).map some
          ++ ((none :: List.replicate (C - j - 1) none) ++ B))))
        = (A ++ (bt.take j).map some)
          ++ ((none : Option BezierPatch3) :: (List.replicate (C - j - 1) none
            ++ ((tp.take j).map some
            ++ (none :: (List.replicate (C - j - 1) none ++ B))))) := by
      simp [List.append_assoc]
    rw [hview1, set_after_prefix _ _ _ _ _
      (by rw [List.length_append, hlenP1])]
    -- second set: view the state with the second null block's head exposed
    have hview2 : (A ++ (bt.take j).map some)
          ++ (some (bt.getD j default) :: (List.replicate (C - j - 1) none
            ++ ((tp.take j).map some
            ++ (none :: (List.replicate (C - j - 1) none ++ B)))))
        = ((A ++ (bt.take j).map some)
            ++ (some (bt.getD j default) :: (List.replicate (C - j - 1) none
              ++ (tp.take j).map some)))
          ++ ((none : Option BezierPatch3)
            :: (List.replicate (C - j - 1) none ++ B)) := by
      simp [List.append_assoc]
    rw [hview2, set_after_prefix _ _ _ _ _
      (by simp only [List.length_append, List.length_cons, hlenP1, hlenP2,
            List.length_replicate]
          omega)]
    -- fold the two fresh entries into the grown prefixes
    have hbtj : bt.take (j + 1) = bt.take j ++ [bt.getD j default] := by
      have hlt : j < bt.length := by omega
      rw [List.getD_eq_getElem?_getD, List.getElem?_eq_getElem hlt]
      exact (List.take_concat_get' bt j hlt).symm
    have htpj : tp.take (j + 1) = tp.take j ++ [tp.getD j default] := by
      have hlt : j < tp.length := by omega
      rw [List.getD_eq_getElem?_getD, List.getElem?_eq_getElem hlt]
      exact (List.take_concat_get' tp j hlt).symm
    have hgoal := ih (j + 1) (by omega)
    rw [hbtj, htpj] at hgoal
    have hrep' : C - (j + 1) = C - j - 1 := by omega
    rw [hrep'] at hgoal
    simp only [List.map_append, List.map_cons, List.map_nil,
      List.append_assoc, List.cons_append, List.nil_append] at hgoal ⊢
    exact hgoal

/-- Folds over the same list with pointwise-equal step functions agree. -/
theorem foldl_fun_congr {α β : Type} (l : List β) (f g : α → β → α)
    (h : ∀ acc b, f acc b = g acc b) : ∀ a, l.foldl f a = l.foldl g a := by
  induction l with
  | nil => intro a; rfl
  | cons b rest ih =>
    intro a
    rw [List.foldl_cons, List.foldl_cons, h]
    exact ih _

/-- The grid-level filling fold in terms of the flat cell list. -/
theorem fillFoldGrid (r1 r2 : ℕ) (bt tp : List BezierPatch3) :
    ∀ (js : List ℕ) (g : Grid),
    (js.foldl (fun g' j => Grid.set (Grid.set g' r1 j (bt.getD j default))
        r2 j (tp.getD j default)) g).rowCount = g.rowCount ∧
    (js.foldl (fun g' j => Grid.set (Grid.set g' r1 j (bt.getD j default))
        r2 j (tp.getD j default)) g).colCount = g.colCount ∧
    (js.foldl (fun g' j => Grid.set (Grid.set g' r1 j (bt.getD j default))
        r2 j (tp.getD j default)) g).cells
      = js.foldl (fun cs j => (cs.set (r1 * g.colCount + j)
          (some (bt.getD j default))).set (r2 * g.colCount + j)
          (some (tp.getD j default))) g.cells := by
  intro js
  induction js with
  | nil => intro g; exact ⟨rfl, rfl, rfl⟩
  | cons j rest ih =>
    intro g
    obtain ⟨h1, h2, h3⟩ := ih (Grid.set (Grid.set g r1 j (bt.getD j default))
      r2 j (tp.getD j default))
    refine ⟨?_, ?_, ?_⟩
    · rw [List.foldl_cons, h1]
      rfl
    · rw [List.foldl_cons, h2]
      rfl
    · rw [List.foldl_cons, h3, List.foldl_cons]
      rfl

/-- Row insertion on an explicit grid, at a nonnegative in-range index. -/
theorem inserRow_eq (R C : ℕ) (cells : List (Option BezierPatch3)) (k : ℤ)
    (k' : ℕ) (hk : k = (k' : ℤ)) (hk2 : k' * C ≤ cells.length) :
    (Grid.mk R C cells).inserRow k
      = Grid.mk (R + 1) C (cells.take (k' * C)
          ++ List.replicate C none ++ cells.drop (k' * C)) := by
  subst hk
  unfold Grid.inserRow
  have hidx : (k' : ℤ) * ((C : ℕ) : ℤ) = (((k' * C : ℕ)) : ℤ) := by
    push_cast
    ring
  show Grid.mk (R + 1) C (spliceList cells ((k' : ℤ) * (C : ℤ)) 0 _) = _
  rw [hidx, spliceList_insert cells (k' * C) hk2]

/-- Row deletion on an explicit grid, at a nonnegative in-range index. -/
theorem deleteRow_eq (R C : ℕ) (cells : List (Option BezierPatch3)) (k : ℤ)
    (k' : ℕ) (hk : k = (k' : ℤ)) (hk2 : k' * C ≤ cells.length) :
    (Grid.mk R C cells).deleteRow k
      = Grid.mk (R - 1) C (cells.take (k' * C) ++ cells.drop (k' * C + C)) := by
  subst hk
  unfold Grid.deleteRow
  have hidx : (k' : ℤ) * ((C : ℕ) : ℤ) = (((k' * C : ℕ)) : ℤ) := by
    push_cast
    ring
  show Grid.mk (R - 1) C (spliceList cells ((k' : ℤ) * (C : ℤ)) C []) = _
  rw [hidx, spliceList_delete cells (k' * C) hk2]

/-- The bottom and top lists built by the subdivision recursion have one
entry per processed cell. -/
theorem subHBuildGo_len (v : ℚ) : ∀ (cells : List BezierPatch3) (st : Store)
    (prev : Option (BezierPatch3 × BezierPatch3)),
    (subHBuildGo v st prev cells).2.1.length = cells.length ∧
    (subHBuildGo v st prev cells).2.2.length = cells.length := by
  intro cells
  induction cells with
  | nil => intro st prev; exact ⟨rfl, rfl⟩
  | cons cur rest ih =>
    intro st prev
    obtain ⟨h1, h2⟩ := ih (subHStep st cur v prev).1
      (some ((subHStep st cur v prev).2.1, (subHStep st cur v prev).2.2))
    constructor
    · show ((subHStep st cur v prev).2.1 :: _).length = _
      rw [List.length_cons, h1]
      rfl
    · show ((subHStep st cur v prev).2.2 :: _).length = _
      rw [List.length_cons, h2]
      rfl

/-- Same for the vertical direction. -/
theorem subVBuildGo_len (u : ℚ) : ∀ (cells : List BezierPatch3) (st : Store)
    (prev : Option (BezierPatch3 × BezierPatch3)),
    (subVBuildGo u st prev cells).2.1.length = cells.length ∧
    (subVBuildGo u st prev cells).2.2.length = cells.length := by
  intro cells
  induction cells with
  | nil => intro st prev; exact ⟨rfl, rfl⟩
  | cons cur rest ih =>
    intro st prev
    obtain ⟨h1, h2⟩ := ih (subVStep st cur u prev).1
      (some ((subVStep st cur u prev).2.1, (subVStep st cur u prev).2.2))
    constructor
    · show ((subVStep st cur u prev).2.1 :: _).length = _
      rw [List.length_cons, h1]
      rfl
    · show ((subVStep st cur u prev).2.2 :: _).length = _
      rw [List.length_cons, h2]
      rfl

/-- The subdivideHorizontal column loop on a fully populated row equals the
pure build recursion. -/
theorem subHLoopGo_eq_build (v : ℚ) (row : List (Option BezierPatch3)) :
    ∀ (n j : ℕ) (st : Store) (bs ts : List BezierPatch3),
    (∀ m < n, ∃ cur, row.getD (j + m) none = some cur) →
    bs.length = j → ts.length = j →
    subHLoopGo v (some row) (List.range' j n) st bs ts
      = Except.ok
          ((subHBuildGo v st
            (if j = 0 then none
             else some (bs.getD (j - 1) default, ts.getD (j - 1) default))
            ((List.range' j n).map (fun m => (row.getD m none).getD default))).1,
           bs ++ (subHBuildGo v st
            (if j = 0 then none
             else some (bs.getD (j - 1) default, ts.getD (j - 1) default))
            ((List.range' j n).map (fun m => (row.getD m none).getD default))).2.1,
           ts ++ (subHBuildGo v st
            (if j = 0 then none
             else some (bs.getD (j - 1) default, ts.getD (j - 1) default))
            ((List.range' j n).map (fun m => (row.getD m none).getD default))).2.2) := by
  intro n
  induction n with
  | zero =>
    intro j st bs ts _ _ _
    show Except.ok (st, bs, ts) = _
    simp [subHBuildGo]
  | succ m ih =>
    intro j st bs ts hfull hbs hts
    obtain ⟨cur, hcur⟩ := hfull 0 (by omega)
    rw [Nat.add_zero] at hcur
    have hstep : List.range' j (m + 1) = j :: List.range' (j + 1) m := rfl
    rw [hstep]
    show (match row.getD j none with
      | none => Except.error (st, "TypeError: cannot read properties of null")
      | some cur =>
        let prev : Option (BezierPatch3 × BezierPatch3) :=
          if j = 0 then none
          else some (bs.getD (j - 1) default, ts.getD (j - 1) default)
        let r := subHStep st cur v prev
        subHLoopGo v (some row) (List.range' (j + 1) m) r.1
          (bs ++ [r.2.1]) (ts ++ [r.2.2])) = _
    rw [hcur]
    show subHLoopGo v (some row) (List.range' (j + 1) m) _ _ _ = _
    rw [ih (j + 1) _ _ _
      (fun m' hm' => by
        have := hfull (m' + 1) (by omega)
        rw [show j + (m' + 1) = j + 1 + m' by omega] at this
        exact this)
      (by rw [List.length_append, hbs]; rfl)
      (by rw [List.length_append, hts]; rfl)]
    have hj1 : ¬(j + 1 = 0) := by omega
    rw [if_neg hj1]
    have hgb : (bs ++ [(subHStep st cur v
        (if j = 0 then none
         else some (bs.getD (j - 1) default, ts.getD (j - 1) default))).2.1]).getD
        (j + 1 - 1) default
        = (subHStep st cur v (if j = 0 then none
           else some (bs.getD (j - 1) default, ts.getD (j - 1) default))).2.1 := by
      rw [Nat.add_sub_cancel, List.getD_eq_getElem?_getD,
        List.getElem?_append_right (by omega), hbs, Nat.sub_self]
      rfl
    have hgt : (ts ++ [(subHStep st cur v
        (if j = 0 then none
         else some (bs.getD (j - 1) default, ts.getD (j - 1) default))).2.2]).getD
        (j + 1 - 1) default
        = (subHStep st cur v (if j = 0 then none
           else some (bs.getD (j - 1) default, ts.getD (j - 1) default))).2.2 := by
      rw [Nat.add_sub_cancel, List.getD_eq_getElem?_getD,
        List.getElem?_append_right (by omega), hts, Nat.sub_self]
      rfl
    rw [hgb, hgt]
    simp only [List.map_cons, hcur, Option.getD_some, subHBuildGo]
    simp [List.append_assoc]

/-- The subdivideVertical row loop on a fully populated column equals the
pure build recursion. -/
theorem subVLoopGo_eq_build (u : ℚ) (col : List (Option BezierPatch3)) :
    ∀ (n j : ℕ) (st : Store) (ls rs : List BezierPatch3),
    (∀ m < n, ∃ cur, col.getD (j + m) none = some cur) →
    ls.length = j → rs.length = j →
    subVLoopGo u (some col) (List.range' j n) st ls rs
      = Except.ok
          ((subVBuildGo u st
            (if j = 0 then none
             else some (ls.getD (j - 1) default, rs.getD (j - 1) default))
            ((List.range' j n).map (fun m => (col.getD m none).getD default))).1,
           ls ++ (subVBuildGo u st
            (if j = 0 then none
             else some (ls.getD (j - 1) default, rs.getD (j - 1) default))
            ((List.range' j n).map (fun m => (col.getD m none).getD default))).2.1,
           rs ++ (subVBuildGo u st
            (if j = 0 then none
             else some (ls.getD (j - 1) default, rs.getD (j - 1) default))
            ((List.range' j n).map (fun m => (col.getD m none).getD default))).2.2) := by
  intro n
  induction n with
  | zero =>
    intro j st ls rs _ _ _
    show Except.ok (st, ls, rs) = _
    simp [subVBuildGo]
  | succ m ih =>
    intro j st ls rs hfull hls hrs
    obtain ⟨cur, hcur⟩ := hfull 0 (by omega)
    rw [Nat.add_zero] at hcur
    have hstep : List.range' j (m + 1) = j :: List.range' (j + 1) m := rfl
    rw [hstep]
    show (match col.getD j none with
      | none => Except.error (st, "TypeError: cannot read properties of null")
      | some cur =>
        let prev : Option (BezierPatch3 × BezierPatch3) :=
          if j = 0 then none
          else some (ls.getD (j - 1) default, rs.getD (j - 1) default)
        let r := subVStep st cur u prev
        subVLoopGo u (some col) (List.range' (j + 1) m) r.1
          (ls ++ [r.2.1]) (rs ++ [r.2.2])) = _
    rw [hcur]
    show subVLoopGo u (some col) (List.range' (j + 1) m) _ _ _ = _
    rw [ih (j + 1) _ _ _
      (fun m' hm' => by
        have := hfull (m' + 1) (by omega)
        rw [show j + (m' + 1) = j + 1 + m' by omega] at this
        exact this)
      (by rw [List.length_append, hls]; rfl)
      (by rw [List.length_append, hrs]; rfl)]
    have hj1 : ¬(j + 1 = 0) := by omega
    rw [if_neg hj1]
    have hgb : (ls ++ [(subVStep st cur u
        (if j = 0 then none
         else some (ls.getD (j - 1) default, rs.getD (j - 1) default))).2.1]).getD
        (j + 1 - 1) default
        = (subVStep st cur u (if j = 0 then none
           else some (ls.getD (j - 1) default, rs.getD (j - 1) default))).2.1 := by
      rw [Nat.add_sub_cancel, List.getD_eq_getElem?_getD,
        List.getElem?_append_right (by omega), hls, Nat.sub_self]
      rfl
    have hgt : (rs ++ [(subVStep st cur u
        (if j = 0 then none
         else some (ls.getD (j - 1) default, rs.getD (j - 1) default))).2.2]).getD
        (j + 1 - 1) default
        = (subVStep st cur u (if j = 0 then none
           else some (ls.getD (j - 1) default, rs.getD (j - 1) default))).2.2 := by
      rw [Nat.add_sub_cancel, List.getD_eq_getElem?_getD,
        List.getElem?_append_right (by omega), hrs, Nat.sub_self]
      rfl
    rw [hgb, hgt]
    simp only [List.map_cons, hcur, Option.getD_some, subVBuildGo]
    simp [List.append_assoc]

/-- Reading an in-range index of a map over List.range. -/
theorem getD_map_range {α : Type} (n m : ℕ) (h : m < n) (f : ℕ → α) (d : α) :
    ((List.range n).map f).getD m d = f m := by
  simp [List.getD_eq_getElem?_getD, List.getElem?_map, List.getElem?_range h]

/-- Grid.rows at an in-range index. -/
theorem rowsL_get (g : Grid) (r : ℕ) (hr : r < g.rowCount) :
    g.rowsL.get? r = some ((List.range g.colCount).map
      (fun j => g.cells.getD (r * g.colCount + j) none)) := by
  simp [Grid.rowsL, List.get?_eq_getElem?, List.getElem?_map,
    List.getElem?_range hr]

/-- Grid.columns at an in-range index. -/
theorem columnsL_get (g : Grid) (c : ℕ) (hc : c < g.colCount) :
    g.columnsL.get? c = some ((List.range g.rowCount).map
      (fun i => g.cells.getD (i * g.colCount + c) none)) := by
  simp [Grid.columnsL, List.get?_eq_getElem?, List.getElem?_map,
    List.getElem?_range hc]

/-- The grid surgery of subdivideHorizontal on success: insert two null rows
below the split row, fill them with the bottom and top patches, delete the
original row.  The cell array becomes: rows above, the bottoms, the tops,
the rows below, with one more row. -/
theorem subH_grid_surgery (g : Grid) (r : ℕ) (bottoms tops : List BezierPatch3)
    (hr : r < g.rowCount) (hlen : g.cells.length = g.rowCount * g.colCount)
    (hbl : bottoms.length = g.colCount) (htl : tops.length = g.colCount) :
    ((List.range ((g.inserRow ((r : ℤ) + 1)).inserRow ((r : ℤ) + 2)).colCount).foldl
       (fun g' j => Grid.set (Grid.set g' ((r : ℤ) + 1).toNat j (bottoms.getD j default))
         ((r : ℤ) + 2).toNat j (tops.getD j default))
       ((g.inserRow ((r : ℤ) + 1)).inserRow ((r : ℤ) + 2))).deleteRow (r : ℤ)
    = Grid.mk (g.rowCount + 1) g.colCount (g.cells.take (r * g.colCount)
        ++ (bottoms.map some ++ (tops.map some
          ++ g.cells.drop ((r + 1) * g.colCount)))) := by
  obtain ⟨R, C, cells⟩ := g
  dsimp only at hr hlen hbl htl ⊢
  have hmul : (r + 1) * C ≤ R * C := Nat.mul_le_mul_right C (by omega)
  have h1C : (r + 1) * C ≤ cells.length := by omega
  rw [inserRow_eq R C cells ((r : ℤ) + 1) (r + 1) (by push_cast; ring) h1C]
  have hA1len : (cells.take ((r + 1) * C)).length = (r + 1) * C := by
    rw [List.length_take]
    omega
  have he1 : (r + 2) * C = (r + 1) * C + C := by ring
  have hlen1 : (cells.take ((r + 1) * C) ++ List.replicate C none
      ++ cells.drop ((r + 1) * C)).length = R * C + C := by
    simp only [List.length_append, hA1len, List.length_replicate,
      List.length_drop, hlen]
    omega
  have h2C : (r + 2) * C ≤ (cells.take ((r + 1) * C) ++ List.replicate C none
      ++ cells.drop ((r + 1) * C)).length := by omega
  rw [inserRow_eq (R + 1) C _ ((r : ℤ) + 2) (r + 2) (by push_cast; ring) h2C]
  have hlen12 : (cells.take ((r + 1) * C) ++ List.replicate C none).length
      = (r + 2) * C := by
    simp only [List.length_append, hA1len, List.length_replicate]
    omega
  have htk2 : (cells.take ((r + 1) * C) ++ List.replicate C none
      ++ cells.drop ((r + 1) * C)).take ((r + 2) * C)
      = cells.take ((r + 1) * C) ++ List.replicate C none := by
    rw [← hlen12]
    exact List.take_left _ _
  have hdr2 : (cells.take ((r + 1) * C) ++ List.replicate C none
      ++ cells.drop ((r + 1) * C)).drop ((r + 2) * C)
      = cells.drop ((r + 1) * C) := by
    rw [← hlen12]
    exact List.drop_left _ _
  rw [htk2, hdr2]
  have ht1 : ((r : ℤ) + 1).toNat = r + 1 := by omega
  have ht2 : ((r : ℤ) + 2).toNat = r + 2 := by omega
  simp only [ht1, ht2]
  have hmul0 : r * C ≤ (r + 1) * C := Nat.mul_le_mul_right C (by omega)
  have hfoldG : (List.range C).foldl
      (fun g' j => Grid.set (Grid.set g' (r + 1) j (bottoms.getD j default))
        (r + 2) j (tops.getD j default))
      (Grid.mk (R + 1 + 1) C ((cells.take ((r + 1) * C)
        ++ List.replicate C none) ++ List.replicate C none
        ++ cells.drop ((r + 1) * C)))
      = Grid.mk (R + 1 + 1) C ((List.range C).foldl
          (fun cs j => (cs.set ((r + 1) * C + j)
            (some (bottoms.getD j default))).set ((r + 2) * C + j)
            (some (tops.getD j default)))
          ((cells.take ((r + 1) * C) ++ List.replicate C none)
            ++ List.replicate C none ++ cells.drop ((r + 1) * C))) := by
    obtain ⟨h1, h2, h3⟩ := fillFoldGrid (r + 1) (r + 2) bottoms tops
      (List.range C)
      (Grid.mk (R + 1 + 1) C ((cells.take ((r + 1) * C)
        ++ List.replicate C none) ++ List.replicate C none
        ++ cells.drop ((r + 1) * C)))
    dsimp only at h1 h2 h3
    have heta : (List.range C).foldl
        (fun g' j => Grid.set (Grid.set g' (r + 1) j (bottoms.getD j default))
          (r + 2) j (tops.getD j default))
        (Grid.mk (R + 1 + 1) C ((cells.take ((r + 1) * C)
          ++ List.replicate C none) ++ List.replicate C none
          ++ cells.drop ((r + 1) * C)))
        = Grid.mk ((List.range C).foldl
            (fun g' j => Grid.set (Grid.set g' (r + 1) j (bottoms.getD j default))
              (r + 2) j (tops.getD j default))
            (Grid.mk (R + 1 + 1) C ((cells.take ((r + 1) * C)
              ++ List.replicate C none) ++ List.replicate C none
              ++ cells.drop ((r + 1) * C)))).rowCount
            ((List.range C).foldl
              (fun g' j => Grid.set (Grid.set g' (r + 1) j (bottoms.getD j default))
                (r + 2) j (tops.getD j default))
              (Grid.mk (R + 1 + 1) C ((cells.take ((r + 1) * C)
                ++ List.replicate C none) ++ List.replicate C none
                ++ cells.drop ((r + 1) * C)))).colCount
            ((List.range C).foldl
              (fun g' j => Grid.set (Grid.set g' (r + 1) j (bottoms.getD j default))
                (r + 2) j (tops.getD j default))
              (Grid.mk (R + 1 + 1) C ((cells.take ((r + 1) * C)
                ++ List.replicate C none) ++ List.replicate C none
                ++ cells.drop ((r + 1) * C)))).cells := rfl
    rw [heta, h1, h2, h3]
  rw [hfoldG]
  have hfill := fill_cells_go C bottoms tops hbl htl
    (cells.take ((r + 1) * C)) (cells.drop ((r + 1) * C)) C 0 (Nat.zero_add C)
  simp only [List.take_zero, List.map_nil, List.nil_append, Nat.sub_zero]
    at hfill
  simp only [hA1len] at hfill
  simp only [← he1] at hfill
  have hassoc : (cells.take ((r + 1) * C) ++ List.replicate C none)
      ++ List.replicate C none ++ cells.drop ((r + 1) * C)
      = cells.take ((r + 1) * C) ++ (List.replicate C none
        ++ (List.replicate C none ++ cells.drop ((r + 1) * C))) := by
    simp only [List.append_assoc]
  rw [List.range_eq_range', hassoc, hfill]
  have hlen3 : r * C ≤ (cells.take ((r + 1) * C)
      ++ (bottoms.map some ++ (tops.map some
        ++ cells.drop ((r + 1) * C)))).length := by
    simp only [List.length_append, hA1len]
    omega
  rw [deleteRow_eq (R + 1 + 1) C _ (r : ℤ) r rfl hlen3]
  have htk : (cells.take ((r + 1) * C)
      ++ (bottoms.map some ++ (tops.map some
        ++ cells.drop ((r + 1) * C)))).take (r * C) = cells.take (r * C) := by
    rw [List.take_append_of_le_length (by rw [hA1len]; exact hmul0),
      List.take_take, min_eq_left hmul0]
  have hdr : (cells.take ((r + 1) * C)
      ++ (bottoms.map some ++ (tops.map some
        ++ cells.drop ((r + 1) * C)))).drop (r * C + C)
      = bottoms.map some ++ (tops.map some ++ cells.drop ((r + 1) * C)) := by
    rw [show r * C + C = (cells.take ((r + 1) * C)).length by rw [hA1len]; ring]
    exact List.drop_left _ _
  rw [htk, hdr]
  rfl

/-- The row search returns the index of the first matching row: all rows
before r are readable and fail the span test, row r passes it. -/
theorem findRowIndexGo_at (v : ℚ) :
    ∀ (rows : List (List (Option BezierPatch3))) (r : ℕ), r < rows.length →
    (∀ m < r, ∃ p, (rows.getD m []).headD none = some p ∧
      ¬(p.domain.v0 ≤ v ∧ v ≤ p.domain.v1)) →
    (∃ p, (rows.getD r []).headD none = some p ∧
      (p.domain.v0 ≤ v ∧ v ≤ p.domain.v1)) →
    ∀ idx : ℤ, findRowIndexGo v rows idx = Except.ok (idx + r) := by
  intro rows
  induction rows with
  | nil => intro r hr; simp at hr
  | cons row rest ih =>
    intro r hr hfail hhit idx
    cases r with
    | zero =>
      obtain ⟨p, hp, hc⟩ := hhit
      simp only [List.getD_cons_zero] at hp
      simp only [findRowIndexGo, hp]
      rw [if_pos hc]
      norm_num
    | succ r' =>
      obtain ⟨p, hp, hnc⟩ := hfail 0 (by omega)
      simp only [List.getD_cons_zero] at hp
      simp only [findRowIndexGo, hp]
      rw [if_neg hnc]
      rw [ih r' (by simpa using hr)
        (fun m hm => by
          have := hfail (m + 1) (by omega)
          simpa using this)
        (by simpa using hhit) (idx + 1)]
      congr 1
      push_cast
      ring

/-- Same for the column search on the u spans. -/
theorem findColIndexGo_at (u : ℚ) :
    ∀ (cols : List (List (Option BezierPatch3))) (c : ℕ), c < cols.length →
    (∀ m < c, ∃ p, (cols.getD m []).headD none = some p ∧
      ¬(p.domain.u0 ≤ u ∧ u ≤ p.domain.u1)) →
    (∃ p, (cols.getD c []).headD none = some p ∧
      (p.domain.u0 ≤ u ∧ u ≤ p.domain.u1)) →
    ∀ idx : ℤ, findColIndexGo u cols idx = Except.ok (idx + c) := by
  intro cols
  induction cols with
  | nil => intro c hc; simp at hc
  | cons col rest ih =>
    intro c hc hfail hhit idx
    cases c with
    | zero =>
      obtain ⟨p, hp, hcm⟩ := hhit
      simp only [List.getD_cons_zero] at hp
      simp only [findColIndexGo, hp]
      rw [if_pos hcm]
      norm_num
    | succ c' =>
      obtain ⟨p, hp, hnc⟩ := hfail 0 (by omega)
      simp only [List.getD_cons_zero] at hp
      simp only [findColIndexGo, hp]
      rw [if_neg hnc]
      rw [ih c' (by simpa using hc)
        (fun m hm => by
          have := hfail (m + 1) (by omega)
          simpa using this)
        (by simpa using hhit) (idx + 1)]
      congr 1
      push_cast
      ring

/-- A sequence with strictly increasing consecutive values is monotone on
the covered range. -/
theorem bp_mono (f : ℕ → ℚ) (n : ℕ) (hadj : ∀ k < n, f k < f (k + 1)) :
    ∀ i j, i ≤ j → j ≤ n → f i ≤ f j := by
  intro i j hij hj
  induction j with
  | zero =>
    have : i = 0 := by omega
    simp [this]
  | succ m ih =>
    rcases Nat.eq_or_lt_of_le hij with heq | hlt
    · rw [heq]
    · have h1 : f i ≤ f m := ih (by omega) (by omega)
      have h2 : f m < f (m + 1) := hadj m (by omega)
      linarith

/-- Extract a cell with its Domain from a structured grid. -/
theorem structured_cell (g : Grid) (ub vb : List ℚ)
    (hS : StructuredDomains g ub vb) (i j : ℕ)
    (hi : i < g.rowCount) (hj : j < g.colCount) :
    ∃ p, cellD g i j = some p ∧
      p.domain = ⟨ub.getD j 0, vb.getD i 0, ub.getD (j + 1) 0,
        vb.getD (i + 1) 0⟩ := by
  obtain ⟨-, -, -, -, -, -, -, -, -, -, -, hcell⟩ := hS
  obtain ⟨hsome, hdom⟩ := hcell i hi j hj
  cases h : cellD g i j with
  | none => rw [h] at hsome; simp at hsome
  | some p =>
    refine ⟨p, rfl, ?_⟩
    rw [h] at hdom
    simpa using hdom

/-- On a structured grid the row search of subdivideHorizontal finds exactly
the row whose open v span contains the split parameter. -/
theorem findRow_structured (g : Grid) (ub vb : List ℚ) (v : ℚ) (r : ℕ)
    (hS : StructuredDomains g ub vb) (hr : r < g.rowCount)
    (h1 : vb.getD r 0 < v) (h2 : v < vb.getD (r + 1) 0) :
    findRowIndexGo v g.rowsL 0 = Except.ok (r : ℤ) := by
  obtain ⟨hlen, hR, hC, hubl, hvbl, hub0, hub1, hvb0, hvb1, hubadj, hvbadj,
    hcell⟩ := hS
  have hmono := bp_mono (fun k => vb.getD k 0) g.rowCount hvbadj
  have hrows : ∀ m, m < g.rowCount → g.rowsL.getD m []
      = (List.range g.colCount).map
          (fun j => g.cells.getD (m * g.colCount + j) none) := by
    intro m hm
    exact getD_map_range g.rowCount m hm _ []
  have hlenr : g.rowsL.length = g.rowCount := by
    simp [Grid.rowsL]
  have := findRowIndexGo_at v g.rowsL r (by omega)
    (fun m hm => by
      obtain ⟨p, hp, hd⟩ := structured_cell g ub vb
        ⟨hlen, hR, hC, hubl, hvbl, hub0, hub1, hvb0, hvb1, hubadj, hvbadj,
          hcell⟩ m 0 (by omega) (by omega)
      refine ⟨p, ?_, ?_⟩
      · rw [hrows m (by omega), headD_map_range _ hC]
        simpa [cellD] using hp
      · have hle : vb.getD (m + 1) 0 ≤ vb.getD r 0 :=
          hmono (m + 1) r (by omega) (by omega)
        intro hcon
        obtain ⟨-, hc2⟩ := hcon
        have hc2' : v ≤ vb.getD (m + 1) 0 := by rw [hd] at hc2; exact hc2
        linarith)
    (by
      obtain ⟨p, hp, hd⟩ := structured_cell g ub vb
        ⟨hlen, hR, hC, hubl, hvbl, hub0, hub1, hvb0, hvb1, hubadj, hvbadj,
          hcell⟩ r 0 hr (by omega)
      refine ⟨p, ?_, ?_⟩
      · rw [hrows r hr, headD_map_range _ hC]
        simpa [cellD] using hp
      · rw [hd]
        exact ⟨le_of_lt h1, le_of_lt h2⟩)
    0
  simpa using this

/-- On a structured grid the column search of subdivideVertical finds
exactly the column whose open u span contains the split parameter. -/
theorem findCol_structured (g : Grid) (ub vb : List ℚ) (u : ℚ) (c : ℕ)
    (hS : StructuredDomains g ub vb) (hc : c < g.colCount)
    (h1 : ub.getD c 0 < u) (h2 : u < ub.getD (c + 1) 0) :
    findColIndexGo u g.columnsL 0 = Except.ok (c : ℤ) := by
  obtain ⟨hlen, hR, hC, hubl, hvbl, hub0, hub1, hvb0, hvb1, hubadj, hvbadj,
    hcell⟩ := hS
  have hmono := bp_mono (fun k => ub.getD k 0) g.colCount hubadj
  have hcols : ∀ m, m < g.colCount → g.columnsL.getD m []
      = (List.range g.rowCount).map
          (fun i => g.cells.getD (i * g.colCount + m) none) := by
    intro m hm
    exact getD_map_range g.colCount m hm _ []
  have hlenc : g.columnsL.length = g.colCount := by
    simp [Grid.columnsL]
  have := findColIndexGo_at u g.columnsL c (by omega)
    (fun m hm => by
      obtain ⟨p, hp, hd⟩ := structured_cell g ub vb
        ⟨hlen, hR, hC, hubl, hvbl, hub0, hub1, hvb0, hvb1, hubadj, hvbadj,
          hcell⟩ 0 m (by omega) (by omega)
      refine ⟨p, ?_, ?_⟩
      · rw [hcols m (by omega), headD_map_range _ hR]
        simpa [cellD] using hp
      · have hle : ub.getD (m + 1) 0 ≤ ub.getD c 0 :=
          hmono (m + 1) c (by omega) (by omega)
        intro hcon
        obtain ⟨-, hc2⟩ := hcon
        have hc2' : u ≤ ub.getD (m + 1) 0 := by rw [hd] at hc2; exact hc2
        linarith)
    (by
      obtain ⟨p, hp, hd⟩ := structured_cell g ub vb
        ⟨hlen, hR, hC, hubl, hvbl, hub0, hub1, hvb0, hvb1, hubadj, hvbadj,
          hcell⟩ 0 c (by omega) hc
      refine ⟨p, ?_, ?_⟩
      · rw [hcols c hc, headD_map_range _ hR]
        simpa [cellD] using hp
      · rw [hd]
        exact ⟨le_of_lt h1, le_of_lt h2⟩)
    0
  simpa using this

/-- subdivideHorizontal on the success path: with the split row found at
index r and the row fully populated, the result relinks the state whose grid
has one more row (the bottoms then the tops of the split in place of row r)
and whose store is the one threaded through the per-cell splits. -/
theorem subH_run_success (s : PatchState) (v : ℚ) (r : ℕ)
    (hfind : findRowIndexGo v s.grid.rowsL 0 = Except.ok ((r : ℕ) : ℤ))
    (hr : r < s.grid.rowCount)
    (hlen : s.grid.cells.length = s.grid.rowCount * s.grid.colCount)
    (hfull : ∀ m < s.grid.colCount, ∃ cur,
      s.grid.cells.getD (r * s.grid.colCount + m) none = some cur) :
    subdivideHorizontalRun s v
      = (relinkState ⟨Grid.mk (s.grid.rowCount + 1) s.grid.colCount
          (s.grid.cells.take (r * s.grid.colCount)
            ++ ((subHBuildGo v s.store none (rowPatches s.grid r)).2.1.map some
              ++ ((subHBuildGo v s.store none (rowPatches s.grid r)).2.2.map some
                ++ s.grid.cells.drop ((r + 1) * s.grid.colCount)))),
          (subHBuildGo v s.store none (rowPatches s.grid r)).1⟩, none) := by
  have hrowget := rowsL_get s.grid r hr
  have hfull' : ∀ m < s.grid.colCount, ∃ cur,
      ((List.range s.grid.colCount).map
        (fun j => s.grid.cells.getD (r * s.grid.colCount + j) none)).getD
        (0 + m) none = some cur := by
    intro m hm
    rw [Nat.zero_add, getD_map_range _ _ hm]
    exact hfull m hm
  have hloop := subHLoopGo_eq_build v
    ((List.range s.grid.colCount).map
      (fun j => s.grid.cells.getD (r * s.grid.colCount + j) none))
    s.grid.colCount 0 s.store [] [] hfull' rfl rfl
  have hinput : (List.range' 0 s.grid.colCount).map
      (fun m => (((List.range s.grid.colCount).map
        (fun j => s.grid.cells.getD (r * s.grid.colCount + j) none)).getD
        m none).getD default) = rowPatches s.grid r := by
    unfold rowPatches
    apply List.map_congr_left
    intro a ha
    rw [List.mem_range'] at ha
    obtain ⟨i, hi, rfl⟩ := ha
    rw [getD_map_range _ _ (by omega)]
  simp only [reduceIte, List.nil_append, hinput] at hloop
  rw [← List.range_eq_range'] at hloop
  have hbl : (subHBuildGo v s.store none (rowPatches s.grid r)).2.1.length
      = s.grid.colCount := by
    rw [(subHBuildGo_len v (rowPatches s.grid r) s.store none).1]
    simp [rowPatches]
  have htl : (subHBuildGo v s.store none (rowPatches s.grid r)).2.2.length
      = s.grid.colCount := by
    rw [(subHBuildGo_len v (rowPatches s.grid r) s.store none).2]
    simp [rowPatches]
  unfold subdivideHorizontalRun
  rw [hfind]
  simp only []
  rw [if_neg (by omega : ¬(((r : ℕ) : ℤ) < 0))]
  rw [Int.toNat_natCast, hrowget, hloop]
  simp only []
  rw [subH_grid_surgery s.grid r _ _ hr hlen hbl htl]

/-- getD below the break of an append. -/
theorem getD_append_lt {α : Type} (A B : List α) (n : ℕ) (d : α)
    (h : n < A.length) : (A ++ B).getD n d = A.getD n d := by
  rw [List.getD_eq_getElem?_getD, List.getD_eq_getElem?_getD,
    List.getElem?_append, if_pos h]

/-- getD at an offset past a prefix of an append. -/
theorem getD_append_add {α : Type} (A B : List α) (m : ℕ) (d : α) :
    (A ++ B).getD (A.length + m) d = B.getD m d := by
  rw [List.getD_eq_getElem?_getD, List.getD_eq_getElem?_getD,
    List.getElem?_append_right (by omega)]
  congr 2
  omega

/-- getD inside the taken prefix. -/
theorem getD_take_lt {α : Type} (l : List α) (n m : ℕ) (d : α) (h : m < n) :
    (l.take n).getD m d = l.getD m d := by
  rw [List.getD_eq_getElem?_getD, List.getD_eq_getElem?_getD,
    List.getElem?_take, if_pos h]

/-- getD through a drop. -/
theorem getD_drop_add {α : Type} (l : List α) (n m : ℕ) (d : α) :
    (l.drop n).getD m d = l.getD (n + m) d := by
  rw [List.getD_eq_getElem?_getD, List.getD_eq_getElem?_getD,
    List.getElem?_drop]

/-- getD of a map of some, in range. -/
theorem getD_map_some {α : Type} (l : List α) (j : ℕ) (d : α)
    (h : j < l.length) : (l.map some).getD j none = some (l.getD j d) := by
  rw [List.getD_eq_getElem?_getD, List.getD_eq_getElem?_getD,
    List.getElem?_map, List.getElem?_eq_getElem h]
  rfl

/-- Reading an in-range index of a map over List.range' from 0. -/
theorem getD_map_range' {α : Type} (n m : ℕ) (h : m < n) (f : ℕ → α)
    (d : α) : ((List.range' 0 n).map f).getD m d = f m := by
  rw [← List.range_eq_range']
  exact getD_map_range n m h f d

/-- A point between the endpoints of a finite sequence lies between some
pair of consecutive values. -/
theorem exists_interval (f : ℕ → ℚ) :
    ∀ n, 1 ≤ n → ∀ x, f 0 ≤ x → x ≤ f n →
    ∃ j < n, f j ≤ x ∧ x ≤ f (j + 1) := by
  intro n
  induction n with
  | zero => intro h; omega
  | succ m ih =>
    intro _ x h0 hn
    by_cases hm : m = 0
    · subst hm
      exact ⟨0, by omega, h0, hn⟩
    · by_cases hx : x ≤ f m
      · obtain ⟨j, hj, h⟩ := ih (by omega) x h0 hx
        exact ⟨j, by omega, h⟩
      · exact ⟨m, by omega, le_of_lt (not_le.mp hx), hn⟩

/-- The bottom patch of one horizontal split step keeps the cell's u span
and v0 and ends at the split coordinate. -/
theorem subHStep_bottom_domain (st : Store) (cur : BezierPatch3) (v : ℚ)
    (prev : Option (BezierPatch3 × BezierPatch3)) :
    (subHStep st cur v prev).2.1.domain
      = ⟨cur.domain.u0, cur.domain.v0, cur.domain.u1, v⟩ := by
  cases prev with
  | none => rfl
  | some pq => obtain ⟨pb, pt⟩ := pq; rfl

/-- The top patch of one horizontal split step starts at the split
coordinate and keeps the cell's u span and v1. -/
theorem subHStep_top_domain (st : Store) (cur : BezierPatch3) (v : ℚ)
    (prev : Option (BezierPatch3 × BezierPatch3)) :
    (subHStep st cur v prev).2.2.domain
      = ⟨cur.domain.u0, v, cur.domain.u1, cur.domain.v1⟩ := by
  cases prev with
  | none => rfl
  | some pq => obtain ⟨pb, pt⟩ := pq; rfl

/-- The left patch of one vertical split step. -/
theorem subVStep_left_domain (st : Store) (cur : BezierPatch3) (u : ℚ)
    (prev : Option (BezierPatch3 × BezierPatch3)) :
    (subVStep st cur u prev).2.1.domain
      = ⟨cur.domain.u0, cur.domain.v0, u, cur.domain.v1⟩ := by
  cases prev with
  | none => rfl
  | some pq => obtain ⟨pl, pr⟩ := pq; rfl

/-- The right patch of one vertical split step. -/
theorem subVStep_right_domain (st : Store) (cur : BezierPatch3) (u : ℚ)
    (prev : Option (BezierPatch3 × BezierPatch3)) :
    (subVStep st cur u prev).2.2.domain
      = ⟨u, cur.domain.v0, cur.domain.u1, cur.domain.v1⟩ := by
  cases prev with
  | none => rfl
  | some pq => obtain ⟨pl, pr⟩ := pq; rfl

/-- Per-cell Domains of the horizontal build outputs: each bottom patch
splits its cell's v span at v from below, each top patch from above, both
keeping the u span. -/
theorem subHBuildGo_domain (v : ℚ) :
    ∀ (cs : List BezierPatch3) (st : Store)
    (prev : Option (BezierPatch3 × BezierPatch3)) (j : ℕ), j < cs.length →
    ((subHBuildGo v st prev cs).2.1.getD j default).domain
      = ⟨(cs.getD j default).domain.u0, (cs.getD j default).domain.v0,
         (cs.getD j default).domain.u1, v⟩ ∧
    ((subHBuildGo v st prev cs).2.2.getD j default).domain
      = ⟨(cs.getD j default).domain.u0, v,
         (cs.getD j default).domain.u1, (cs.getD j default).domain.v1⟩ := by
  intro cs
  induction cs with
  | nil => intro st prev j hj; simp at hj
  | cons cur rest ih =>
    intro st prev j hj
    cases j with
    | zero =>
      simp only [subHBuildGo, List.getD_cons_zero]
      exact ⟨subHStep_bottom_domain st cur v prev,
        subHStep_top_domain st cur v prev⟩
    | succ j' =>
      simp only [subHBuildGo, List.getD_cons_succ]
      exact ih _ _ j' (by simpa using hj)

/-- Per-cell Domains of the vertical build outputs. -/
theorem subVBuildGo_domain (u : ℚ) :
    ∀ (cs : List BezierPatch3) (st : Store)
    (prev : Option (BezierPatch3 × BezierPatch3)) (j : ℕ), j < cs.length →
    ((subVBuildGo u st prev cs).2.1.getD j default).domain
      = ⟨(cs.getD j default).domain.u0, (cs.getD j default).domain.v0,
         u, (cs.getD j default).domain.v1⟩ ∧
    ((subVBuildGo u st prev cs).2.2.getD j default).domain
      = ⟨u, (cs.getD j default).domain.v0,
         (cs.getD j default).domain.u1, (cs.getD j default).domain.v1⟩ := by
  intro cs
  induction cs with
  | nil => intro st prev j hj; simp at hj
  | cons cur rest ih =>
    intro st prev j hj
    cases j with
    | zero =>
      simp only [subVBuildGo, List.getD_cons_zero]
      exact ⟨subVStep_left_domain st cur u prev,
        subVStep_right_domain st cur u prev⟩
    | succ j' =>
      simp only [subVBuildGo, List.getD_cons_succ]
      exact ih _ _ j' (by simpa using hj)

/-- Cells above the split row are untouched by the horizontal surgery. -/
theorem cellD_subH_above (R C r : ℕ) (cells : List (Option BezierPatch3))
    (bottoms tops : List BezierPatch3) (hr : r < R)
    (hlen : cells.length = R * C) (i j : ℕ) (hi : i < r) (hj : j < C) :
    cellD (Grid.mk (R + 1) C (cells.take (r * C)
      ++ (bottoms.map some ++ (tops.map some
        ++ cells.drop ((r + 1) * C))))) i j
      = cells.getD (i * C + j) none := by
  show (cells.take (r * C) ++ (bottoms.map some ++ (tops.map some
      ++ cells.drop ((r + 1) * C)))).getD (i * C + j) none = _
  have hmul : r * C ≤ R * C := Nat.mul_le_mul_right C (by omega)
  have hA : (cells.take (r * C)).length = r * C := by
    rw [List.length_take]
    omega
  have hi1 : (i + 1) * C ≤ r * C := Nat.mul_le_mul_right C (by omega)
  have hi2 : (i + 1) * C = i * C + C := by ring
  have hidx : i * C + j < r * C := by omega
  rw [getD_append_lt _ _ _ _ (by omega), getD_take_lt _ _ _ _ hidx]

/-- Row r of the new grid holds the bottom patches. -/
theorem cellD_subH_bottom (R C r : ℕ) (cells : List (Option BezierPatch3))
    (bottoms tops : List BezierPatch3) (hr : r < R)
    (hlen : cells.length = R * C) (hbl : bottoms.length = C)
    (j : ℕ) (hj : j < C) :
    cellD (Grid.mk (R + 1) C (cells.take (r * C)
      ++ (bottoms.map some ++ (tops.map some
        ++ cells.drop ((r + 1) * C))))) r j
      = some (bottoms.getD j default) := by
  show (cells.take (r * C) ++ (bottoms.map some ++ (tops.map some
      ++ cells.drop ((r + 1) * C)))).getD (r * C + j) none = _
  have hmul : r * C ≤ R * C := Nat.mul_le_mul_right C (by omega)
  have hA : (cells.take (r * C)).length = r * C := by
    rw [List.length_take]
    omega
  rw [show r * C + j = (cells.take (r * C)).length + j from by rw [hA]]
  rw [getD_append_add]
  rw [getD_append_lt _ _ _ _ (by simp [hbl]; omega)]
  exact getD_map_some bottoms j default (by omega)

/-- Row r + 1 of the new grid holds the top patches. -/
theorem cellD_subH_top (R C r : ℕ) (cells : List (Option BezierPatch3))
    (bottoms tops : List BezierPatch3) (hr : r < R)
    (hlen : cells.length = R * C) (hbl : bottoms.length = C)
    (htl : tops.length = C) (j : ℕ) (hj : j < C) :
    cellD (Grid.mk (R + 1) C (cells.take (r * C)
      ++ (bottoms.map some ++ (tops.map some
        ++ cells.drop ((r + 1) * C))))) (r + 1) j
      = some (tops.getD j default) := by
  show (cells.take (r * C) ++ (bottoms.map some ++ (tops.map some
      ++ cells.drop ((r + 1) * C)))).getD ((r + 1) * C + j) none = _
  have hmul : r * C ≤ R * C := Nat.mul_le_mul_right C (by omega)
  have hA : (cells.take (r * C)).length = r * C := by
    rw [List.length_take]
    omega
  rw [show (r + 1) * C + j = (cells.take (r * C)).length
      + ((bottoms.map some).length + j) from by
    rw [hA, List.length_map, hbl]; ring]
  rw [getD_append_add, getD_append_add]
  rw [getD_append_lt _ _ _ _ (by simp [htl]; omega)]
  exact getD_map_some tops j default (by omega)

/-- Cells below the split row shift down by one row index. -/
theorem cellD_subH_below (R C r : ℕ) (cells : List (Option BezierPatch3))
    (bottoms tops : List BezierPatch3) (hr : r < R)
    (hlen : cells.length = R * C) (hbl : bottoms.length = C)
    (htl : tops.length = C) (i j : ℕ) (hi2 : r + 2 ≤ i) (hj : j < C) :
    cellD (Grid.mk (R + 1) C (cells.take (r * C)
      ++ (bottoms.map some ++ (tops.map some
        ++ cells.drop ((r + 1) * C))))) i j
      = cells.getD ((i - 1) * C + j) none := by
  obtain ⟨d, rfl⟩ : ∃ d, i = r + 2 + d := ⟨i - (r + 2), by omega⟩
  show (cells.take (r * C) ++ (bottoms.map some ++ (tops.map some
      ++ cells.drop ((r + 1) * C)))).getD ((r + 2 + d) * C + j) none = _
  have hmul : r * C ≤ R * C := Nat.mul_le_mul_right C (by omega)
  have hA : (cells.take (r * C)).length = r * C := by
    rw [List.length_take]
    omega
  rw [show (r + 2 + d) * C + j = (cells.take (r * C)).length
      + ((bottoms.map some).length + ((tops.map some).length
        + (d * C + j))) from by
    rw [hA, List.length_map, List.length_map, hbl, htl]; ring]
  rw [getD_append_add, getD_append_add, getD_append_add, getD_drop_add]
  rw [show r + 2 + d - 1 = r + 1 + d from by omega,
    show (r + 1 + d) * C + j = (r + 1) * C + (d * C + j) from by ring]

/-- Breakpoints at or before the split row keep their values when the split
coordinate is inserted. -/
theorem getD_insertBp_le (vb : List ℚ) (r : ℕ) (v : ℚ)
    (hlen : r + 1 ≤ vb.length) (i : ℕ) (hi : i ≤ r) :
    (vb.take (r + 1) ++ v :: vb.drop (r + 1)).getD i 0 = vb.getD i 0 := by
  rw [getD_append_lt _ _ _ _ (by rw [List.length_take]; omega),
    getD_take_lt _ _ _ _ (by omega)]

/-- The inserted breakpoint sits at position r + 1. -/
theorem getD_insertBp_eq (vb : List ℚ) (r : ℕ) (v : ℚ)
    (hlen : r + 1 ≤ vb.length) :
    (vb.take (r + 1) ++ v :: vb.drop (r + 1)).getD (r + 1) 0 = v := by
  have hA : (vb.take (r + 1)).length = r + 1 := by
    rw [List.length_take]
    omega
  have h := getD_append_add (vb.take (r + 1)) (v :: vb.drop (r + 1)) 0 0
  rw [hA, Nat.add_zero] at h
  rw [h]
  rfl

/-- Breakpoints after the insertion point shift up by one. -/
theorem getD_insertBp_ge (vb : List ℚ) (r : ℕ) (v : ℚ)
    (hlen : r + 1 ≤ vb.length) (i : ℕ) (hi : r + 2 ≤ i) :
    (vb.take (r + 1) ++ v :: vb.drop (r + 1)).getD i 0
      = vb.getD (i - 1) 0 := by
  obtain ⟨d, rfl⟩ : ∃ d, i = r + 2 + d := ⟨i - (r + 2), by omega⟩
  have hA : (vb.take (r + 1)).length = r + 1 := by
    rw [List.length_take]
    omega
  have h := getD_append_add (vb.take (r + 1)) (v :: vb.drop (r + 1)) (1 + d) 0
  rw [hA] at h
  rw [show r + 2 + d - 1 = r + 1 + d from by omega,
    show r + 2 + d = r + 1 + (1 + d) from by omega, h,
    show 1 + d = d + 1 from by omega, List.getD_cons_succ, getD_drop_add]

/-- Structured-domain preservation by the horizontal surgery: with the
bottom and top rows carrying the split Domains, the new grid is structured
over the v breakpoints with the split coordinate inserted after position r. -/
theorem subH_structured (g : Grid) (ub vb : List ℚ) (v : ℚ) (r : ℕ)
    (hS : StructuredDomains g ub vb) (hr : r < g.rowCount)
    (h1 : vb.getD r 0 < v) (h2 : v < vb.getD (r + 1) 0)
    (bottoms tops : List BezierPatch3)
    (hbl : bottoms.length = g.colCount) (htl : tops.length = g.colCount)
    (hbd : ∀ j < g.colCount, (bottoms.getD j default).domain
      = ⟨ub.getD j 0, vb.getD r 0, ub.getD (j + 1) 0, v⟩)
    (htd : ∀ j < g.colCount, (tops.getD j default).domain
      = ⟨ub.getD j 0, v, ub.getD (j + 1) 0, vb.getD (r + 1) 0⟩) :
    StructuredDomains (Grid.mk (g.rowCount + 1) g.colCount
      (g.cells.take (r * g.colCount) ++ (bottoms.map some ++ (tops.map some
        ++ g.cells.drop ((r + 1) * g.colCount)))))
      ub (vb.take (r + 1) ++ v :: vb.drop (r + 1)) := by
  obtain ⟨R, C, cells⟩ := g
  dsimp only at hr hbl htl hbd htd ⊢
  obtain ⟨hlen, hR, hC, hubl, hvbl, hub0, hub1, hvb0, hvb1, hubadj, hvbadj,
    hcell⟩ := hS
  dsimp only at hlen hR hC hubl hvbl hub0 hub1 hvb0 hvb1 hubadj hvbadj hcell
  have hvblen : r + 1 ≤ vb.length := by omega
  have hmul : (r + 1) * C ≤ R * C := Nat.mul_le_mul_right C (by omega)
  have he1 : (r + 1) * C = r * C + C := by ring
  have he2 : (R + 1) * C = R * C + C := by ring
  have hcell' : ∀ i, i < R → ∀ j, j < C →
      (cells.getD (i * C + j) none).isSome = true ∧
      ((cells.getD (i * C + j) none).map (fun p => p.domain)).getD default
        = ⟨ub.getD j 0, vb.getD i 0, ub.getD (j + 1) 0,
           vb.getD (i + 1) 0⟩ := by
    intro i hi j hj
    have := hcell i hi j hj
    simpa [cellD] using this
  unfold StructuredDomains
  dsimp only
  refine ⟨?_, by omega, hC, hubl, ?_, hub0, hub1, ?_, ?_, hubadj, ?_, ?_⟩
  · simp only [List.length_append, List.length_take, List.length_map,
      List.length_drop, hlen, hbl, htl]
    omega
  · simp only [List.length_append, List.length_take, List.length_cons,
      List.length_drop, hvbl]
    omega
  · rw [getD_insertBp_le vb r v hvblen 0 (by omega)]
    exact hvb0
  · rw [getD_insertBp_ge vb r v hvblen (R + 1) (by omega)]
    simpa using hvb1
  · intro i hi
    by_cases hc1 : i < r
    · rw [getD_insertBp_le vb r v hvblen i (by omega),
        getD_insertBp_le vb r v hvblen (i + 1) (by omega)]
      exact hvbadj i (by omega)
    · by_cases hc2 : i = r
      · subst hc2
        rw [getD_insertBp_le vb i v hvblen i (by omega),
          getD_insertBp_eq vb i v hvblen]
        exact h1
      · by_cases hc3 : i = r + 1
        · subst hc3
          rw [getD_insertBp_eq vb r v hvblen,
            getD_insertBp_ge vb r v hvblen (r + 1 + 1) (by omega)]
          simpa using h2
        · have hge : r + 2 ≤ i := by omega
          rw [getD_insertBp_ge vb r v hvblen i (by omega),
            getD_insertBp_ge vb r v hvblen (i + 1) (by omega),
            show i + 1 - 1 = (i - 1) + 1 from by omega]
          exact hvbadj (i - 1) (by omega)
  · intro i hi j hj
    by_cases hc1 : i < r
    · rw [cellD_subH_above R C r cells bottoms tops hr hlen i j hc1 hj]
      obtain ⟨hsome, hdom⟩ := hcell' i (by omega) j hj
      refine ⟨hsome, ?_⟩
      rw [hdom, getD_insertBp_le vb r v hvblen i (by omega),
        getD_insertBp_le vb r v hvblen (i + 1) (by omega)]
    · by_cases hc2 : i = r
      · subst hc2
        rw [cellD_subH_bottom R C i cells bottoms tops hr hlen hbl j hj]
        refine ⟨rfl, ?_⟩
        show (bottoms.getD j default).domain = _
        rw [hbd j hj, getD_insertBp_le vb i v hvblen i (by omega),
          getD_insertBp_eq vb i v hvblen]
      · by_cases hc3 : i = r + 1
        · subst hc3
          rw [cellD_subH_top R C r cells bottoms tops hr hlen hbl htl j hj]
          refine ⟨rfl, ?_⟩
          show (tops.getD j default).domain = _
          rw [htd j hj, getD_insertBp_eq vb r v hvblen,
            getD_insertBp_ge vb r v hvblen (r + 1 + 1) (by omega)]
          simp
        · have hge : r + 2 ≤ i := by omega
          rw [cellD_subH_below R C r cells bottoms tops hr hlen hbl htl i j
            hge hj]
          obtain ⟨hsome, hdom⟩ := hcell' (i - 1) (by omega) j hj
          refine ⟨hsome, ?_⟩
          rw [hdom, getD_insertBp_ge vb r v hvblen i (by omega),
            getD_insertBp_ge vb r v hvblen (i + 1) (by omega),
            show i + 1 - 1 = (i - 1) + 1 from by omega]

/-- Unfolding the inclusive containment test of Domain.contains. -/
theorem contains_iff (d : Domain) (u v : ℚ) :
    d.contains u v = true
      ↔ (d.u0 ≤ u ∧ u ≤ d.u1 ∧ d.v0 ≤ v ∧ v ≤ d.v1) := by
  simp [Domain.contains, ge_iff_le, and_assoc]

/-- A structured grid tiles the unit parametric square: total coverage and
pairwise disjoint open interiors. -/
theorem structured_tiles (g : Grid) (ub vb : List ℚ)
    (hS : StructuredDomains g ub vb) : Tiles g := by
  obtain ⟨hlen, hR, hC, hubl, hvbl, hub0, hub1, hvb0, hvb1, hubadj, hvbadj,
    hcell⟩ := hS
  have hubm := bp_mono (fun k => ub.getD k 0) g.colCount hubadj
  have hvbm := bp_mono (fun k => vb.getD k 0) g.rowCount hvbadj
  constructor
  · intro u v hu0 hu1 hv0 hv1
    obtain ⟨j, hj, hju⟩ := exists_interval (fun k => ub.getD k 0)
      g.colCount hC u
      (by show ub.getD 0 0 ≤ u
          rw [hub0]; exact hu0)
      (by show u ≤ ub.getD g.colCount 0
          rw [hub1]; exact hu1)
    obtain ⟨i, hi, hiv⟩ := exists_interval (fun k => vb.getD k 0)
      g.rowCount hR v
      (by show vb.getD 0 0 ≤ v
          rw [hvb0]; exact hv0)
      (by show v ≤ vb.getD g.rowCount 0
          rw [hvb1]; exact hv1)
    obtain ⟨p, hp, hd⟩ := structured_cell g ub vb
      ⟨hlen, hR, hC, hubl, hvbl, hub0, hub1, hvb0, hvb1, hubadj, hvbadj,
        hcell⟩ i j hi hj
    refine ⟨i, hi, j, hj, p, hp, ?_⟩
    rw [contains_iff, hd]
    exact ⟨hju.1, hju.2, hiv.1, hiv.2⟩
  · intro i hi j hj i' hi' j' hj' hne p q hp hq hcon
    obtain ⟨u, v, hpu0, hpu1, hpv0, hpv1, hqu0, hqu1, hqv0, hqv1⟩ := hcon
    obtain ⟨p', hp', hdp⟩ := structured_cell g ub vb
      ⟨hlen, hR, hC, hubl, hvbl, hub0, hub1, hvb0, hvb1, hubadj, hvbadj,
        hcell⟩ i j hi hj
    obtain ⟨q', hq', hdq⟩ := structured_cell g ub vb
      ⟨hlen, hR, hC, hubl, hvbl, hub0, hub1, hvb0, hvb1, hubadj, hvbadj,
        hcell⟩ i' j' hi' hj'
    rw [hp] at hp'
    rw [hq] at hq'
    have hpe : p' = p := (Option.some.inj hp').symm
    have hqe : q' = q := (Option.some.inj hq').symm
    subst hpe
    subst hqe
    have hpv1' : v < vb.getD (i + 1) 0 := by rw [hdp] at hpv1; exact hpv1
    have hpv0' : vb.getD i 0 < v := by rw [hdp] at hpv0; exact hpv0
    have hqv1' : v < vb.getD (i' + 1) 0 := by rw [hdq] at hqv1; exact hqv1
    have hqv0' : vb.getD i' 0 < v := by rw [hdq] at hqv0; exact hqv0
    have hpu1' : u < ub.getD (j + 1) 0 := by rw [hdp] at hpu1; exact hpu1
    have hpu0' : ub.getD j 0 < u := by rw [hdp] at hpu0; exact hpu0
    have hqu1' : u < ub.getD (j' + 1) 0 := by rw [hdq] at hqu1; exact hqu1
    have hqu0' : ub.getD j' 0 < u := by rw [hdq] at hqu0; exact hqu0
    rcases Nat.lt_trichotomy i i' with hii | hii | hii
    · have : vb.getD (i + 1) 0 ≤ vb.getD i' 0 :=
        hvbm (i + 1) i' (by omega) (by omega)
      linarith
    · subst hii
      have hjj : j ≠ j' := by
        intro hjeq
        exact hne (by rw [hjeq])
      rcases Nat.lt_trichotomy j j' with hlt | heq | hgt
      · have : ub.getD (j + 1) 0 ≤ ub.getD j' 0 :=
          hubm (j + 1) j' (by omega) (by omega)
        linarith
      · exact hjj heq
      · have : ub.getD (j' + 1) 0 ≤ ub.getD j 0 :=
          hubm (j' + 1) j (by omega) (by omega)
        linarith
    · have : vb.getD (i' + 1) 0 ≤ vb.getD i 0 :=
        hvbm (i' + 1) i (by omega) (by omega)
      linarith

/-- Setting past a prefix of an append. -/
theorem set_append_add {α : Type} (A B : List α) (m : ℕ) (x : α) :
    (A ++ B).set (A.length + m) x = A ++ B.set m x := by
  rw [List.set_append_right _ _ (by omega), Nat.add_sub_cancel_left]

/-- The flattening of uniform-width rows has length rows times width. -/
theorem length_flatten_uniform {α : Type} (W : ℕ) :
    ∀ (rows : List (List α)), (∀ row ∈ rows, row.length = W) →
    rows.flatten.length = rows.length * W := by
  intro rows
  induction rows with
  | nil => intro _; simp
  | cons r rest ih =>
    intro h
    rw [List.flatten_cons, List.length_append, h r (by simp),
      ih (fun r' hr' => h r' (by simp [hr'])), List.length_cons]
    ring

/-- A list of length R * C is the flattening of its R rows of width C. -/
theorem chunk_flatten {α : Type} (C : ℕ) (d : α) :
    ∀ (R : ℕ) (l : List α), l.length = R * C →
    ((List.range R).map (fun i => (List.range C).map
      (fun j => l.getD (i * C + j) d))).flatten = l := by
  intro R
  induction R with
  | zero =>
    intro l h
    have hl : l = [] := List.length_eq_zero.mp (by omega)
    simp [hl]
  | succ R ih =>
    intro l hlen
    have he : (R + 1) * C = R * C + C := by ring
    rw [List.range_succ_eq_map, List.map_cons, List.flatten_cons]
    have hfun : (fun j => l.getD (0 * C + j) d) = (fun j => l.getD j d) := by
      funext j
      rw [Nat.zero_mul, Nat.zero_add]
    rw [hfun]
    have hhead : (List.range C).map (fun j => l.getD j d) = l.take C := by
      apply List.ext_getElem?
      intro n
      by_cases hn : n < C
      · rw [List.getElem?_take, if_pos hn, List.getElem?_map,
          List.getElem?_range hn]
        have hn' : n < l.length := by omega
        simp [List.getD_eq_getElem?_getD, List.getElem?_eq_getElem hn']
      · rw [List.getElem?_take, if_neg hn, List.getElem?_map,
          List.getElem?_eq_none (by simp; omega)]
        rfl
    rw [hhead]
    have htail : (List.map Nat.succ (List.range R)).map
        (fun i => (List.range C).map (fun j => l.getD (i * C + j) d))
        = (List.range R).map (fun i => (List.range C).map
            (fun j => (l.drop C).getD (i * C + j) d)) := by
      rw [List.map_map]
      apply List.map_congr_left
      intro i _
      apply List.map_congr_left
      intro j _
      rw [getD_drop_add]
      congr 1
      rw [Nat.succ_mul]
      omega
    rw [htail, ih (l.drop C) (by rw [List.length_drop]; omega)]
    exact List.take_append_drop C l

/-- Reading the flattening of uniform-width rows at a row-major position. -/
theorem getD_flatten_uniform {α : Type} (W : ℕ) (d : α) :
    ∀ (rows : List (List α)) (i j : ℕ),
    (∀ row ∈ rows, row.length = W) → i < rows.length → j < W →
    rows.flatten.getD (i * W + j) d = (rows.getD i []).getD j d := by
  intro rows
  induction rows with
  | nil => intro i j _ hi; simp at hi
  | cons row rest ih =>
    intro i j hu hi hj
    cases i with
    | zero =>
      rw [List.flatten_cons, Nat.zero_mul, Nat.zero_add,
        getD_append_lt _ _ _ _ (by rw [hu row (by simp)]; omega)]
      rfl
    | succ i' =>
      rw [List.flatten_cons]
      have hrl : row.length = W := hu row (by simp)
      rw [show (i' + 1) * W + j = row.length + (i' * W + j) from by
        rw [hrl]; ring]
      rw [getD_append_add]
      have := ih i' j (fun r hr => hu r (by simp [hr])) (by simpa using hi) hj
      rw [this]
      rfl

/-- Grid.insertColumn's row-by-row splice loop on a flattening of
uniform-width rows: each row gets the new element inserted at column k. -/
theorem insertCol_go {α : Type} (C k : ℕ) (hk : k ≤ C) (x : α)
    (row : ℕ → List α) (hrow : ∀ i, (row i).length = C) :
    ∀ (n j0 : ℕ) (A : List α), A.length = j0 * (C + 1) →
    (List.range' j0 n).foldl
      (fun cs (i : ℕ) => spliceList cs ((i : ℤ) * ((C : ℤ) + 1) + (k : ℤ)) 0 [x])
      (A ++ ((List.range' j0 n).map row).flatten)
    = A ++ ((List.range' j0 n).map
        (fun i => (row i).take k ++ x :: (row i).drop k)).flatten := by
  intro n
  induction n with
  | zero => intro j0 A hA; simp
  | succ m ih =>
    intro j0 A hA
    have hstep : List.range' j0 (m + 1) = j0 :: List.range' (j0 + 1) m := rfl
    rw [hstep, List.map_cons, List.map_cons, List.flatten_cons,
      List.flatten_cons, List.foldl_cons]
    have hpos : ((j0 : ℤ)) * ((C : ℤ) + 1) + (k : ℤ)
        = ((A.length + k : ℕ) : ℤ) := by
      rw [hA]; push_cast; ring
    rw [hpos, spliceList_append_right A
      (row j0 ++ ((List.range' (j0 + 1) m).map row).flatten) k 0 [x]]
    rw [spliceList_append_left (row j0) _ k 0 [x] (by rw [hrow]; omega)]
    rw [spliceList_insert (row j0) k (by rw [hrow]; exact hk) [x]]
    have hnew : (row j0).take k ++ [x] ++ (row j0).drop k
        = (row j0).take k ++ x :: (row j0).drop k := by simp
    rw [hnew, ← List.append_assoc]
    have he : (j0 + 1) * (C + 1) = j0 * (C + 1) + (C + 1) := by ring
    have hAlen : (A ++ ((row j0).take k ++ x :: (row j0).drop k)).length
        = (j0 + 1) * (C + 1) := by
      simp only [List.length_append, List.length_take, List.length_cons,
        List.length_drop, hA, hrow j0]
      omega
    rw [ih (j0 + 1) _ hAlen]
    simp [List.append_assoc]

/-- Grid.deleteColumn's descending row-by-row splice loop on a flattening
of uniform-width rows: each row loses its element at column c. -/
theorem deleteCol_go {α : Type} (W c : ℕ) (hc : c + 1 ≤ W)
    (row : ℕ → List α) (hrow : ∀ i, (row i).length = W) :
    ∀ (n j0 : ℕ) (A B : List α), A.length = j0 * W →
    ((List.range' j0 n).reverse).foldl
      (fun cs (i : ℕ) => spliceList cs ((i : ℤ) * (W : ℤ) + (c : ℤ)) 1 [])
      (A ++ (((List.range' j0 n).map row).flatten ++ B))
    = A ++ (((List.range' j0 n).map
        (fun i => (row i).take c ++ (row i).drop (c + 1))).flatten ++ B) := by
  intro n
  induction n with
  | zero => intro j0 A B hA; simp
  | succ m ih =>
    intro j0 A B hA
    have hsplit : List.range' j0 (m + 1) = List.range' j0 m ++ [j0 + m] := by
      rw [List.range'_concat, Nat.one_mul]
    have hMlen : (((List.range' j0 m).map row).flatten).length = m * W := by
      rw [length_flatten_uniform W _ (by
        intro r hr
        obtain ⟨i, -, rfl⟩ := List.mem_map.mp hr
        exact hrow i)]
      simp
    rw [hsplit, List.reverse_append, List.map_append, List.flatten_append,
      List.map_append, List.flatten_append]
    simp only [List.reverse_singleton, List.singleton_append,
      List.map_cons, List.map_nil, List.flatten_cons, List.flatten_nil,
      List.append_nil, List.foldl_cons]
    have hassoc1 : A ++ ((((List.range' j0 m).map row).flatten ++ row (j0 + m))
        ++ B) = (A ++ ((List.range' j0 m).map row).flatten)
          ++ (row (j0 + m) ++ B) := by
      simp [List.append_assoc]
    rw [hassoc1]
    have hposd : ((j0 + m : ℕ) : ℤ) * (W : ℤ) + (c : ℤ)
        = (((A ++ ((List.range' j0 m).map row).flatten).length + c : ℕ)
            : ℤ) := by
      rw [List.length_append, hA, hMlen]
      push_cast
      ring
    rw [hposd, spliceList_append_right _ (row (j0 + m) ++ B) c 1 []]
    rw [spliceList_append_left (row (j0 + m)) B c 1 [] (by rw [hrow]; omega)]
    rw [spliceList_delete (row (j0 + m)) c (by rw [hrow]; omega) 1]
    have hassoc2 : (A ++ ((List.range' j0 m).map row).flatten)
        ++ (((row (j0 + m)).take c ++ (row (j0 + m)).drop (c + 1)) ++ B)
        = A ++ (((List.range' j0 m).map row).flatten
            ++ (((row (j0 + m)).take c ++ (row (j0 + m)).drop (c + 1))
              ++ B)) := by
      simp [List.append_assoc]
    rw [hassoc2, ih j0 A _ hA]
    simp [List.append_assoc]

/-- The grid-level filling fold of subdivideVertical in terms of the flat
cell list. -/
theorem fillFoldGridV (c1 c2 : ℕ) (ls rs : List BezierPatch3) :
    ∀ (idxs : List ℕ) (g : Grid),
    (idxs.foldl (fun g' i => Grid.set (Grid.set g' i c1 (ls.getD i default))
        i c2 (rs.getD i default)) g).rowCount = g.rowCount ∧
    (idxs.foldl (fun g' i => Grid.set (Grid.set g' i c1 (ls.getD i default))
        i c2 (rs.getD i default)) g).colCount = g.colCount ∧
    (idxs.foldl (fun g' i => Grid.set (Grid.set g' i c1 (ls.getD i default))
        i c2 (rs.getD i default)) g).cells
      = idxs.foldl (fun cs i => (cs.set (i * g.colCount + c1)
          (some (ls.getD i default))).set (i * g.colCount + c2)
          (some (rs.getD i default))) g.cells := by
  intro idxs
  induction idxs with
  | nil => intro g; exact ⟨rfl, rfl, rfl⟩
  | cons i rest ih =>
    intro g
    obtain ⟨h1, h2, h3⟩ := ih (Grid.set (Grid.set g i c1 (ls.getD i default))
      i c2 (rs.getD i default))
    refine ⟨?_, ?_, ?_⟩
    · rw [List.foldl_cons, h1]; rfl
    · rw [List.foldl_cons, h2]; rfl
    · rw [List.foldl_cons, h3, List.foldl_cons]
      rfl

/-- The cell-level filling fold of subdivideVertical on a flattening of
uniform-width rows: each row gets its two cells at columns c1 and c2
overwritten. -/
theorem fillV_cells_go {α : Type} (W c1 c2 : ℕ) (hc1 : c1 < W)
    (hc2 : c2 < W) (Lv Rv : ℕ → α) (row : ℕ → List α)
    (hrow : ∀ i, (row i).length = W) :
    ∀ (n j0 : ℕ) (A : List α), A.length = j0 * W →
    (List.range' j0 n).foldl
      (fun cs i => (cs.set (i * W + c1) (Lv i)).set (i * W + c2) (Rv i))
      (A ++ ((List.range' j0 n).map row).flatten)
    = A ++ ((List.range' j0 n).map
        (fun i => ((row i).set c1 (Lv i)).set c2 (Rv i))).flatten := by
  intro n
  induction n with
  | zero => intro j0 A hA; simp
  | succ m ih =>
    intro j0 A hA
    have hstep : List.range' j0 (m + 1) = j0 :: List.range' (j0 + 1) m := rfl
    rw [hstep, List.map_cons, List.map_cons, List.flatten_cons,
      List.flatten_cons, List.foldl_cons]
    rw [show j0 * W + c1 = A.length + c1 from by rw [hA],
      show j0 * W + c2 = A.length + c2 from by rw [hA]]
    rw [set_append_add, set_append_add,
      List.set_append_left _ _ (by rw [hrow]; omega),
      List.set_append_left _ _ (by rw [List.length_set, hrow]; omega)]
    rw [← List.append_assoc]
    have he : (j0 + 1) * W = j0 * W + W := by ring
    have hAlen : (A ++ (((row j0).set c1 (Lv j0)).set c2 (Rv j0))).length
        = (j0 + 1) * W := by
      simp only [List.length_append, List.length_set, hA, hrow j0]
      omega
    rw [ih (j0 + 1) _ hAlen]
    simp [List.append_assoc]

/-- The row-level composition of the vertical surgery: insert a null at
column c + 1, another at c + 2, write the left and right patches there,
delete column c.  The row keeps its prefix before c and its suffix after c,
with the split cell replaced by the left then right patch. -/
theorem rowV_transform (row : List (Option BezierPatch3)) (C c : ℕ)
    (hrow : row.length = C) (hc : c < C) (L R : Option BezierPatch3) :
    ((((((row.take (c + 1) ++ none :: row.drop (c + 1)).take (c + 2)
        ++ none :: (row.take (c + 1) ++ none :: row.drop (c + 1)).drop (c + 2))).set
          (c + 1) L).set (c + 2) R).take c
      ++ (((((row.take (c + 1) ++ none :: row.drop (c + 1)).take (c + 2)
        ++ none :: (row.take (c + 1) ++ none :: row.drop (c + 1)).drop (c + 2))).set
          (c + 1) L).set (c + 2) R).drop (c + 1))
    = row.take c ++ L :: R :: row.drop (c + 1) := by
  have hP : (row.take (c + 1)).length = c + 1 := by
    rw [List.length_take]
    omega
  have h1 : (row.take (c + 1) ++ none :: row.drop (c + 1)).take (c + 2)
      = row.take (c + 1) ++ [none] := by
    rw [show c + 2 = (row.take (c + 1)).length + 1 from by omega,
      List.take_append]
    rfl
  have h2 : (row.take (c + 1) ++ none :: row.drop (c + 1)).drop (c + 2)
      = row.drop (c + 1) := by
    rw [show c + 2 = (row.take (c + 1)).length + 1 from by omega,
      List.drop_append]
    rfl
  rw [h1, h2]
  have h3 : (row.take (c + 1) ++ [none]) ++ none :: row.drop (c + 1)
      = row.take (c + 1) ++ none :: none :: row.drop (c + 1) := by
    simp [List.append_assoc]
  rw [h3]
  have h4 : (row.take (c + 1) ++ none :: none :: row.drop (c + 1)).set
      (c + 1) L = row.take (c + 1) ++ L :: none :: row.drop (c + 1) := by
    have h := set_append_add (row.take (c + 1))
      (none :: none :: row.drop (c + 1)) 0 L
    rw [Nat.add_zero, hP] at h
    rw [h]
    rfl
  rw [h4]
  have h5 : (row.take (c + 1) ++ L :: none :: row.drop (c + 1)).set
      (c + 2) R = row.take (c + 1) ++ L :: R :: row.drop (c + 1) := by
    have h := set_append_add (row.take (c + 1))
      (L :: none :: row.drop (c + 1)) 1 R
    rw [hP] at h
    rw [show (c : ℕ) + 2 = c + 1 + 1 from by omega, h]
    rfl
  rw [h5]
  have h6 : (row.take (c + 1) ++ L :: R :: row.drop (c + 1)).take c
      = row.take c := by
    rw [List.take_append_of_le_length (by omega), List.take_take,
      min_eq_left (by omega)]
  have h7 : (row.take (c + 1) ++ L :: R :: row.drop (c + 1)).drop (c + 1)
      = L :: R :: row.drop (c + 1) := by
    have h := List.drop_left (row.take (c + 1)) (L :: R :: row.drop (c + 1))
    rw [hP] at h
    exact h
  rw [h6, h7]

/-- The grid surgery of subdivideVertical on success: insert two null
columns after the split column, fill them with the left and right patches,
delete the original column.  Each row keeps its cells off the split column,
with the split cell replaced by the left then the right patch. -/
theorem subV_folds (R C c : ℕ) (hc : c < C)
    (row0 : ℕ → List (Option BezierPatch3))
    (hrow0 : ∀ i, (row0 i).length = C) (lefts rights : List BezierPatch3) :
    ((List.range R).reverse).foldl
      (fun cs (i : ℕ) =>
        spliceList cs ((i : ℤ) * (((C + 2 : ℕ)) : ℤ) + (c : ℤ)) 1 [])
      ((List.range R).foldl
        (fun cs i => (cs.set (i * (C + 2) + (c + 1))
          (some (lefts.getD i default))).set (i * (C + 2) + (c + 2))
          (some (rights.getD i default)))
        ((List.range R).foldl
          (fun cs (i : ℕ) =>
            spliceList cs ((i : ℤ) * (((C + 1 : ℕ) : ℤ) + 1)
              + ((c + 2 : ℕ) : ℤ)) 0 [none])
          ((List.range R).foldl
            (fun cs (i : ℕ) =>
              spliceList cs ((i : ℤ) * ((C : ℤ) + 1) + ((c + 1 : ℕ) : ℤ))
                0 [none])
            (((List.range R).map row0).flatten))))
    = ((List.range R).map (fun i => (row0 i).take c
        ++ some (lefts.getD i default) :: some (rights.getD i default)
          :: (row0 i).drop (c + 1))).flatten := by
  have hrow1 : ∀ i, ((row0 i).take (c + 1)
      ++ none :: (row0 i).drop (c + 1)).length = C + 1 := by
    intro i
    simp only [List.length_append, List.length_take, List.length_cons,
      List.length_drop, hrow0]
    omega
  have hrow2 : ∀ i, ((((row0 i).take (c + 1) ++ none :: (row0 i).drop (c + 1))).take (c + 2)
      ++ none :: (((row0 i).take (c + 1) ++ none :: (row0 i).drop (c + 1))).drop (c + 2)).length
      = C + 2 := by
    intro i
    simp only [List.length_append, List.length_take, List.length_cons,
      List.length_drop, hrow1]
    omega
  have hrow3 : ∀ i, (((((((row0 i).take (c + 1) ++ none :: (row0 i).drop (c + 1))).take (c + 2)
      ++ none :: (((row0 i).take (c + 1) ++ none :: (row0 i).drop (c + 1))).drop (c + 2))).set
        (c + 1) (some (lefts.getD i default))).set (c + 2)
        (some (rights.getD i default))).length = C + 2 := by
    intro i
    simp only [List.length_set]
    exact hrow2 i
  have h1 := insertCol_go C (c + 1) (by omega) none row0 hrow0 R 0 []
    (by simp)
  simp only [List.nil_append] at h1
  rw [← List.range_eq_range'] at h1
  have h2 := insertCol_go (C + 1) (c + 2) (by omega) none
    (fun i => (row0 i).take (c + 1) ++ none :: (row0 i).drop (c + 1))
    hrow1 R 0 [] (by simp)
  simp only [List.nil_append] at h2
  rw [← List.range_eq_range'] at h2
  have h3 := fillV_cells_go (C + 2) (c + 1) (c + 2) (by omega) (by omega)
    (fun i => some (lefts.getD i default))
    (fun i => some (rights.getD i default))
    (fun i => (((row0 i).take (c + 1) ++ none :: (row0 i).drop (c + 1))).take (c + 2)
      ++ none :: (((row0 i).take (c + 1) ++ none :: (row0 i).drop (c + 1))).drop (c + 2))
    hrow2 R 0 [] (by simp)
  simp only [List.nil_append] at h3
  rw [← List.range_eq_range'] at h3
  have h4 := deleteCol_go (C + 2) c (by omega)
    (fun i => ((((((row0 i).take (c + 1) ++ none :: (row0 i).drop (c + 1))).take (c + 2)
      ++ none :: (((row0 i).take (c + 1) ++ none :: (row0 i).drop (c + 1))).drop (c + 2))).set
        (c + 1) (some (lefts.getD i default))).set (c + 2)
        (some (rights.getD i default)))
    hrow3 R 0 [] [] (by simp)
  simp only [List.nil_append, List.append_nil] at h4
  rw [← List.range_eq_range'] at h4
  rw [h1, h2, h3, h4]
  congr 1
  apply List.map_congr_left
  intro i _
  exact rowV_transform (row0 i) C c (hrow0 i) hc
    (some (lefts.getD i default)) (some (rights.getD i default))

/-- The grid surgery of subdivideVertical on success: insert two null
columns after the split column, fill them with the left and right patches
row by row, delete the original column.  Each row keeps its cells off the
split column, with the split cell replaced by the left then right patch. -/
theorem subV_grid_surgery (g : Grid) (c : ℕ)
    (lefts rights : List BezierPatch3) (hc : c < g.colCount)
    (hlen : g.cells.length = g.rowCount * g.colCount) :
    ((List.range ((g.insertColumn ((c : ℤ) + 1)).insertColumn
        ((c : ℤ) + 2)).rowCount).foldl
      (fun g' i => Grid.set (Grid.set g' i ((c : ℤ) + 1).toNat
        (lefts.getD i default)) i ((c : ℤ) + 2).toNat
        (rights.getD i default))
      ((g.insertColumn ((c : ℤ) + 1)).insertColumn ((c : ℤ) + 2))).deleteColumn
      (c : ℤ)
    = Grid.mk g.rowCount (g.colCount + 1)
        ((List.range g.rowCount).map (fun i =>
          ((List.range g.colCount).map
            (fun j => g.cells.getD (i * g.colCount + j) none)).take c
          ++ some (lefts.getD i default) :: some (rights.getD i default)
            :: ((List.range g.colCount).map
              (fun j => g.cells.getD (i * g.colCount + j) none)).drop
                (c + 1))).flatten := by
  obtain ⟨R, C, cells⟩ := g
  dsimp only at hc hlen ⊢
  show ((List.range R).foldl
      (fun g' i => Grid.set (Grid.set g' i (c + 1) (lefts.getD i default))
        i (c + 2) (rights.getD i default))
      (Grid.mk R (C + 2)
        ((List.range R).foldl
          (fun cs (i : ℕ) => spliceList cs ((i : ℤ) * (((C + 1 : ℕ) : ℤ) + 1)
            + ((c + 2 : ℕ) : ℤ)) 0 [none])
          ((List.range R).foldl
            (fun cs (i : ℕ) => spliceList cs ((i : ℤ) * ((C : ℤ) + 1)
              + ((c + 1 : ℕ) : ℤ)) 0 [none])
            cells)))).deleteColumn (c : ℤ)
    = _
  obtain ⟨hf1, hf2, hf3⟩ := fillFoldGridV (c + 1) (c + 2) lefts rights
    (List.range R)
    (Grid.mk R (C + 2)
      ((List.range R).foldl
        (fun cs (i : ℕ) => spliceList cs ((i : ℤ) * (((C + 1 : ℕ) : ℤ) + 1)
          + ((c + 2 : ℕ) : ℤ)) 0 [none])
        ((List.range R).foldl
          (fun cs (i : ℕ) => spliceList cs ((i : ℤ) * ((C : ℤ) + 1)
            + ((c + 1 : ℕ) : ℤ)) 0 [none])
          cells)))
  dsimp only at hf1 hf2 hf3
  have hgfold : (List.range R).foldl
      (fun g' i => Grid.set (Grid.set g' i (c + 1) (lefts.getD i default))
        i (c + 2) (rights.getD i default))
      (Grid.mk R (C + 2)
        ((List.range R).foldl
          (fun cs (i : ℕ) => spliceList cs ((i : ℤ) * (((C + 1 : ℕ) : ℤ) + 1)
            + ((c + 2 : ℕ) : ℤ)) 0 [none])
          ((List.range R).foldl
            (fun cs (i : ℕ) => spliceList cs ((i : ℤ) * ((C : ℤ) + 1)
              + ((c + 1 : ℕ) : ℤ)) 0 [none])
            cells)))
      = Grid.mk R (C + 2)
          ((List.range R).foldl
            (fun cs i => (cs.set (i * (C + 2) + (c + 1))
              (some (lefts.getD i default))).set (i * (C + 2) + (c + 2))
              (some (rights.getD i default)))
            ((List.range R).foldl
              (fun cs (i : ℕ) => spliceList cs ((i : ℤ) * (((C + 1 : ℕ) : ℤ) + 1)
                + ((c + 2 : ℕ) : ℤ)) 0 [none])
              ((List.range R).foldl
                (fun cs (i : ℕ) => spliceList cs ((i : ℤ) * ((C : ℤ) + 1)
                  + ((c + 1 : ℕ) : ℤ)) 0 [none])
                cells))) := by
    conv_lhs => rw [show (List.range R).foldl
      (fun g' i => Grid.set (Grid.set g' i (c + 1) (lefts.getD i default))
        i (c + 2) (rights.getD i default))
      (Grid.mk R (C + 2)
        ((List.range R).foldl
          (fun cs (i : ℕ) => spliceList cs ((i : ℤ) * (((C + 1 : ℕ) : ℤ) + 1)
            + ((c + 2 : ℕ) : ℤ)) 0 [none])
          ((List.range R).foldl
            (fun cs (i : ℕ) => spliceList cs ((i : ℤ) * ((C : ℤ) + 1)
              + ((c + 1 : ℕ) : ℤ)) 0 [none])
            cells)))
      = Grid.mk
          ((List.range R).foldl
            (fun g' i => Grid.set (Grid.set g' i (c + 1) (lefts.getD i default))
              i (c + 2) (rights.getD i default))
            (Grid.mk R (C + 2)
              ((List.range R).foldl
                (fun cs (i : ℕ) => spliceList cs ((i : ℤ) * (((C + 1 : ℕ) : ℤ) + 1)
                  + ((c + 2 : ℕ) : ℤ)) 0 [none])
                ((List.range R).foldl
                  (fun cs (i : ℕ) => spliceList cs ((i : ℤ) * ((C : ℤ) + 1)
                    + ((c + 1 : ℕ) : ℤ)) 0 [none])
                  cells)))).rowCount
          ((List.range R).foldl
            (fun g' i => Grid.set (Grid.set g' i (c + 1) (lefts.getD i default))
              i (c + 2) (rights.getD i default))
            (Grid.mk R (C + 2)
              ((List.range R).foldl
                (fun cs (i : ℕ) => spliceList cs ((i : ℤ) * (((C + 1 : ℕ) : ℤ) + 1)
                  + ((c + 2 : ℕ) : ℤ)) 0 [none])
                ((List.range R).foldl
                  (fun cs (i : ℕ) => spliceList cs ((i : ℤ) * ((C : ℤ) + 1)
                    + ((c + 1 : ℕ) : ℤ)) 0 [none])
                  cells)))).colCount
          ((List.range R).foldl
            (fun g' i => Grid.set (Grid.set g' i (c + 1) (lefts.getD i default))
              i (c + 2) (rights.getD i default))
            (Grid.mk R (C + 2)
              ((List.range R).foldl
                (fun cs (i : ℕ) => spliceList cs ((i : ℤ) * (((C + 1 : ℕ) : ℤ) + 1)
                  + ((c + 2 : ℕ) : ℤ)) 0 [none])
                ((List.range R).foldl
                  (fun cs (i : ℕ) => spliceList cs ((i : ℤ) * ((C : ℤ) + 1)
                    + ((c + 1 : ℕ) : ℤ)) 0 [none])
                  cells)))).cells from rfl]
    rw [hf1, hf2, hf3]
  rw [hgfold]
  show Grid.mk R (C + 1)
      (((List.range R).reverse).foldl
        (fun cs (i : ℕ) =>
          spliceList cs ((i : ℤ) * (((C + 2 : ℕ)) : ℤ) + (c : ℤ)) 1 [])
        ((List.range R).foldl
          (fun cs i => (cs.set (i * (C + 2) + (c + 1))
            (some (lefts.getD i default))).set (i * (C + 2) + (c + 2))
            (some (rights.getD i default)))
          ((List.range R).foldl
            (fun cs (i : ℕ) => spliceList cs ((i : ℤ) * (((C + 1 : ℕ) : ℤ) + 1)
              + ((c + 2 : ℕ) : ℤ)) 0 [none])
            ((List.range R).foldl
              (fun cs (i : ℕ) => spliceList cs ((i : ℤ) * ((C : ℤ) + 1)
                + ((c + 1 : ℕ) : ℤ)) 0 [none])
              cells))))
    = _
  congr 1
  have h := subV_folds R C c hc
    (fun i => (List.range C).map (fun j => cells.getD (i * C + j) none))
    (fun i => by simp) lefts rights
  rw [chunk_flatten C none R cells hlen] at h
  exact h

/-- subdivideVertical on the success path: with the split column found at
index c and the column fully populated, the result relinks the state whose
grid has one more column (each row holding the left then right patch of its
split cell in place of column c) and whose store is the one threaded
through the per-cell splits. -/
theorem subV_run_success (s : PatchState) (u : ℚ) (c : ℕ)
    (hfind : findColIndexGo u s.grid.columnsL 0 = Except.ok ((c : ℕ) : ℤ))
    (hc : c < s.grid.colCount)
    (hlen : s.grid.cells.length = s.grid.rowCount * s.grid.colCount)
    (hfull : ∀ m < s.grid.rowCount, ∃ cur,
      s.grid.cells.getD (m * s.grid.colCount + c) none = some cur) :
    subdivideVerticalRun s u
      = (relinkState ⟨Grid.mk s.grid.rowCount (s.grid.colCount + 1)
          ((List.range s.grid.rowCount).map (fun i =>
            ((List.range s.grid.colCount).map
              (fun j => s.grid.cells.getD (i * s.grid.colCount + j) none)).take c
            ++ some ((subVBuildGo u s.store none
                (colPatches s.grid c)).2.1.getD i default)
              :: some ((subVBuildGo u s.store none
                (colPatches s.grid c)).2.2.getD i default)
              :: ((List.range s.grid.colCount).map
                (fun j => s.grid.cells.getD (i * s.grid.colCount + j) none)).drop
                  (c + 1))).flatten,
          (subVBuildGo u s.store none (colPatches s.grid c)).1⟩, none) := by
  have hcolget := columnsL_get s.grid c hc
  have hfull' : ∀ m < s.grid.rowCount, ∃ cur,
      ((List.range s.grid.rowCount).map
        (fun i => s.grid.cells.getD (i * s.grid.colCount + c) none)).getD
        (0 + m) none = some cur := by
    intro m hm
    rw [Nat.zero_add, getD_map_range _ _ hm]
    exact hfull m hm
  have hloop := subVLoopGo_eq_build u
    ((List.range s.grid.rowCount).map
      (fun i => s.grid.cells.getD (i * s.grid.colCount + c) none))
    s.grid.rowCount 0 s.store [] [] hfull' rfl rfl
  have hinput : (List.range' 0 s.grid.rowCount).map
      (fun m => (((List.range s.grid.rowCount).map
        (fun i => s.grid.cells.getD (i * s.grid.colCount + c) none)).getD
        m none).getD default) = colPatches s.grid c := by
    unfold colPatches
    apply List.map_congr_left
    intro a ha
    rw [List.mem_range'] at ha
    obtain ⟨i, hi, rfl⟩ := ha
    rw [getD_map_range _ _ (by omega)]
  simp only [reduceIte, List.nil_append, hinput] at hloop
  rw [← List.range_eq_range'] at hloop
  unfold subdivideVerticalRun
  rw [hfind]
  simp only []
  rw [if_neg (by omega : ¬(((c : ℕ) : ℤ) < 0))]
  rw [Int.toNat_natCast, hcolget, hloop]
  simp only []
  rw [subV_grid_surgery s.grid c _ _ hc hlen]

/-- A cell of the vertical-surgery grid is the corresponding entry of its
row's transformed cell list. -/
theorem cellD_subV (R C c : ℕ) (cells : List (Option BezierPatch3))
    (lefts rights : List BezierPatch3) (hc : c < C) (i j : ℕ)
    (hi : i < R) (hj : j < C + 1) :
    cellD (Grid.mk R (C + 1) ((List.range R).map (fun i' =>
      ((List.range C).map (fun j' => cells.getD (i' * C + j') none)).take c
      ++ some (lefts.getD i' default) :: some (rights.getD i' default)
        :: ((List.range C).map
          (fun j' => cells.getD (i' * C + j') none)).drop (c + 1))).flatten)
      i j
    = (((List.range C).map (fun j' => cells.getD (i * C + j') none)).take c
      ++ some (lefts.getD i default) :: some (rights.getD i default)
        :: ((List.range C).map
          (fun j' => cells.getD (i * C + j') none)).drop (c + 1)).getD
        j none := by
  show ((List.range R).map (fun i' =>
      ((List.range C).map (fun j' => cells.getD (i' * C + j') none)).take c
      ++ some (lefts.getD i' default) :: some (rights.getD i' default)
        :: ((List.range C).map
          (fun j' => cells.getD (i' * C + j') none)).drop
          (c + 1))).flatten.getD (i * (C + 1) + j) none = _
  rw [getD_flatten_uniform (C + 1) none _ i j
    (by
      intro r hr
      obtain ⟨i', -, rfl⟩ := List.mem_map.mp hr
      simp only [List.length_append, List.length_take, List.length_cons,
        List.length_drop, List.length_map, List.length_range]
      omega)
    (by simp; omega) hj]
  rw [getD_map_range R i hi]

/-- Within a transformed row: a column before the split keeps its cell. -/
theorem rowV_getD_before (C c : ℕ) (row : List (Option BezierPatch3))
    (hrow : row.length = C) (hc : c < C) (L R : Option BezierPatch3)
    (j : ℕ) (hj : j < c) :
    (row.take c ++ L :: R :: row.drop (c + 1)).getD j none
      = row.getD j none := by
  rw [getD_append_lt _ _ _ _ (by rw [List.length_take]; omega),
    getD_take_lt _ _ _ _ hj]

/-- Within a transformed row: the split column holds the left patch. -/
theorem rowV_getD_left (C c : ℕ) (row : List (Option BezierPatch3))
    (hrow : row.length = C) (hc : c < C) (L R : Option BezierPatch3) :
    (row.take c ++ L :: R :: row.drop (c + 1)).getD c none = L := by
  have hA : (row.take c).length = c := by
    rw [List.length_take]
    omega
  have h := getD_append_add (row.take c) (L :: R :: row.drop (c + 1)) 0 none
  rw [hA] at h
  have h2 : (row.take c ++ L :: R :: row.drop (c + 1)).getD c none
      = (L :: R :: row.drop (c + 1)).getD 0 none := h
  rw [h2]
  rfl

/-- Within a transformed row: the column after the split holds the right
patch. -/
theorem rowV_getD_right (C c : ℕ) (row : List (Option BezierPatch3))
    (hrow : row.length = C) (hc : c < C) (L R : Option BezierPatch3) :
    (row.take c ++ L :: R :: row.drop (c + 1)).getD (c + 1) none = R := by
  have hA : (row.take c).length = c := by
    rw [List.length_take]
    omega
  have h := getD_append_add (row.take c) (L :: R :: row.drop (c + 1)) 1 none
  rw [hA] at h
  rw [h]
  rfl

/-- Within a transformed row: columns past the pair shift up by one. -/
theorem rowV_getD_after (C c : ℕ) (row : List (Option BezierPatch3))
    (hrow : row.length = C) (hc : c < C) (L R : Option BezierPatch3)
    (j : ℕ) (hj : c + 2 ≤ j) :
    (row.take c ++ L :: R :: row.drop (c + 1)).getD j none
      = row.getD (j - 1) none := by
  obtain ⟨d, rfl⟩ : ∃ d, j = c + 2 + d := ⟨j - (c + 2), by omega⟩
  have hA : (row.take c).length = c := by
    rw [List.length_take]
    omega
  have h := getD_append_add (row.take c) (L :: R :: row.drop (c + 1))
    (2 + d) none
  rw [hA] at h
  rw [show c + 2 + d - 1 = c + 1 + d from by omega,
    show c + 2 + d = c + (2 + d) from by omega, h,
    show 2 + d = d + 1 + 1 from by omega, List.getD_cons_succ,
    List.getD_cons_succ, getD_drop_add]

/-- Structured-domain preservation by the vertical surgery: with the left
and right columns carrying the split Domains, the new grid is structured
over the u breakpoints with the split coordinate inserted after position c. -/
theorem subV_structured (g : Grid) (ub vb : List ℚ) (u : ℚ) (c : ℕ)
    (hS : StructuredDomains g ub vb) (hc : c < g.colCount)
    (h1 : ub.getD c 0 < u) (h2 : u < ub.getD (c + 1) 0)
    (lefts rights : List BezierPatch3)
    (hld : ∀ i < g.rowCount, (lefts.getD i default).domain
      = ⟨ub.getD c 0, vb.getD i 0, u, vb.getD (i + 1) 0⟩)
    (hrd : ∀ i < g.rowCount, (rights.getD i default).domain
      = ⟨u, vb.getD i 0, ub.getD (c + 1) 0, vb.getD (i + 1) 0⟩) :
    StructuredDomains (Grid.mk g.rowCount (g.colCount + 1)
      ((List.range g.rowCount).map (fun i =>
        ((List.range g.colCount).map
          (fun j => g.cells.getD (i * g.colCount + j) none)).take c
        ++ some (lefts.getD i default) :: some (rights.getD i default)
          :: ((List.range g.colCount).map
            (fun j => g.cells.getD (i * g.colCount + j) none)).drop
              (c + 1))).flatten)
      (ub.take (c + 1) ++ u :: ub.drop (c + 1)) vb := by
  obtain ⟨R, C, cells⟩ := g
  dsimp only at hc hld hrd ⊢
  obtain ⟨hlen, hR, hC, hubl, hvbl, hub0, hub1, hvb0, hvb1, hubadj, hvbadj,
    hcell⟩ := hS
  dsimp only at hlen hR hC hubl hvbl hub0 hub1 hvb0 hvb1 hubadj hvbadj hcell
  have hublen : c + 1 ≤ ub.length := by omega
  have hcell' : ∀ i, i < R → ∀ j, j < C →
      (cells.getD (i * C + j) none).isSome = true ∧
      ((cells.getD (i * C + j) none).map (fun p => p.domain)).getD default
        = ⟨ub.getD j 0, vb.getD i 0, ub.getD (j + 1) 0,
           vb.getD (i + 1) 0⟩ := by
    intro i hi j hj
    have := hcell i hi j hj
    simpa [cellD] using this
  have hrowlen : ∀ i, ((List.range C).map
      (fun j => cells.getD (i * C + j) none)).length = C := by
    intro i
    simp
  unfold StructuredDomains
  dsimp only
  refine ⟨?_, hR, by omega, ?_, hvbl, ?_, ?_, hvb0, hvb1, ?_, hvbadj, ?_⟩
  · rw [length_flatten_uniform (C + 1) _ (by
      intro r hr
      obtain ⟨i', -, rfl⟩ := List.mem_map.mp hr
      simp only [List.length_append, List.length_take, List.length_cons,
        List.length_drop, List.length_map, List.length_range]
      omega)]
    simp
  · simp only [List.length_append, List.length_take, List.length_cons,
      List.length_drop, hubl]
    omega
  · rw [getD_insertBp_le ub c u hublen 0 (by omega)]
    exact hub0
  · rw [getD_insertBp_ge ub c u hublen (C + 1) (by omega)]
    simpa using hub1
  · intro j hj
    by_cases hc1 : j < c
    · rw [getD_insertBp_le ub c u hublen j (by omega),
        getD_insertBp_le ub c u hublen (j + 1) (by omega)]
      exact hubadj j (by omega)
    · by_cases hc2 : j = c
      · subst hc2
        rw [getD_insertBp_le ub j u hublen j (by omega),
          getD_insertBp_eq ub j u hublen]
        exact h1
      · by_cases hc3 : j = c + 1
        · subst hc3
          rw [getD_insertBp_eq ub c u hublen,
            getD_insertBp_ge ub c u hublen (c + 1 + 1) (by omega)]
          simpa using h2
        · have hge : c + 2 ≤ j := by omega
          rw [getD_insertBp_ge ub c u hublen j (by omega),
            getD_insertBp_ge ub c u hublen (j + 1) (by omega),
            show j + 1 - 1 = (j - 1) + 1 from by omega]
          exact hubadj (j - 1) (by omega)
  · intro i hi j hj
    rw [cellD_subV R C c cells lefts rights hc i j hi hj]
    by_cases hc1 : j < c
    · rw [rowV_getD_before C c _ (hrowlen i) hc _ _ j hc1,
        getD_map_range C j (by omega)]
      obtain ⟨hsome, hdom⟩ := hcell' i hi j (by omega)
      refine ⟨hsome, ?_⟩
      rw [hdom, getD_insertBp_le ub c u hublen j (by omega),
        getD_insertBp_le ub c u hublen (j + 1) (by omega)]
    · by_cases hc2 : j = c
      · subst hc2
        rw [rowV_getD_left C j _ (hrowlen i) hc _ _]
        refine ⟨rfl, ?_⟩
        show (lefts.getD i default).domain = _
        rw [hld i hi, getD_insertBp_le ub j u hublen j (by omega),
          getD_insertBp_eq ub j u hublen]
      · by_cases hc3 : j = c + 1
        · subst hc3
          rw [rowV_getD_right C c _ (hrowlen i) hc _ _]
          refine ⟨rfl, ?_⟩
          show (rights.getD i default).domain = _
          rw [hrd i hi, getD_insertBp_eq ub c u hublen,
            getD_insertBp_ge ub c u hublen (c + 1 + 1) (by omega)]
          simp
        · have hge : c + 2 ≤ j := by omega
          rw [rowV_getD_after C c _ (hrowlen i) hc _ _ j hge,
            getD_map_range C (j - 1) (by omega)]
          obtain ⟨hsome, hdom⟩ := hcell' i hi (j - 1) (by omega)
          refine ⟨hsome, ?_⟩
          rw [hdom, getD_insertBp_ge ub c u hublen j (by omega),
            getD_insertBp_ge ub c u hublen (j + 1) (by omega),
            show j + 1 - 1 = (j - 1) + 1 from by omega]

/-- relinkControlPoints only rewires control-point links; the grid is
untouched. -/
theorem relinkState_grid (s : PatchState) : (relinkState s).grid = s.grid :=
  rfl

/-- Claim C4.  Domain splitting and tiling invariant: on a composite Patch
whose cell Domains are structured along grid lines (the program's
data-model invariant, which makes them tile the unit square), splitting at
a parameter strictly inside the found row's (column's) span succeeds, every
patch of the replaced row yields a bottom patch with Domain (u0, v0, u1, v)
and a top patch with Domain (u0, v, u1, v1) — the u span preserved and only
v split (transposed for subdivideVertical) — and the resulting grid is again
structured, with the split coordinate inserted among the breakpoints, hence
its cell Domains still tile the unit square with no gaps or overlaps. -/
theorem claim4_domain_split_tiling :
    (∀ (s : PatchState) (ub vb : List ℚ) (v : ℚ) (r : ℕ),
      StructuredDomains s.grid ub vb →
      r < s.grid.rowCount →
      vb.getD r 0 < v → v < vb.getD (r + 1) 0 →
      (subdivideHorizontalRun s v).2 = none ∧
      (∀ j < s.grid.colCount, ∃ pOld pB pT,
        cellD s.grid r j = some pOld ∧
        cellD (subdivideHorizontalRun s v).1.grid r j = some pB ∧
        cellD (subdivideHorizontalRun s v).1.grid (r + 1) j = some pT ∧
        pB.domain = ⟨pOld.domain.u0, pOld.domain.v0, pOld.domain.u1, v⟩ ∧
        pT.domain = ⟨pOld.domain.u0, v, pOld.domain.u1, pOld.domain.v1⟩) ∧
      StructuredDomains (subdivideHorizontalRun s v).1.grid ub
        (vb.take (r + 1) ++ v :: vb.drop (r + 1)) ∧
      Tiles (subdivideHorizontalRun s v).1.grid) ∧
    (∀ (s : PatchState) (ub vb : List ℚ) (u : ℚ) (c : ℕ),
      StructuredDomains s.grid ub vb →
      c < s.grid.colCount →
      ub.getD c 0 < u → u < ub.getD (c + 1) 0 →
      (subdivideVerticalRun s u).2 = none ∧
      (∀ i < s.grid.rowCount, ∃ pOld pL pR,
        cellD s.grid i c = some pOld ∧
        cellD (subdivideVerticalRun s u).1.grid i c = some pL ∧
        cellD (subdivideVerticalRun s u).1.grid i (c + 1) = some pR ∧
        pL.domain = ⟨pOld.domain.u0, pOld.domain.v0, u, pOld.domain.v1⟩ ∧
        pR.domain = ⟨u, pOld.domain.v0, pOld.domain.u1, pOld.domain.v1⟩) ∧
      StructuredDomains (subdivideVerticalRun s u).1.grid
        (ub.take (c + 1) ++ u :: ub.drop (c + 1)) vb ∧
      Tiles (subdivideVerticalRun s u).1.grid) := by
  constructor
  · intro s ub vb v r hS hr h1 h2
    obtain ⟨hlen, hR, hC, hubl, hvbl, hub0, hub1, hvb0, hvb1, hubadj,
      hvbadj, hcell⟩ := hS
    have hS' : StructuredDomains s.grid ub vb :=
      ⟨hlen, hR, hC, hubl, hvbl, hub0, hub1, hvb0, hvb1, hubadj, hvbadj,
        hcell⟩
    have hfull : ∀ m < s.grid.colCount, ∃ cur,
        s.grid.cells.getD (r * s.grid.colCount + m) none = some cur := by
      intro m hm
      obtain ⟨p, hp, -⟩ := structured_cell s.grid ub vb hS' r m hr hm
      exact ⟨p, by simpa [cellD] using hp⟩
    have hfind := findRow_structured s.grid ub vb v r hS' hr h1 h2
    have hrun := subH_run_success s v r hfind hr hlen hfull
    have hnone : (subdivideHorizontalRun s v).2 = none := by rw [hrun]
    have hgrid : (subdivideHorizontalRun s v).1.grid
        = Grid.mk (s.grid.rowCount + 1) s.grid.colCount
          (s.grid.cells.take (r * s.grid.colCount)
            ++ ((subHBuildGo v s.store none (rowPatches s.grid r)).2.1.map some
              ++ ((subHBuildGo v s.store none (rowPatches s.grid r)).2.2.map some
                ++ s.grid.cells.drop
                  ((r + 1) * s.grid.colCount)))) := by
      rw [hrun]
      rfl
    have hrplen : (rowPatches s.grid r).length = s.grid.colCount := by
      simp [rowPatches]
    have hbl : (subHBuildGo v s.store none (rowPatches s.grid r)).2.1.length
        = s.grid.colCount := by
      rw [(subHBuildGo_len v (rowPatches s.grid r) s.store none).1, hrplen]
    have htl : (subHBuildGo v s.store none (rowPatches s.grid r)).2.2.length
        = s.grid.colCount := by
      rw [(subHBuildGo_len v (rowPatches s.grid r) s.store none).2, hrplen]
    have hrowp : ∀ j, j < s.grid.colCount → ∀ p,
        cellD s.grid r j = some p →
        (rowPatches s.grid r).getD j default = p := by
      intro j hj p hp
      unfold rowPatches
      rw [getD_map_range' s.grid.colCount j hj]
      simp only [cellD] at hp
      rw [hp]
      rfl
    have hbd : ∀ j < s.grid.colCount,
        ((subHBuildGo v s.store none (rowPatches s.grid r)).2.1.getD j
          default).domain
        = ⟨ub.getD j 0, vb.getD r 0, ub.getD (j + 1) 0, v⟩ := by
      intro j hj
      obtain ⟨p, hp, hd⟩ := structured_cell s.grid ub vb hS' r j hr hj
      rw [(subHBuildGo_domain v (rowPatches s.grid r) s.store none j
        (by omega)).1, hrowp j hj p hp, hd]
    have htd : ∀ j < s.grid.colCount,
        ((subHBuildGo v s.store none (rowPatches s.grid r)).2.2.getD j
          default).domain
        = ⟨ub.getD j 0, v, ub.getD (j + 1) 0, vb.getD (r + 1) 0⟩ := by
      intro j hj
      obtain ⟨p, hp, hd⟩ := structured_cell s.grid ub vb hS' r j hr hj
      rw [(subHBuildGo_domain v (rowPatches s.grid r) s.store none j
        (by omega)).2, hrowp j hj p hp, hd]
    have hstruct := subH_structured s.grid ub vb v r hS' hr h1 h2 _ _ hbl htl
      hbd htd
    refine ⟨hnone, ?_, ?_, ?_⟩
    · intro j hj
      obtain ⟨p, hp, hd⟩ := structured_cell s.grid ub vb hS' r j hr hj
      refine ⟨p, (subHBuildGo v s.store none (rowPatches s.grid r)).2.1.getD j
        default, (subHBuildGo v s.store none (rowPatches s.grid r)).2.2.getD j
        default, hp, ?_, ?_, ?_, ?_⟩
      · rw [hgrid]
        exact cellD_subH_bottom s.grid.rowCount s.grid.colCount r
          s.grid.cells _ _ hr hlen hbl j hj
      · rw [hgrid]
        exact cellD_subH_top s.grid.rowCount s.grid.colCount r
          s.grid.cells _ _ hr hlen hbl htl j hj
      · rw [hbd j hj, hd]
      · rw [htd j hj, hd]
    · rw [hgrid]
      exact hstruct
    · rw [hgrid]
      exact structured_tiles _ ub (vb.take (r + 1) ++ v :: vb.drop (r + 1))
        hstruct
  · intro s ub vb u c hS hc h1 h2
    obtain ⟨hlen, hR, hC, hubl, hvbl, hub0, hub1, hvb0, hvb1, hubadj,
      hvbadj, hcell⟩ := hS
    have hS' : StructuredDomains s.grid ub vb :=
      ⟨hlen, hR, hC, hubl, hvbl, hub0, hub1, hvb0, hvb1, hubadj, hvbadj,
        hcell⟩
    have hfull : ∀ m < s.grid.rowCount, ∃ cur,
        s.grid.cells.getD (m * s.grid.colCount + c) none = some cur := by
      intro m hm
      obtain ⟨p, hp, -⟩ := structured_cell s.grid ub vb hS' m c hm hc
      exact ⟨p, by simpa [cellD] using hp⟩
    have hfind := findCol_structured s.grid ub vb u c hS' hc h1 h2
    have hrun := subV_run_success s u c hfind hc hlen hfull
    have hnone : (subdivideVerticalRun s u).2 = none := by rw [hrun]
    have hgrid : (subdivideVerticalRun s u).1.grid
        = Grid.mk s.grid.rowCount (s.grid.colCount + 1)
          ((List.range s.grid.rowCount).map (fun i =>
            ((List.range s.grid.colCount).map
              (fun j => s.grid.cells.getD (i * s.grid.colCount + j) none)).take c
            ++ some ((subVBuildGo u s.store none
                (colPatches s.grid c)).2.1.getD i default)
              :: some ((subVBuildGo u s.store none
                (colPatches s.grid c)).2.2.getD i default)
              :: ((List.range s.grid.colCount).map
                (fun j => s.grid.cells.getD (i * s.grid.colCount + j) none)).drop
                  (c + 1))).flatten := by
      rw [hrun]
      rfl
    have hcplen : (colPatches s.grid c).length = s.grid.rowCount := by
      simp [colPatches]
    have hcolp : ∀ i, i < s.grid.rowCount → ∀ p,
        cellD s.grid i c = some p →
        (colPatches s.grid c).getD i default = p := by
      intro i hi p hp
      unfold colPatches
      rw [getD_map_range' s.grid.rowCount i hi]
      simp only [cellD] at hp
      rw [hp]
      rfl
    have hld : ∀ i < s.grid.rowCount,
        ((subVBuildGo u s.store none (colPatches s.grid c)).2.1.getD i
          default).domain
        = ⟨ub.getD c 0, vb.getD i 0, u, vb.getD (i + 1) 0⟩ := by
      intro i hi
      obtain ⟨p, hp, hd⟩ := structured_cell s.grid ub vb hS' i c hi hc
      rw [(subVBuildGo_domain u (colPatches s.grid c) s.store none i
        (by omega)).1, hcolp i hi p hp, hd]
    have hrd : ∀ i < s.grid.rowCount,
        ((subVBuildGo u s.store none (colPatches s.grid c)).2.2.getD i
          default).domain
        = ⟨u, vb.getD i 0, ub.getD (c + 1) 0, vb.getD (i + 1) 0⟩ := by
      intro i hi
      obtain ⟨p, hp, hd⟩ := structured_cell s.grid ub vb hS' i c hi hc
      rw [(subVBuildGo_domain u (colPatches s.grid c) s.store none i
        (by omega)).2, hcolp i hi p hp, hd]
    have hstruct := subV_structured s.grid ub vb u c hS' hc h1 h2 _ _ hld hrd
    refine ⟨hnone, ?_, ?_, ?_⟩
    · intro i hi
      obtain ⟨p, hp, hd⟩ := structured_cell s.grid ub vb hS' i c hi hc
      refine ⟨p, (subVBuildGo u s.store none (colPatches s.grid c)).2.1.getD i
        default, (subVBuildGo u s.store none (colPatches s.grid c)).2.2.getD i
        default, hp, ?_, ?_, ?_, ?_⟩
      · rw [hgrid, cellD_subV s.grid.rowCount s.grid.colCount c s.grid.cells
          _ _ hc i c hi (by omega)]
        exact rowV_getD_left s.grid.colCount c _ (by simp) hc _ _
      · rw [hgrid, cellD_subV s.grid.rowCount s.grid.colCount c s.grid.cells
          _ _ hc i (c + 1) hi (by omega)]
        exact rowV_getD_right s.grid.colCount c _ (by simp) hc _ _
      · rw [hld i hi, hd]
      · rw [hrd i hi, hd]
    · rw [hgrid]
      exact hstruct
    · rw [hgrid]
      exact structured_tiles _ (ub.take (c + 1) ++ u :: ub.drop (c + 1)) vb
        hstruct

/-- Witness for claim C4: the one-cell unit-domain sample state is
structured over the breakpoints [0, 1] x [0, 1], and both split directions
at coordinate 1/2 succeed with the resulting grids still tiling the unit
square. -/
theorem claim4_witness :
    StructuredDomains sampleState.grid [0, 1] [0, 1] ∧
    (subdivideHorizontalRun sampleState (1/2)).2 = none ∧
    Tiles (subdivideHorizontalRun sampleState (1/2)).1.grid ∧
    (subdivideVerticalRun sampleState (1/2)).2 = none ∧
    Tiles (subdivideVerticalRun sampleState (1/2)).1.grid := by
  have hS : StructuredDomains sampleState.grid [0, 1] [0, 1] := by
    unfold StructuredDomains
    decide
  have hH := claim4_domain_split_tiling.1 sampleState [0, 1] [0, 1] (1/2) 0
    hS (by decide)
    (by norm_num [List.getD_cons_zero])
    (by norm_num [List.getD_cons_succ, List.getD_cons_zero])
  have hV := claim4_domain_split_tiling.2 sampleState [0, 1] [0, 1] (1/2) 0
    hS (by decide)
    (by norm_num [List.getD_cons_zero])
    (by norm_num [List.getD_cons_succ, List.getD_cons_zero])
  exact ⟨hS, hH.1, hH.2.2.2, hV.1, hV.2.2.2⟩

/-- Slot ids of a first-cell horizontal split: the bottom patch keeps the
cell's bottom rail, the top patch keeps its top rail, and the two share the
new boundary's four freshly created points by reference. -/
theorem subHStep_slots_none (st : Store) (cur : BezierPatch3) (v : ℚ) :
    (slotId (subHStep st cur v none).2.1 0 = slotId cur 0 ∧
     slotId (subHStep st cur v none).2.1 1 = slotId cur 1 ∧
     slotId (subHStep st cur v none).2.1 2 = slotId cur 2 ∧
     slotId (subHStep st cur v none).2.1 3 = slotId cur 3) ∧
    (slotId (subHStep st cur v none).2.2 12 = slotId cur 12 ∧
     slotId (subHStep st cur v none).2.2 13 = slotId cur 13 ∧
     slotId (subHStep st cur v none).2.2 14 = slotId cur 14 ∧
     slotId (subHStep st cur v none).2.2 15 = slotId cur 15) ∧
    SharedHEdge (subHStep st cur v none).2.1 (subHStep st cur v none).2.2 := by
  refine ⟨⟨?_, ?_, ?_, ?_⟩, ⟨?_, ?_, ?_, ?_⟩, ?_, ?_, ?_, ?_⟩ <;>
    simp only [subHStep, slotId, List.getD_cons_zero, List.getD_cons_succ]

/-- Slot ids of a later-cell horizontal split: the left edge is taken by
reference from the previously built pair, the rails come from the cell, and
the new boundary is shared. -/
theorem subHStep_slots_some (st : Store) (cur : BezierPatch3) (v : ℚ)
    (pb pt : BezierPatch3) (hsh : SharedHEdge pb pt) :
    (slotId (subHStep st cur v (some (pb, pt))).2.1 0 = slotId pb 3 ∧
     slotId (subHStep st cur v (some (pb, pt))).2.1 1 = slotId cur 1 ∧
     slotId (subHStep st cur v (some (pb, pt))).2.1 2 = slotId cur 2 ∧
     slotId (subHStep st cur v (some (pb, pt))).2.1 3 = slotId cur 3) ∧
    (slotId (subHStep st cur v (some (pb, pt))).2.2 12 = slotId pt 15 ∧
     slotId (subHStep st cur v (some (pb, pt))).2.2 13 = slotId cur 13 ∧
     slotId (subHStep st cur v (some (pb, pt))).2.2 14 = slotId cur 14 ∧
     slotId (subHStep st cur v (some (pb, pt))).2.2 15 = slotId cur 15) ∧
    SharedHEdge (subHStep st cur v (some (pb, pt))).2.1
      (subHStep st cur v (some (pb, pt))).2.2 := by
  refine ⟨⟨?_, ?_, ?_, ?_⟩, ⟨?_, ?_, ?_, ?_⟩, ?_, ?_, ?_, ?_⟩ <;>
    simp only [subHStep, slotId, List.getD_cons_zero, List.getD_cons_succ]
  exact hsh.2.2.2

/-- The patches built at the next column take their left edges by reference
from the previously built bottom/top pair. -/
theorem subHStep_next (st : Store) (cur : BezierPatch3) (v : ℚ)
    (pb pt : BezierPatch3) :
    SharedVEdge pb (subHStep st cur v (some (pb, pt))).2.1 ∧
    SharedVEdge pt (subHStep st cur v (some (pb, pt))).2.2 := by
  refine ⟨⟨?_, ?_, ?_, ?_⟩, ⟨?_, ?_, ?_, ?_⟩⟩ <;>
    simp only [subHStep, slotId, List.getD_cons_zero, List.getD_cons_succ]

/-- The boundary sharing facts of the horizontal build: with the split
row's cells sharing their vertical edges, every bottom patch keeps its
cell's bottom rail, every top patch its cell's top rail, each bottom/top
pair shares the new boundary by reference, and consecutive bottoms
(respectively tops) share their vertical edges by reference. -/
theorem subHBuildGo_sharing (v : ℚ) :
    ∀ (cs : List BezierPatch3) (st : Store)
    (prev : Option (BezierPatch3 × BezierPatch3)),
    (∀ j, j + 1 < cs.length →
      SharedVEdge (cs.getD j default) (cs.getD (j + 1) default)) →
    (∀ pb pt, prev = some (pb, pt) → SharedHEdge pb pt ∧
      (0 < cs.length → slotId pb 3 = slotId (cs.getD 0 default) 0 ∧
        slotId pt 15 = slotId (cs.getD 0 default) 12)) →
    (∀ j, j < cs.length →
      (slotId ((subHBuildGo v st prev cs).2.1.getD j default) 0
          = slotId (cs.getD j default) 0 ∧
       slotId ((subHBuildGo v st prev cs).2.1.getD j default) 1
          = slotId (cs.getD j default) 1 ∧
       slotId ((subHBuildGo v st prev cs).2.1.getD j default) 2
          = slotId (cs.getD j default) 2 ∧
       slotId ((subHBuildGo v st prev cs).2.1.getD j default) 3
          = slotId (cs.getD j default) 3) ∧
      (slotId ((subHBuildGo v st prev cs).2.2.getD j default) 12
          = slotId (cs.getD j default) 12 ∧
       slotId ((subHBuildGo v st prev cs).2.2.getD j default) 13
          = slotId (cs.getD j default) 13 ∧
       slotId ((subHBuildGo v st prev cs).2.2.getD j default) 14
          = slotId (cs.getD j default) 14 ∧
       slotId ((subHBuildGo v st prev cs).2.2.getD j default) 15
          = slotId (cs.getD j default) 15) ∧
      SharedHEdge ((subHBuildGo v st prev cs).2.1.getD j default)
        ((subHBuildGo v st prev cs).2.2.getD j default)) ∧
    (∀ j, j + 1 < cs.length →
      SharedVEdge ((subHBuildGo v st prev cs).2.1.getD j default)
        ((subHBuildGo v st prev cs).2.1.getD (j + 1) default) ∧
      SharedVEdge ((subHBuildGo v st prev cs).2.2.getD j default)
        ((subHBuildGo v st prev cs).2.2.getD (j + 1) default)) := by
  intro cs
  induction cs with
  | nil =>
    intro st prev _ _
    constructor
    · intro j hj
      simp at hj
    · intro j hj
      simp at hj
  | cons cur rest ih =>
    intro st prev hadj hprev
    have hb0t0 :
        (slotId (subHStep st cur v prev).2.1 0 = slotId cur 0 ∧
         slotId (subHStep st cur v prev).2.1 1 = slotId cur 1 ∧
         slotId (subHStep st cur v prev).2.1 2 = slotId cur 2 ∧
         slotId (subHStep st cur v prev).2.1 3 = slotId cur 3) ∧
        (slotId (subHStep st cur v prev).2.2 12 = slotId cur 12 ∧
         slotId (subHStep st cur v prev).2.2 13 = slotId cur 13 ∧
         slotId (subHStep st cur v prev).2.2 14 = slotId cur 14 ∧
         slotId (subHStep st cur v prev).2.2 15 = slotId cur 15) ∧
        SharedHEdge (subHStep st cur v prev).2.1
          (subHStep st cur v prev).2.2 := by
      cases prev with
      | none => exact subHStep_slots_none st cur v
      | some pq =>
        obtain ⟨pb, pt⟩ := pq
        obtain ⟨hsh, hcompat⟩ := hprev pb pt rfl
        obtain ⟨h3, h15⟩ := hcompat (by simp)
        have hs := subHStep_slots_some st cur v pb pt hsh
        refine ⟨⟨?_, hs.1.2.1, hs.1.2.2.1, hs.1.2.2.2⟩,
          ⟨?_, hs.2.1.2.1, hs.2.1.2.2.1, hs.2.1.2.2.2⟩, hs.2.2⟩
        · rw [hs.1.1, h3]
          rfl
        · rw [hs.2.1.1, h15]
          rfl
    have hvnext : ∀ (cur' : BezierPatch3) (st' : Store),
        SharedVEdge (subHStep st cur v prev).2.1
          (subHStep st' cur' v (some ((subHStep st cur v prev).2.1,
            (subHStep st cur v prev).2.2))).2.1 ∧
        SharedVEdge (subHStep st cur v prev).2.2
          (subHStep st' cur' v (some ((subHStep st cur v prev).2.1,
            (subHStep st cur v prev).2.2))).2.2 := by
      intro cur' st'
      exact subHStep_next st' cur' v _ _
    have hih := ih (subHStep st cur v prev).1
      (some ((subHStep st cur v prev).2.1, (subHStep st cur v prev).2.2))
      (fun j hj => by
        have := hadj (j + 1) (by simpa using hj)
        simpa using this)
      (fun pb pt hpq => by
        rw [Option.some_inj, Prod.mk.injEq] at hpq
        obtain ⟨h1, h2⟩ := hpq
        subst h1
        subst h2
        refine ⟨hb0t0.2.2, ?_⟩
        intro hlen
        obtain ⟨c1, rest', rfl⟩ : ∃ c1 rest', rest = c1 :: rest' := by
          cases rest with
          | nil => simp at hlen
          | cons a b => exact ⟨a, b, rfl⟩
        have hv := hadj 0 (by simp)
        simp only [List.getD_cons_zero, List.getD_cons_succ] at hv ⊢
        constructor
        · rw [hb0t0.1.2.2.2]
          exact hv.1
        · rw [hb0t0.2.1.2.2.2]
          exact hv.2.2.2)
    constructor
    · intro j hj
      cases j with
      | zero =>
        simp only [subHBuildGo, List.getD_cons_zero]
        exact hb0t0
      | succ j' =>
        simp only [subHBuildGo, List.getD_cons_succ]
        exact hih.1 j' (by simpa using hj)
    · intro j hj
      cases j with
      | zero =>
        obtain ⟨c1, rest', rfl⟩ : ∃ c1 rest', rest = c1 :: rest' := by
          cases rest with
          | nil => simp at hj
          | cons a b => exact ⟨a, b, rfl⟩
        simp only [subHBuildGo, List.getD_cons_zero, List.getD_cons_succ]
        exact hvnext c1 (subHStep st cur v prev).1
      | succ j' =>
        simp only [subHBuildGo, List.getD_cons_succ]
        exact hih.2 j' (by simpa using hj)

/-- Slot ids of a first-cell vertical split: the left patch keeps the
cell's left column, the right patch its right column, and the two share the
new boundary's four freshly created points by reference. -/
theorem subVStep_slots_none (st : Store) (cur : BezierPatch3) (u : ℚ) :
    (slotId (subVStep st cur u none).2.1 0 = slotId cur 0 ∧
     slotId (subVStep st cur u none).2.1 4 = slotId cur 4 ∧
     slotId (subVStep st cur u none).2.1 8 = slotId cur 8 ∧
     slotId (subVStep st cur u none).2.1 12 = slotId cur 12) ∧
    (slotId (subVStep st cur u none).2.2 3 = slotId cur 3 ∧
     slotId (subVStep st cur u none).2.2 7 = slotId cur 7 ∧
     slotId (subVStep st cur u none).2.2 11 = slotId cur 11 ∧
     slotId (subVStep st cur u none).2.2 15 = slotId cur 15) ∧
    SharedVEdge (subVStep st cur u none).2.1 (subVStep st cur u none).2.2 := by
  refine ⟨⟨?_, ?_, ?_, ?_⟩, ⟨?_, ?_, ?_, ?_⟩, ?_, ?_, ?_, ?_⟩ <;>
    simp only [subVStep, slotId, List.getD_cons_zero, List.getD_cons_succ]

/-- Slot ids of a later-cell vertical split: the bottom edge is taken by
reference from the previously built pair, the outer columns come from the
cell, and the new boundary is shared. -/
theorem subVStep_slots_some (st : Store) (cur : BezierPatch3) (u : ℚ)
    (pl pr : BezierPatch3) (hsh : SharedVEdge pl pr) :
    (slotId (subVStep st cur u (some (pl, pr))).2.1 0 = slotId pl 12 ∧
     slotId (subVStep st cur u (some (pl, pr))).2.1 4 = slotId cur 4 ∧
     slotId (subVStep st cur u (some (pl, pr))).2.1 8 = slotId cur 8 ∧
     slotId (subVStep st cur u (some (pl, pr))).2.1 12 = slotId cur 12) ∧
    (slotId (subVStep st cur u (some (pl, pr))).2.2 3 = slotId pr 15 ∧
     slotId (subVStep st cur u (some (pl, pr))).2.2 7 = slotId cur 7 ∧
     slotId (subVStep st cur u (some (pl, pr))).2.2 11 = slotId cur 11 ∧
     slotId (subVStep st cur u (some (pl, pr))).2.2 15 = slotId cur 15) ∧
    SharedVEdge (subVStep st cur u (some (pl, pr))).2.1
      (subVStep st cur u (some (pl, pr))).2.2 := by
  refine ⟨⟨?_, ?_, ?_, ?_⟩, ⟨?_, ?_, ?_, ?_⟩, ?_, ?_, ?_, ?_⟩ <;>
    simp only [subVStep, slotId, List.getD_cons_zero, List.getD_cons_succ]
  exact hsh.2.2.2

/-- The patches built at the next row take their bottom edges by reference
from the previously built left/right pair. -/
theorem subVStep_next (st : Store) (cur : BezierPatch3) (u : ℚ)
    (pl pr : BezierPatch3) :
    SharedHEdge pl (subVStep st cur u (some (pl, pr))).2.1 ∧
    SharedHEdge pr (subVStep st cur u (some (pl, pr))).2.2 := by
  refine ⟨⟨?_, ?_, ?_, ?_⟩, ⟨?_, ?_, ?_, ?_⟩⟩ <;>
    simp only [subVStep, slotId, List.getD_cons_zero, List.getD_cons_succ]

/-- The boundary sharing facts of the vertical build: with the split
column's cells sharing their horizontal edges, every left patch keeps its
cell's left column, every right patch its cell's right column, each
left/right pair shares the new boundary, and consecutive lefts
(respectively rights) share their horizontal edges by reference. -/
theorem subVBuildGo_sharing (u : ℚ) :
    ∀ (cs : List BezierPatch3) (st : Store)
    (prev : Option (BezierPatch3 × BezierPatch3)),
    (∀ i, i + 1 < cs.length →
      SharedHEdge (cs.getD i default) (cs.getD (i + 1) default)) →
    (∀ pl pr, prev = some (pl, pr) → SharedVEdge pl pr ∧
      (0 < cs.length → slotId pl 12 = slotId (cs.getD 0 default) 0 ∧
        slotId pr 15 = slotId (cs.getD 0 default) 3)) →
    (∀ i, i < cs.length →
      (slotId ((subVBuildGo u st prev cs).2.1.getD i default) 0
          = slotId (cs.getD i default) 0 ∧
       slotId ((subVBuildGo u st prev cs).2.1.getD i default) 4
          = slotId (cs.getD i default) 4 ∧
       slotId ((subVBuildGo u st prev cs).2.1.getD i default) 8
          = slotId (cs.getD i default) 8 ∧
       slotId ((subVBuildGo u st prev cs).2.1.getD i default) 12
          = slotId (cs.getD i default) 12) ∧
      (slotId ((subVBuildGo u st prev cs).2.2.getD i default) 3
          = slotId (cs.getD i default) 3 ∧
       slotId ((subVBuildGo u st prev cs).2.2.getD i default) 7
          = slotId (cs.getD i default) 7 ∧
       slotId ((subVBuildGo u st prev cs).2.2.getD i default) 11
          = slotId (cs.getD i default) 11 ∧
       slotId ((subVBuildGo u st prev cs).2.2.getD i default) 15
          = slotId (cs.getD i default) 15) ∧
      SharedVEdge ((subVBuildGo u st prev cs).2.1.getD i default)
        ((subVBuildGo u st prev cs).2.2.getD i default)) ∧
    (∀ i, i + 1 < cs.length →
      SharedHEdge ((subVBuildGo u st prev cs).2.1.getD i default)
        ((subVBuildGo u st prev cs).2.1.getD (i + 1) default) ∧
      SharedHEdge ((subVBuildGo u st prev cs).2.2.getD i default)
        ((subVBuildGo u st prev cs).2.2.getD (i + 1) default)) := by
  intro cs
  induction cs with
  | nil =>
    intro st prev _ _
    constructor
    · intro i hi
      simp at hi
    · intro i hi
      simp at hi
  | cons cur rest ih =>
    intro st prev hadj hprev
    have hl0r0 :
        (slotId (subVStep st cur u prev).2.1 0 = slotId cur 0 ∧
         slotId (subVStep st cur u prev).2.1 4 = slotId cur 4 ∧
         slotId (subVStep st cur u prev).2.1 8 = slotId cur 8 ∧
         slotId (subVStep st cur u prev).2.1 12 = slotId cur 12) ∧
        (slotId (subVStep st cur u prev).2.2 3 = slotId cur 3 ∧
         slotId (subVStep st cur u prev).2.2 7 = slotId cur 7 ∧
         slotId (subVStep st cur u prev).2.2 11 = slotId cur 11 ∧
         slotId (subVStep st cur u prev).2.2 15 = slotId cur 15) ∧
        SharedVEdge (subVStep st cur u prev).2.1
          (subVStep st cur u prev).2.2 := by
      cases prev with
      | none => exact subVStep_slots_none st cur u
      | some pq =>
        obtain ⟨pl, pr⟩ := pq
        obtain ⟨hsh, hcompat⟩ := hprev pl pr rfl
        obtain ⟨h12, h15⟩ := hcompat (by simp)
        have hs := subVStep_slots_some st cur u pl pr hsh
        refine ⟨⟨?_, hs.1.2.1, hs.1.2.2.1, hs.1.2.2.2⟩,
          ⟨?_, hs.2.1.2.1, hs.2.1.2.2.1, hs.2.1.2.2.2⟩, hs.2.2⟩
        · rw [hs.1.1, h12]
          rfl
        · rw [hs.2.1.1, h15]
          rfl
    have hih := ih (subVStep st cur u prev).1
      (some ((subVStep st cur u prev).2.1, (subVStep st cur u prev).2.2))
      (fun i hi => by
        have := hadj (i + 1) (by simpa using hi)
        simpa using this)
      (fun pl pr hpq => by
        rw [Option.some_inj, Prod.mk.injEq] at hpq
        obtain ⟨h1, h2⟩ := hpq
        subst h1
        subst h2
        refine ⟨hl0r0.2.2, ?_⟩
        intro hlen
        obtain ⟨c1, rest', rfl⟩ : ∃ c1 rest', rest = c1 :: rest' := by
          cases rest with
          | nil => simp at hlen
          | cons a b => exact ⟨a, b, rfl⟩
        have hv := hadj 0 (by simp)
        simp only [List.getD_cons_zero, List.getD_cons_succ] at hv ⊢
        constructor
        · rw [hl0r0.1.2.2.2]
          exact hv.1
        · rw [hl0r0.2.1.2.2.2]
          exact hv.2.2.2)
    constructor
    · intro i hi
      cases i with
      | zero =>
        simp only [subVBuildGo, List.getD_cons_zero]
        exact hl0r0
      | succ i' =>
        simp only [subVBuildGo, List.getD_cons_succ]
        exact hih.1 i' (by simpa using hi)
    · intro i hi
      cases i with
      | zero =>
        obtain ⟨c1, rest', rfl⟩ : ∃ c1 rest', rest = c1 :: rest' := by
          cases rest with
          | nil => simp at hi
          | cons a b => exact ⟨a, b, rfl⟩
        simp only [subVBuildGo, List.getD_cons_zero, List.getD_cons_succ]
        exact subVStep_next (subVStep st cur u prev).1 c1 u _ _
      | succ i' =>
        simp only [subVBuildGo, List.getD_cons_succ]
        exact hih.2 i' (by simpa using hi)

/-- subdivideHorizontal preserves boundary identity sharing, and the
bottom/top pair of each split cell shares the new boundary by reference. -/
theorem subH_edge_sharing (s : PatchState) (ub vb : List ℚ) (v : ℚ) (r : ℕ)
    (hS : StructuredDomains s.grid ub vb) (hE : EdgeSharing s.grid)
    (hr : r < s.grid.rowCount)
    (h1 : vb.getD r 0 < v) (h2 : v < vb.getD (r + 1) 0) :
    EdgeSharing (subdivideHorizontalRun s v).1.grid ∧
    (∀ j < s.grid.colCount, ∀ pB pT,
      cellD (subdivideHorizontalRun s v).1.grid r j = some pB →
      cellD (subdivideHorizontalRun s v).1.grid (r + 1) j = some pT →
      SharedHEdge pB pT) := by
  obtain ⟨hlen, hR, hC, hubl, hvbl, hub0, hub1, hvb0, hvb1, hubadj,
    hvbadj, hcell⟩ := hS
  have hS' : StructuredDomains s.grid ub vb :=
    ⟨hlen, hR, hC, hubl, hvbl, hub0, hub1, hvb0, hvb1, hubadj, hvbadj,
      hcell⟩
  obtain ⟨hEv, hEh⟩ := hE
  have hfull : ∀ m < s.grid.colCount, ∃ cur,
      s.grid.cells.getD (r * s.grid.colCount + m) none = some cur := by
    intro m hm
    obtain ⟨p, hp, -⟩ := structured_cell s.grid ub vb hS' r m hr hm
    exact ⟨p, by simpa [cellD] using hp⟩
  have hfind := findRow_structured s.grid ub vb v r hS' hr h1 h2
  have hrun := subH_run_success s v r hfind hr hlen hfull
  have hgrid : (subdivideHorizontalRun s v).1.grid
      = Grid.mk (s.grid.rowCount + 1) s.grid.colCount
        (s.grid.cells.take (r * s.grid.colCount)
          ++ ((subHBuildGo v s.store none (rowPatches s.grid r)).2.1.map some
            ++ ((subHBuildGo v s.store none (rowPatches s.grid r)).2.2.map some
              ++ s.grid.cells.drop
                ((r + 1) * s.grid.colCount)))) := by
    rw [hrun]
    rfl
  have hrplen : (rowPatches s.grid r).length = s.grid.colCount := by
    simp [rowPatches]
  have hbl : (subHBuildGo v s.store none (rowPatches s.grid r)).2.1.length
      = s.grid.colCount := by
    rw [(subHBuildGo_len v (rowPatches s.grid r) s.store none).1, hrplen]
  have htl : (subHBuildGo v s.store none (rowPatches s.grid r)).2.2.length
      = s.grid.colCount := by
    rw [(subHBuildGo_len v (rowPatches s.grid r) s.store none).2, hrplen]
  have hrowp : ∀ j, j < s.grid.colCount → ∀ p,
      cellD s.grid r j = some p →
      (rowPatches s.grid r).getD j default = p := by
    intro j hj p hp
    unfold rowPatches
    rw [getD_map_range' s.grid.colCount j hj]
    simp only [cellD] at hp
    rw [hp]
    rfl
  have hadj : ∀ j, j + 1 < (rowPatches s.grid r).length →
      SharedVEdge ((rowPatches s.grid r).getD j default)
        ((rowPatches s.grid r).getD (j + 1) default) := by
    intro j hj
    rw [hrplen] at hj
    obtain ⟨p, hp, -⟩ := structured_cell s.grid ub vb hS' r j hr (by omega)
    obtain ⟨q, hq, -⟩ := structured_cell s.grid ub vb hS' r (j + 1) hr
      (by omega)
    rw [hrowp j (by omega) p hp, hrowp (j + 1) (by omega) q hq]
    exact hEh r j hr hj p q hp hq
  have hsh := subHBuildGo_sharing v (rowPatches s.grid r) s.store none hadj
    (fun pb pt h => by simp at h)
  constructor
  · rw [hgrid]
    constructor
    · intro i j hi hj p q hp hq
      have hi' : i + 1 < s.grid.rowCount + 1 := hi
      have hj' : j < s.grid.colCount := hj
      by_cases hc1 : i + 1 < r
      · rw [cellD_subH_above s.grid.rowCount s.grid.colCount r s.grid.cells
          _ _ hr hlen i j (by omega) hj'] at hp
        rw [cellD_subH_above s.grid.rowCount s.grid.colCount r s.grid.cells
          _ _ hr hlen (i + 1) j (by omega) hj'] at hq
        exact hEv i j (by omega) hj' p q hp hq
      · by_cases hc2 : i + 1 = r
        · have hreq : r = i + 1 := hc2.symm
          subst hreq
          rw [cellD_subH_above s.grid.rowCount s.grid.colCount (i + 1)
            s.grid.cells _ _ hr hlen i j (by omega) hj'] at hp
          rw [cellD_subH_bottom s.grid.rowCount s.grid.colCount (i + 1)
            s.grid.cells _ _ hr hlen hbl j hj'] at hq
          have hqe : q = (subHBuildGo v s.store none
              (rowPatches s.grid (i + 1))).2.1.getD j default :=
            (Option.some.inj hq).symm
          subst hqe
          obtain ⟨q', hq', -⟩ := structured_cell s.grid ub vb hS' (i + 1) j
            hr hj'
          have hold : SharedHEdge p q' := hEv i j (by omega) hj' p q' hp hq'
          have hL1 := (hsh.1 j (by omega)).1
          rw [hrowp j hj' q' hq'] at hL1
          exact ⟨by rw [hL1.1]; exact hold.1, by rw [hL1.2.1]; exact hold.2.1,
            by rw [hL1.2.2.1]; exact hold.2.2.1,
            by rw [hL1.2.2.2]; exact hold.2.2.2⟩
        · by_cases hc3 : i = r
          · subst hc3
            rw [cellD_subH_bottom s.grid.rowCount s.grid.colCount i
              s.grid.cells _ _ hr hlen hbl j hj'] at hp
            rw [cellD_subH_top s.grid.rowCount s.grid.colCount i
              s.grid.cells _ _ hr hlen hbl htl j hj'] at hq
            have hpe : p = (subHBuildGo v s.store none
                (rowPatches s.grid i)).2.1.getD j default :=
              (Option.some.inj hp).symm
            have hqe : q = (subHBuildGo v s.store none
                (rowPatches s.grid i)).2.2.getD j default :=
              (Option.some.inj hq).symm
            subst hpe
            subst hqe
            exact (hsh.1 j (by omega)).2.2
          · by_cases hc4 : i = r + 1
            · subst hc4
              rw [cellD_subH_top s.grid.rowCount s.grid.colCount r
                s.grid.cells _ _ hr hlen hbl htl j hj'] at hp
              rw [cellD_subH_below s.grid.rowCount s.grid.colCount r
                s.grid.cells _ _ hr hlen hbl htl (r + 1 + 1) j (by omega)
                hj'] at hq
              have hpe : p = (subHBuildGo v s.store none
                  (rowPatches s.grid r)).2.2.getD j default :=
                (Option.some.inj hp).symm
              subst hpe
              obtain ⟨p', hp', -⟩ := structured_cell s.grid ub vb hS' r j
                hr hj'
              have hq'' : cellD s.grid (r + 1) j = some q := by
                have : r + 1 + 1 - 1 = r + 1 := by omega
                rw [this] at hq
                exact hq
              have hold : SharedHEdge p' q :=
                hEv r j (by omega) hj' p' q hp' hq''
              have hL2 := (hsh.1 j (by omega)).2.1
              rw [hrowp j hj' p' hp'] at hL2
              exact ⟨by rw [hL2.1]; exact hold.1,
                by rw [hL2.2.1]; exact hold.2.1,
                by rw [hL2.2.2.1]; exact hold.2.2.1,
                by rw [hL2.2.2.2]; exact hold.2.2.2⟩
            · have hge : r + 2 ≤ i := by omega
              rw [cellD_subH_below s.grid.rowCount s.grid.colCount r
                s.grid.cells _ _ hr hlen hbl htl i j hge hj'] at hp
              rw [cellD_subH_below s.grid.rowCount s.grid.colCount r
                s.grid.cells _ _ hr hlen hbl htl (i + 1) j (by omega)
                hj'] at hq
              have hq'' : cellD s.grid (i - 1 + 1) j = some q := by
                rw [show i - 1 + 1 = i from by omega]
                have : i + 1 - 1 = i := by omega
                rw [this] at hq
                exact hq
              exact hEv (i - 1) j (by omega) hj' p q hp hq''
    · intro i j hi hj p q hp hq
      have hi' : i < s.grid.rowCount + 1 := hi
      have hj' : j + 1 < s.grid.colCount := hj
      by_cases hc1 : i < r
      · rw [cellD_subH_above s.grid.rowCount s.grid.colCount r s.grid.cells
          _ _ hr hlen i j hc1 (by omega)] at hp
        rw [cellD_subH_above s.grid.rowCount s.grid.colCount r s.grid.cells
          _ _ hr hlen i (j + 1) hc1 hj'] at hq
        exact hEh i j (by omega) hj' p q hp hq
      · by_cases hc2 : i = r
        · subst hc2
          rw [cellD_subH_bottom s.grid.rowCount s.grid.colCount i
            s.grid.cells _ _ hr hlen hbl j (by omega)] at hp
          rw [cellD_subH_bottom s.grid.rowCount s.grid.colCount i
            s.grid.cells _ _ hr hlen hbl (j + 1) hj'] at hq
          have hpe : p = (subHBuildGo v s.store none
              (rowPatches s.grid i)).2.1.getD j default :=
            (Option.some.inj hp).symm
          have hqe : q = (subHBuildGo v s.store none
              (rowPatches s.grid i)).2.1.getD (j + 1) default :=
            (Option.some.inj hq).symm
          subst hpe
          subst hqe
          exact (hsh.2 j (by omega)).1
        · by_cases hc3 : i = r + 1
          · subst hc3
            rw [cellD_subH_top s.grid.rowCount s.grid.colCount r
              s.grid.cells _ _ hr hlen hbl htl j (by omega)] at hp
            rw [cellD_subH_top s.grid.rowCount s.grid.colCount r
              s.grid.cells _ _ hr hlen hbl htl (j + 1) hj'] at hq
            have hpe : p = (subHBuildGo v s.store none
                (rowPatches s.grid r)).2.2.getD j default :=
              (Option.some.inj hp).symm
            have hqe : q = (subHBuildGo v s.store none
                (rowPatches s.grid r)).2.2.getD (j + 1) default :=
              (Option.some.inj hq).symm
            subst hpe
            subst hqe
            exact (hsh.2 j (by omega)).2
          · have hge : r + 2 ≤ i := by omega
            rw [cellD_subH_below s.grid.rowCount s.grid.colCount r
              s.grid.cells _ _ hr hlen hbl htl i j hge (by omega)] at hp
            rw [cellD_subH_below s.grid.rowCount s.grid.colCount r
              s.grid.cells _ _ hr hlen hbl htl i (j + 1) hge hj'] at hq
            exact hEh (i - 1) j (by omega) hj' p q hp hq
  · intro j hj pB pT hpB hpT
    rw [hgrid] at hpB hpT
    rw [cellD_subH_bottom s.grid.rowCount s.grid.colCount r s.grid.cells
      _ _ hr hlen hbl j hj] at hpB
    rw [cellD_subH_top s.grid.rowCount s.grid.colCount r s.grid.cells
      _ _ hr hlen hbl htl j hj] at hpT
    have hpe : pB = (subHBuildGo v s.store none
        (rowPatches s.grid r)).2.1.getD j default :=
      (Option.some.inj hpB).symm
    have hqe : pT = (subHBuildGo v s.store none
        (rowPatches s.grid r)).2.2.getD j default :=
      (Option.some.inj hpT).symm
    subst hpe
    subst hqe
    exact (hsh.1 j (by omega)).2.2

/-- subdivideVertical preserves boundary identity sharing, and the
left/right pair of each split cell shares the new boundary by reference. -/
theorem subV_edge_sharing (s : PatchState) (ub vb : List ℚ) (u : ℚ) (c : ℕ)
    (hS : StructuredDomains s.grid ub vb) (hE : EdgeSharing s.grid)
    (hc : c < s.grid.colCount)
    (h1 : ub.getD c 0 < u) (h2 : u < ub.getD (c + 1) 0) :
    EdgeSharing (subdivideVerticalRun s u).1.grid ∧
    (∀ i < s.grid.rowCount, ∀ pL pR,
      cellD (subdivideVerticalRun s u).1.grid i c = some pL →
      cellD (subdivideVerticalRun s u).1.grid i (c + 1) = some pR →
      SharedVEdge pL pR) := by
  obtain ⟨hlen, hR, hC, hubl, hvbl, hub0, hub1, hvb0, hvb1, hubadj,
    hvbadj, hcell⟩ := hS
  have hS' : StructuredDomains s.grid ub vb :=
    ⟨hlen, hR, hC, hubl, hvbl, hub0, hub1, hvb0, hvb1, hubadj, hvbadj,
      hcell⟩
  obtain ⟨hEv, hEh⟩ := hE
  have hfull : ∀ m < s.grid.rowCount, ∃ cur,
      s.grid.cells.getD (m * s.grid.colCount + c) none = some cur := by
    intro m hm
    obtain ⟨p, hp, -⟩ := structured_cell s.grid ub vb hS' m c hm hc
    exact ⟨p, by simpa [cellD] using hp⟩
  have hfind := findCol_structured s.grid ub vb u c hS' hc h1 h2
  have hrun := subV_run_success s u c hfind hc hlen hfull
  have hgrid : (subdivideVerticalRun s u).1.grid
      = Grid.mk s.grid.rowCount (s.grid.colCount + 1)
        ((List.range s.grid.rowCount).map (fun i =>
          ((List.range s.grid.colCount).map
            (fun j => s.grid.cells.getD (i * s.grid.colCount + j) none)).take c
          ++ some ((subVBuildGo u s.store none
              (colPatches s.grid c)).2.1.getD i default)
            :: some ((subVBuildGo u s.store none
              (colPatches s.grid c)).2.2.getD i default)
            :: ((List.range s.grid.colCount).map
              (fun j => s.grid.cells.getD (i * s.grid.colCount + j) none)).drop
                (c + 1))).flatten := by
    rw [hrun]
    rfl
  have hcplen : (colPatches s.grid c).length = s.grid.rowCount := by
    simp [colPatches]
  have hcolp : ∀ i, i < s.grid.rowCount → ∀ p,
      cellD s.grid i c = some p →
      (colPatches s.grid c).getD i default = p := by
    intro i hi p hp
    unfold colPatches
    rw [getD_map_range' s.grid.rowCount i hi]
    simp only [cellD] at hp
    rw [hp]
    rfl
  have hrowlen : ∀ i, ((List.range s.grid.colCount).map
      (fun j => s.grid.cells.getD (i * s.grid.colCount + j) none)).length
      = s.grid.colCount := by
    intro i
    simp
  have hadj : ∀ i, i + 1 < (colPatches s.grid c).length →
      SharedHEdge ((colPatches s.grid c).getD i default)
        ((colPatches s.grid c).getD (i + 1) default) := by
    intro i hi
    rw [hcplen] at hi
    obtain ⟨p, hp, -⟩ := structured_cell s.grid ub vb hS' i c (by omega) hc
    obtain ⟨q, hq, -⟩ := structured_cell s.grid ub vb hS' (i + 1) c
      (by omega) hc
    rw [hcolp i (by omega) p hp, hcolp (i + 1) (by omega) q hq]
    exact hEv i c hi hc p q hp hq
  have hsh := subVBuildGo_sharing u (colPatches s.grid c) s.store none hadj
    (fun pl pr h => by simp at h)
  constructor
  · rw [hgrid]
    constructor
    · intro i j hi hj p q hp hq
      have hi' : i + 1 < s.grid.rowCount := hi
      have hj' : j < s.grid.colCount + 1 := hj
      rw [cellD_subV s.grid.rowCount s.grid.colCount c s.grid.cells _ _ hc
        i j (by omega) hj'] at hp
      rw [cellD_subV s.grid.rowCount s.grid.colCount c s.grid.cells _ _ hc
        (i + 1) j (by omega) hj'] at hq
      by_cases hc1 : j < c
      · rw [rowV_getD_before s.grid.colCount c _ (hrowlen i) hc _ _ j hc1,
          getD_map_range s.grid.colCount j (by omega)] at hp
        rw [rowV_getD_before s.grid.colCount c _ (hrowlen (i + 1)) hc _ _
          j hc1, getD_map_range s.grid.colCount j (by omega)] at hq
        exact hEv i j hi' (by omega) p q hp hq
      · by_cases hc2 : j = c
        · subst hc2
          rw [rowV_getD_left s.grid.colCount j _ (hrowlen i) hc _ _] at hp
          rw [rowV_getD_left s.grid.colCount j _ (hrowlen (i + 1)) hc _ _]
            at hq
          have hpe : p = (subVBuildGo u s.store none
              (colPatches s.grid j)).2.1.getD i default :=
            (Option.some.inj hp).symm
          have hqe : q = (subVBuildGo u s.store none
              (colPatches s.grid j)).2.1.getD (i + 1) default :=
            (Option.some.inj hq).symm
          subst hpe
          subst hqe
          exact (hsh.2 i (by omega)).1
        · by_cases hc3 : j = c + 1
          · subst hc3
            rw [rowV_getD_right s.grid.colCount c _ (hrowlen i) hc _ _] at hp
            rw [rowV_getD_right s.grid.colCount c _ (hrowlen (i + 1)) hc _ _]
              at hq
            have hpe : p = (subVBuildGo u s.store none
                (colPatches s.grid c)).2.2.getD i default :=
              (Option.some.inj hp).symm
            have hqe : q = (subVBuildGo u s.store none
                (colPatches s.grid c)).2.2.getD (i + 1) default :=
              (Option.some.inj hq).symm
            subst hpe
            subst hqe
            exact (hsh.2 i (by omega)).2
          · have hge : c + 2 ≤ j := by omega
            rw [rowV_getD_after s.grid.colCount c _ (hrowlen i) hc _ _ j hge,
              getD_map_range s.grid.colCount (j - 1) (by omega)] at hp
            rw [rowV_getD_after s.grid.colCount c _ (hrowlen (i + 1)) hc _ _
              j hge, getD_map_range s.grid.colCount (j - 1) (by omega)] at hq
            exact hEv i (j - 1) hi' (by omega) p q hp hq
    · intro i j hi hj p q hp hq
      have hi' : i < s.grid.rowCount := hi
      have hj' : j + 1 < s.grid.colCount + 1 := hj
      rw [cellD_subV s.grid.rowCount s.grid.colCount c s.grid.cells _ _ hc
        i j hi' (by omega)] at hp
      rw [cellD_subV s.grid.rowCount s.grid.colCount c s.grid.cells _ _ hc
        i (j + 1) hi' hj'] at hq
      by_cases hc1 : j + 1 < c
      · rw [rowV_getD_before s.grid.colCount c _ (hrowlen i) hc _ _ j
          (by omega), getD_map_range s.grid.colCount j (by omega)] at hp
        rw [rowV_getD_before s.grid.colCount c _ (hrowlen i) hc _ _ (j + 1)
          hc1, getD_map_range s.grid.colCount (j + 1) (by omega)] at hq
        exact hEh i j hi' (by omega) p q hp hq
      · by_cases hc2 : j + 1 = c
        · rw [rowV_getD_before s.grid.colCount c _ (hrowlen i) hc _ _ j
            (by omega), getD_map_range s.grid.colCount j (by omega)] at hp
          have hceq : c = j + 1 := hc2.symm
          subst hceq
          rw [rowV_getD_left s.grid.colCount (j + 1) _ (hrowlen i)
            (by omega) _ _] at hq
          have hqe : q = (subVBuildGo u s.store none
              (colPatches s.grid (j + 1))).2.1.getD i default :=
            (Option.some.inj hq).symm
          subst hqe
          obtain ⟨q', hq', -⟩ := structured_cell s.grid ub vb hS' i (j + 1)
            hi' (by omega)
          have hold : SharedVEdge p q' := hEh i j hi' (by omega) p q' hp hq'
          have hM1 := (hsh.1 i (by omega)).1
          rw [hcolp i hi' q' hq'] at hM1
          exact ⟨by rw [hM1.1]; exact hold.1, by rw [hM1.2.1]; exact hold.2.1,
            by rw [hM1.2.2.1]; exact hold.2.2.1,
            by rw [hM1.2.2.2]; exact hold.2.2.2⟩
        · by_cases hc3 : j = c
          · subst hc3
            rw [rowV_getD_left s.grid.colCount j _ (hrowlen i) hc _ _] at hp
            rw [rowV_getD_right s.grid.colCount j _ (hrowlen i) hc _ _] at hq
            have hpe : p = (subVBuildGo u s.store none
                (colPatches s.grid j)).2.1.getD i default :=
              (Option.some.inj hp).symm
            have hqe : q = (subVBuildGo u s.store none
                (colPatches s.grid j)).2.2.getD i default :=
              (Option.some.inj hq).symm
            subst hpe
            subst hqe
            exact (hsh.1 i (by omega)).2.2
          · by_cases hc4 : j = c + 1
            · subst hc4
              rw [rowV_getD_right s.grid.colCount c _ (hrowlen i) hc _ _]
                at hp
              rw [rowV_getD_after s.grid.colCount c _ (hrowlen i) hc _ _
                (c + 1 + 1) (by omega),
                getD_map_range s.grid.colCount (c + 1 + 1 - 1) (by omega)]
                at hq
              have hpe : p = (subVBuildGo u s.store none
                  (colPatches s.grid c)).2.2.getD i default :=
                (Option.some.inj hp).symm
              subst hpe
              obtain ⟨p', hp', -⟩ := structured_cell s.grid ub vb hS' i c
                hi' hc
              have hq'' : cellD s.grid i (c + 1) = some q := by
                have : c + 1 + 1 - 1 = c + 1 := by omega
                rw [this] at hq
                exact hq
              have hold : SharedVEdge p' q :=
                hEh i c hi' (by omega) p' q hp' hq''
              have hM2 := (hsh.1 i (by omega)).2.1
              rw [hcolp i hi' p' hp'] at hM2
              exact ⟨by rw [hM2.1]; exact hold.1,
                by rw [hM2.2.1]; exact hold.2.1,
                by rw [hM2.2.2.1]; exact hold.2.2.1,
                by rw [hM2.2.2.2]; exact hold.2.2.2⟩
            · have hge : c + 2 ≤ j := by omega
              rw [rowV_getD_after s.grid.colCount c _ (hrowlen i) hc _ _ j
                hge, getD_map_range s.grid.colCount (j - 1) (by omega)] at hp
              rw [rowV_getD_after s.grid.colCount c _ (hrowlen i) hc _ _
                (j + 1) (by omega),
                getD_map_range s.grid.colCount (j + 1 - 1) (by omega)] at hq
              have hq'' : cellD s.grid i (j - 1 + 1) = some q := by
                rw [show j - 1 + 1 = j from by omega]
                have : j + 1 - 1 = j := by omega
                rw [this] at hq
                exact hq
              exact hEh i (j - 1) hi' (by omega) p q hp hq''
  · intro i hi pL pR hpL hpR
    rw [hgrid] at hpL hpR
    rw [cellD_subV s.grid.rowCount s.grid.colCount c s.grid.cells _ _ hc
      i c hi (by omega),
      rowV_getD_left s.grid.colCount c _ (hrowlen i) hc _ _] at hpL
    rw [cellD_subV s.grid.rowCount s.grid.colCount c s.grid.cells _ _ hc
      i (c + 1) hi (by omega),
      rowV_getD_right s.grid.colCount c _ (hrowlen i) hc _ _] at hpR
    have hpe : pL = (subVBuildGo u s.store none
        (colPatches s.grid c)).2.1.getD i default :=
      (Option.some.inj hpL).symm
    have hqe : pR = (subVBuildGo u s.store none
        (colPatches s.grid c)).2.2.getD i default :=
      (Option.some.inj hpR).symm
    subst hpe
    subst hqe
    exact (hsh.1 i (by omega)).2.2

/-- Claim C5.  Boundary identity-sharing invariant: after initFromCorners
(one cell, so adjacency is vacuous) and after every subdivideHorizontal or
subdivideVertical on a structured composite Patch with the sharing
invariant, any two grid-adjacent cells reference the same ControlPoint
objects (the same arena ids, i.e. the same object identity) at their four
shared boundary slots; in particular the bottom/top (left/right) pair
produced by a split shares the new boundary's four points by reference, and
each later-built pair takes its left (bottom) edge by reference from the
previously built neighbor of the same pass — that is what makes the
consecutive new cells of the inserted rows (columns) share their edges. -/
theorem claim5_boundary_identity_sharing :
    (∀ tl tr bl br : V3, EdgeSharing (initFromCorners tl tr bl br).grid) ∧
    (∀ (s : PatchState) (ub vb : List ℚ) (v : ℚ) (r : ℕ),
      StructuredDomains s.grid ub vb → EdgeSharing s.grid →
      r < s.grid.rowCount → vb.getD r 0 < v → v < vb.getD (r + 1) 0 →
      EdgeSharing (subdivideHorizontalRun s v).1.grid ∧
      (∀ j < s.grid.colCount, ∀ pB pT,
        cellD (subdivideHorizontalRun s v).1.grid r j = some pB →
        cellD (subdivideHorizontalRun s v).1.grid (r + 1) j = some pT →
        SharedHEdge pB pT)) ∧
    (∀ (s : PatchState) (ub vb : List ℚ) (u : ℚ) (c : ℕ),
      StructuredDomains s.grid ub vb → EdgeSharing s.grid →
      c < s.grid.colCount → ub.getD c 0 < u → u < ub.getD (c + 1) 0 →
      EdgeSharing (subdivideVerticalRun s u).1.grid ∧
      (∀ i < s.grid.rowCount, ∀ pL pR,
        cellD (subdivideVerticalRun s u).1.grid i c = some pL →
        cellD (subdivideVerticalRun s u).1.grid i (c + 1) = some pR →
        SharedVEdge pL pR)) := by
  refine ⟨?_,
    fun s ub vb v r hS hE hr h1 h2 =>
      subH_edge_sharing s ub vb v r hS hE hr h1 h2,
    fun s ub vb u c hS hE hc h1 h2 =>
      subV_edge_sharing s ub vb u c hS hE hc h1 h2⟩
  intro tl tr bl br
  constructor
  · intro i j hi hj
    have hi' : i + 1 < 1 := hi
    omega
  · intro i j hi hj
    have hj' : j + 1 < 1 := hj
    omega

/-- Witness for claim C5: the corner initialization and both split
directions at 1/2 on the one-cell sample state. -/
theorem claim5_witness :
    EdgeSharing (initFromCorners ⟨0, 0, 0⟩ ⟨1, 0, 0⟩ ⟨0, 1, 0⟩
      ⟨1, 1, 0⟩).grid ∧
    (StructuredDomains sampleState.grid [0, 1] [0, 1] ∧
      EdgeSharing sampleState.grid) ∧
    EdgeSharing (subdivideHorizontalRun sampleState (1/2)).1.grid ∧
    EdgeSharing (subdivideVerticalRun sampleState (1/2)).1.grid := by
  have hS : StructuredDomains sampleState.grid [0, 1] [0, 1] := by
    unfold StructuredDomains
    decide
  have hE : EdgeSharing sampleState.grid := by
    constructor
    · intro i j hi hj
      have hi' : i + 1 < 1 := hi
      omega
    · intro i j hi hj
      have hj' : j + 1 < 1 := hj
      omega
  have h0 := claim5_boundary_identity_sharing.1 ⟨0, 0, 0⟩ ⟨1, 0, 0⟩
    ⟨0, 1, 0⟩ ⟨1, 1, 0⟩
  have hH := claim5_boundary_identity_sharing.2.1 sampleState [0, 1] [0, 1]
    (1/2) 0 hS hE (by decide)
    (by norm_num [List.getD_cons_zero])
    (by norm_num [List.getD_cons_succ, List.getD_cons_zero])
  have hV := claim5_boundary_identity_sharing.2.2 sampleState [0, 1] [0, 1]
    (1/2) 0 hS hE (by decide)
    (by norm_num [List.getD_cons_zero])
    (by norm_num [List.getD_cons_succ, List.getD_cons_zero])
  exact ⟨h0, ⟨hS, hE⟩, hH.1, hV.1⟩

/-- getD of an in-range index is a member. -/
theorem getD_mem {α : Type} (l : List α) (n : ℕ) (h : n < l.length) (d : α) :
    l.getD n d ∈ l := by
  rw [List.getD_eq_getElem?_getD, List.getElem?_eq_getElem h]
  exact List.getElem_mem h

/-- getD through a map, in range. -/
theorem getD_map_lt {α β : Type} (l : List α) (f : α → β) (m : ℕ)
    (h : m < l.length) (d : α) (d' : β) :
    (l.map f).getD m d' = f (l.getD m d) := by
  rw [List.getD_eq_getElem?_getD, List.getD_eq_getElem?_getD,
    List.getElem?_map, List.getElem?_eq_getElem h]
  rfl

/-- A list of present options is the map of some over its filterMap. -/
theorem eq_filterMap_map_some (l : List (Option BezierPatch3))
    (h : ∀ c ∈ l, c.isSome) : l = (l.filterMap id).map some := by
  induction l with
  | nil => rfl
  | cons c rest ih =>
    cases c with
    | none => have := h none (by simp); simp at this
    | some p =>
      simp only [List.filterMap_cons]
      rw [show (id (some p) : Option BezierPatch3) = some p from rfl]
      simp only [List.map_cons]
      rw [← ih (fun c hc => h c (by simp [hc]))]

/-- Reading an arena built from a list. -/
theorem getCP_mk (l : List CPoint) (i : ℕ) :
    getCP (Array.mk l) i = l.getD i default := by
  unfold getCP Array.getD
  split
  · rename_i h
    rw [List.getD_eq_getElem?_getD,
      List.getElem?_eq_getElem (by simpa using h)]
    rfl
  · rename_i h
    rw [List.getD_eq_getElem?_getD, List.getElem?_eq_none (by simpa using h)]
    rfl

/-- The last-occurrence behaviour of the reference-assigning fold of save:
an id not in the list keeps its initial value; an id in the list is sent to
an index of the list where it occurs (its last occurrence). -/
theorem refFold_spec (L : List ℕ) : ∀ (n : ℕ) (f0 : ℕ → ℕ) (id' : ℕ),
    (id' ∉ L → (List.enumFrom n L).foldl
      (fun f ki => Function.update f ki.2 ki.1) f0 id' = f0 id') ∧
    (id' ∈ L → ∃ k, k < L.length ∧
      (List.enumFrom n L).foldl
        (fun f ki => Function.update f ki.2 ki.1) f0 id' = n + k ∧
      L.getD k 0 = id') := by
  induction L with
  | nil =>
    intro n f0 id'
    exact ⟨fun _ => rfl, fun h => by simp at h⟩
  | cons a rest ih =>
    intro n f0 id'
    constructor
    · intro hnm
      have hne : id' ≠ a := fun h => hnm (by simp [h])
      have hnr : id' ∉ rest := fun h => hnm (by simp [h])
      exact ((ih (n + 1) (Function.update f0 a n) id').1 hnr).trans
        (by rw [Function.update_noteq hne])
    · intro hm
      by_cases hr : id' ∈ rest
      · obtain ⟨k, hk, hf, hg⟩ :=
          (ih (n + 1) (Function.update f0 a n) id').2 hr
        exact ⟨k + 1, by simpa using hk, hf.trans (by omega),
          by simpa using hg⟩
      · have hea : id' = a := by
          rcases List.mem_cons.mp hm with h | h
          · exact h
          · exact absurd h hr
        refine ⟨0, by simp, ?_, by simp [hea]⟩
        exact ((ih (n + 1) (Function.update f0 a n) id').1 hr).trans
          (by rw [hea, Function.update_same]; omega)


/-- The save reference of an id occurring in the traversal points back to
an occurrence of that id. -/
theorem refFun_spec (g : Grid) (id' : ℕ) (h : id' ∈ patchSlotIdList g) :
    refFun g id' < (patchSlotIdList g).length ∧
    (patchSlotIdList g).getD (refFun g id') 0 = id' := by
  obtain ⟨k, hk, hf, hg⟩ :=
    (refFold_spec (patchSlotIdList g) 0 (fun _ => 0) id').2 h
  unfold refFun
  have he : (patchSlotIdList g).enum
      = List.enumFrom 0 (patchSlotIdList g) := rfl
  rw [he, hf, Nat.zero_add]
  exact ⟨hk, hg⟩

/-- The save reference assignment is injective on ids that occur in the
traversal: distinct point objects get distinct serialized records. -/
theorem refFun_inj (g : Grid) (id1 id2 : ℕ)
    (h1 : id1 ∈ patchSlotIdList g) (h2 : id2 ∈ patchSlotIdList g)
    (he : refFun g id1 = refFun g id2) : id1 = id2 := by
  have s1 := (refFun_spec g id1 h1).2
  have s2 := (refFun_spec g id2 h2).2
  rw [← s1, ← s2, he]

/-- The grid-placing fold of restore in terms of the flat cell list. -/
theorem restoreFoldGrid (C0 : ℕ) :
    ∀ (l : List (ℕ × SavedPatch)) (g : Grid),
    (l.foldl (fun g' ipd => Grid.set g' (ipd.1 / C0) (ipd.1 % C0)
        ⟨ipd.2.domain, ipd.2.controlPoints⟩) g).rowCount = g.rowCount ∧
    (l.foldl (fun g' ipd => Grid.set g' (ipd.1 / C0) (ipd.1 % C0)
        ⟨ipd.2.domain, ipd.2.controlPoints⟩) g).colCount = g.colCount ∧
    (l.foldl (fun g' ipd => Grid.set g' (ipd.1 / C0) (ipd.1 % C0)
        ⟨ipd.2.domain, ipd.2.controlPoints⟩) g).cells
      = l.foldl (fun cs ipd => cs.set (ipd.1 / C0 * g.colCount + ipd.1 % C0)
          (some ⟨ipd.2.domain, ipd.2.controlPoints⟩)) g.cells := by
  intro l
  induction l with
  | nil => intro g; exact ⟨rfl, rfl, rfl⟩
  | cons ipd rest ih =>
    intro g
    obtain ⟨h1, h2, h3⟩ := ih (Grid.set g (ipd.1 / C0) (ipd.1 % C0)
      ⟨ipd.2.domain, ipd.2.controlPoints⟩)
    refine ⟨?_, ?_, ?_⟩
    · rw [List.foldl_cons, h1]; rfl
    · rw [List.foldl_cons, h2]; rfl
    · rw [List.foldl_cons, h3, List.foldl_cons]
      rfl

/-- Writing the patches one after the other over a null-initialized cell
list fills it in order. -/
theorem setSeq (T : SavedPatch → Option BezierPatch3) :
    ∀ (P : List SavedPatch) (n : ℕ) (A B : List (Option BezierPatch3)),
    A.length = n → B.length = P.length →
    (List.enumFrom n P).foldl (fun cs ipd => cs.set ipd.1 (T ipd.2)) (A ++ B)
      = A ++ P.map T := by
  intro P
  induction P with
  | nil =>
    intro n A B hA hB
    have : B = [] := List.length_eq_zero.mp (by simpa using hB)
    simp [this]
  | cons pd P' ih =>
    intro n A B hA hB
    obtain ⟨b, B', rfl⟩ : ∃ b B', B = b :: B' := by
      cases B with
      | nil => simp at hB
      | cons x y => exact ⟨x, y, rfl⟩
    rw [show List.enumFrom n (pd :: P') = (n, pd) :: List.enumFrom (n + 1) P'
      from rfl, List.foldl_cons]
    have hset : (A ++ b :: B').set n (T pd) = A ++ T pd :: B' := by
      have h := set_append_add A (b :: B') 0 (T pd)
      rw [Nat.add_zero, hA] at h
      rw [h]
      rfl
    rw [hset, show A ++ T pd :: B' = (A ++ [T pd]) ++ B' from by simp,
      ih (n + 1) (A ++ [T pd]) B' (by simp [hA]) (by simpa using hB)]
    simp

/-- The grid produced by restore: the declared row and column counts over
the serialized patches in row-major order. -/
theorem restore_grid (data : SavedInstance)
    (hlen : data.patches.length = data.rows * data.cols) :
    (restoreState data).grid
      = Grid.mk data.rows data.cols
          (data.patches.map
            (fun pd => some ⟨pd.domain, pd.controlPoints⟩)) := by
  show data.patches.enum.foldl
      (fun g ipd => Grid.set g (ipd.1 / data.cols) (ipd.1 % data.cols)
        ⟨ipd.2.domain, ipd.2.controlPoints⟩)
      (Grid.mk data.rows data.cols
        (List.replicate (data.rows * data.cols) none)) = _
  obtain ⟨h1, h2, h3⟩ := restoreFoldGrid data.cols data.patches.enum
    (Grid.mk data.rows data.cols
      (List.replicate (data.rows * data.cols) none))
  have heta : data.patches.enum.foldl
      (fun g ipd => Grid.set g (ipd.1 / data.cols) (ipd.1 % data.cols)
        ⟨ipd.2.domain, ipd.2.controlPoints⟩)
      (Grid.mk data.rows data.cols
        (List.replicate (data.rows * data.cols) none))
      = Grid.mk (data.patches.enum.foldl
          (fun g ipd => Grid.set g (ipd.1 / data.cols) (ipd.1 % data.cols)
            ⟨ipd.2.domain, ipd.2.controlPoints⟩)
          (Grid.mk data.rows data.cols
            (List.replicate (data.rows * data.cols) none))).rowCount
        (data.patches.enum.foldl
          (fun g ipd => Grid.set g (ipd.1 / data.cols) (ipd.1 % data.cols)
            ⟨ipd.2.domain, ipd.2.controlPoints⟩)
          (Grid.mk data.rows data.cols
            (List.replicate (data.rows * data.cols) none))).colCount
        (data.patches.enum.foldl
          (fun g ipd => Grid.set g (ipd.1 / data.cols) (ipd.1 % data.cols)
            ⟨ipd.2.domain, ipd.2.controlPoints⟩)
          (Grid.mk data.rows data.cols
            (List.replicate (data.rows * data.cols) none))).cells := rfl
  rw [heta, h1, h2, h3]
  dsimp only
  congr 1
  rw [foldl_fun_congr _ _
    (fun cs ipd => cs.set ipd.1
      (some ⟨ipd.2.domain, ipd.2.controlPoints⟩))
    (fun cs ipd => by
      rw [show ipd.1 / data.cols * data.cols + ipd.1 % data.cols = ipd.1 from by
        rw [Nat.mul_comm]
        exact Nat.div_add_mod _ _])]
  have hseq := setSeq (fun pd => some ⟨pd.domain, pd.controlPoints⟩)
    data.patches 0 [] (List.replicate (data.rows * data.cols) none) rfl
    (by simp [hlen])
  simpa using hseq

/-- applySetMir preserves the arena size. -/
theorem applySetMir_size (st : Store) (p o r : ℕ) :
    (applySetMir st p o r).size = st.size := size_updCP st p _

/-- One restore step preserves the arena size. -/
theorem restoreStep_size (st : Store) (iq : ℕ × SavedPoint) :
    (restoreStep st iq).size = st.size := by
  obtain ⟨i, q⟩ := iq
  unfold restoreStep
  cases hm : q.mirrorPoint with
  | none =>
    simp only [hm]
    exact applyAddChildren_size st i q.children
  | some o =>
    simp only [hm]
    rw [applySetMir_size, applyAddChildren_size]

/-- One restore step never moves a point's position. -/
theorem restoreStep_pos (st : Store) (iq : ℕ × SavedPoint) (k : ℕ) :
    (getCP (restoreStep st iq) k).pos = (getCP st k).pos := by
  obtain ⟨i, q⟩ := iq
  unfold restoreStep
  cases hm : q.mirrorPoint with
  | none =>
    simp only [hm]
    exact (getCP_applyAddChildren_pos_mir st i q.children k).1
  | some o =>
    simp only [hm]
    rw [getCP_applySetMir]
    split
    · rename_i hc
      rw [hc.1]
      exact (getCP_applyAddChildren_pos_mir st i q.children i).1
    · exact (getCP_applyAddChildren_pos_mir st i q.children k).1

/-- One restore step writes no mirror link at any other index. -/
theorem restoreStep_mir_ne (st : Store) (iq : ℕ × SavedPoint) (k : ℕ)
    (hk : k ≠ iq.1) :
    (getCP (restoreStep st iq) k).mirrorPoint
      = (getCP st k).mirrorPoint := by
  obtain ⟨i, q⟩ := iq
  unfold restoreStep
  cases hm : q.mirrorPoint with
  | none =>
    simp only [hm]
    exact (getCP_applyAddChildren_pos_mir st i q.children k).2
  | some o =>
    simp only [hm]
    rw [getCP_applySetMir]
    split
    · rename_i hc
      exact absurd hc.1 hk
    · exact (getCP_applyAddChildren_pos_mir st i q.children k).2

/-- One restore step installs exactly the serialized mirror record at its own
index. -/
theorem restoreStep_mir_self (st : Store) (iq : ℕ × SavedPoint)
    (h : iq.1 < st.size) :
    (getCP (restoreStep st iq) iq.1).mirrorPoint
      = match iq.2.mirrorPoint with
        | some o => some o
        | none => (getCP st iq.1).mirrorPoint := by
  obtain ⟨i, q⟩ := iq
  unfold restoreStep
  cases hm : q.mirrorPoint with
  | none =>
    simp only [hm]
    exact (getCP_applyAddChildren_pos_mir st i q.children i).2
  | some o =>
    simp only [hm]
    rw [getCP_applySetMir,
      if_pos ⟨rfl, by rw [applyAddChildren_size]; exact h⟩]

/-- The restore fold preserves the arena size. -/
theorem restoreFold_size (P : List (ℕ × SavedPoint)) : ∀ st : Store,
    (P.foldl restoreStep st).size = st.size := by
  induction P with
  | nil => intro st; rfl
  | cons iq rest ih =>
    intro st
    rw [List.foldl_cons, ih, restoreStep_size]

/-- The restore fold never moves positions. -/
theorem restoreFold_pos (P : List (ℕ × SavedPoint)) : ∀ (st : Store) (k : ℕ),
    (getCP (P.foldl restoreStep st) k).pos = (getCP st k).pos := by
  induction P with
  | nil => intro st k; rfl
  | cons iq rest ih =>
    intro st k
    rw [List.foldl_cons, ih, restoreStep_pos]

/-- The restore fold over indices from n on leaves mirror links below n
untouched. -/
theorem restoreFold_mir_lt (L : List SavedPoint) :
    ∀ (n : ℕ) (st : Store) (k : ℕ), k < n →
    (getCP ((List.enumFrom n L).foldl restoreStep st) k).mirrorPoint
      = (getCP st k).mirrorPoint := by
  induction L with
  | nil => intro n st k _; rfl
  | cons q L' ih =>
    intro n st k hk
    rw [show List.enumFrom n (q :: L')
        = (n, q) :: List.enumFrom (n + 1) L' from rfl,
      List.foldl_cons, ih (n + 1) _ k (by omega),
      restoreStep_mir_ne st (n, q) k (by show k ≠ n; omega)]

/-- The mirror link at index n + j after the restore fold is the serialized
record of the j-th point when present. -/
theorem restoreFold_mir (L : List SavedPoint) :
    ∀ (n : ℕ) (st : Store) (j : ℕ), j < L.length → n + j < st.size →
    (getCP ((List.enumFrom n L).foldl restoreStep st) (n + j)).mirrorPoint
      = match (L.getD j default).mirrorPoint with
        | some o => some o
        | none => (getCP st (n + j)).mirrorPoint := by
  induction L with
  | nil => intro n st j hj _; simp at hj
  | cons q L' ih =>
    intro n st j hj hsize
    rw [show List.enumFrom n (q :: L')
        = (n, q) :: List.enumFrom (n + 1) L' from rfl,
      List.foldl_cons]
    cases j with
    | zero =>
      show (getCP (List.foldl restoreStep (restoreStep st (n, q))
          (List.enumFrom (n + 1) L')) n).mirrorPoint
        = match q.mirrorPoint with
          | some o => some o
          | none => (getCP st n).mirrorPoint
      rw [restoreFold_mir_lt L' (n + 1) _ n (by omega)]
      exact restoreStep_mir_self st (n, q) (by show n < st.size; omega)
    | succ j' =>
      show (getCP (List.foldl restoreStep (restoreStep st (n, q))
          (List.enumFrom (n + 1) L')) (n + (j' + 1))).mirrorPoint
        = match ((q :: L').getD (j' + 1) default).mirrorPoint with
          | some o => some o
          | none => (getCP st (n + (j' + 1))).mirrorPoint
      rw [show n + (j' + 1) = n + 1 + j' from by omega, List.getD_cons_succ]
      have hih := ih (n + 1) (restoreStep st (n, q)) j'
        (by simp only [List.length_cons] at hj; omega)
        (by rw [restoreStep_size]; omega)
      rw [hih]
      cases hm : (L'.getD j' default).mirrorPoint with
      | some o => simp only [hm]
      | none =>
        simp only [hm]
        exact restoreStep_mir_ne st (n, q) _ (by show n + 1 + j' ≠ n; omega)

/-- The arena built by restore, as the fold of restoreStep. -/
theorem restoreState_store (data : SavedInstance) :
    (restoreState data).store
      = data.controlPoints.enum.foldl restoreStep
          (Array.mk (data.controlPoints.map (fun q => freshCP q.pos))) := rfl

/-- The arena built by restore has one point per serialized record. -/
theorem restore_store_size (data : SavedInstance) :
    (restoreState data).store.size = data.controlPoints.length := by
  rw [restoreState_store, restoreFold_size, Array.size_mk, List.length_map]

/-- The position of each restored point is the serialized position. -/
theorem restore_store_pos (data : SavedInstance) (j : ℕ)
    (hj : j < data.controlPoints.length) :
    valAt (restoreState data).store j
      = (data.controlPoints.getD j default).pos := by
  rw [restoreState_store]
  unfold valAt
  rw [restoreFold_pos, getCP_mk,
    getD_map_lt data.controlPoints (fun q => freshCP q.pos) j hj
      default default]
  rfl

/-- The mirror link of each restored point is the serialized mirror record. -/
theorem restore_store_mir (data : SavedInstance) (j : ℕ)
    (hj : j < data.controlPoints.length) :
    (getCP (restoreState data).store j).mirrorPoint
      = (data.controlPoints.getD j default).mirrorPoint := by
  rw [restoreState_store,
    show data.controlPoints.enum
      = List.enumFrom 0 data.controlPoints from rfl]
  have h := restoreFold_mir data.controlPoints 0
    (Array.mk (data.controlPoints.map (fun q => freshCP q.pos))) j hj
    (by rw [Array.size_mk, List.length_map]; omega)
  rw [show (0 : ℕ) + j = j from by omega] at h
  rw [h]
  cases hm : (data.controlPoints.getD j default).mirrorPoint with
  | some o => simp only [hm]
  | none =>
    simp only [hm]
    rw [getCP_mk,
      getD_map_lt data.controlPoints (fun q => freshCP q.pos) j hj
        default default]
    rfl

/-- The serialized control points of save, written out. -/
theorem restore_save_cps (s : PatchState) :
    (saveState s).controlPoints
      = (patchSlotIdList s.grid).map (fun id =>
          SavedPoint.mk (getCP s.store id).pos
            ((getCP s.store id).children.map (refFun s.grid))
            ((getCP s.store id).mirrorPoint.map
              (fun o => (refFun s.grid o.1, refFun s.grid o.2)))) := rfl

/-- Round trip of a point position: the restored point at a live id's
reference index carries the original position. -/
theorem restore_save_pos (s : PatchState) (id : ℕ)
    (hid : id ∈ patchSlotIdList s.grid) :
    valAt (restoreState (saveState s)).store (refFun s.grid id)
      = valAt s.store id := by
  obtain ⟨hlt, hget⟩ := refFun_spec s.grid id hid
  have hlen : (saveState s).controlPoints.length
      = (patchSlotIdList s.grid).length := by
    rw [restore_save_cps, List.length_map]
  rw [restore_store_pos (saveState s) (refFun s.grid id)
    (by rw [hlen]; exact hlt)]
  rw [restore_save_cps,
    getD_map_lt (patchSlotIdList s.grid) _ (refFun s.grid id) hlt 0 default,
    hget]
  rfl

/-- Round trip of a mirror link: the restored point at a live id's reference
index carries the original mirror link transported through the reference
assignment. -/
theorem restore_save_mir (s : PatchState) (id : ℕ)
    (hid : id ∈ patchSlotIdList s.grid) :
    (getCP (restoreState (saveState s)).store (refFun s.grid id)).mirrorPoint
      = (getCP s.store id).mirrorPoint.map
          (fun o => (refFun s.grid o.1, refFun s.grid o.2)) := by
  obtain ⟨hlt, hget⟩ := refFun_spec s.grid id hid
  have hlen : (saveState s).controlPoints.length
      = (patchSlotIdList s.grid).length := by
    rw [restore_save_cps, List.length_map]
  rw [restore_store_mir (saveState s) (refFun s.grid id)
    (by rw [hlen]; exact hlt)]
  rw [restore_save_cps,
    getD_map_lt (patchSlotIdList s.grid) _ (refFun s.grid id) hlt 0 default,
    hget]

/-- Each slot id of a present cell is a live slot id of the grid. -/
theorem slotId_mem_of_mem (g : Grid) (cur : BezierPatch3)
    (hc : some cur ∈ g.cells) (hlen : cur.controlPoints.length = 16)
    (k : ℕ) (hk : k < 16) : slotId cur k ∈ patchSlotIdList g := by
  have h1 : slotId cur k ∈ cur.controlPoints := by
    unfold slotId
    exact getD_mem cur.controlPoints k (by omega) 0
  exact List.mem_flatten.mpr ⟨cur.controlPoints,
    List.mem_map.mpr ⟨some cur, hc, rfl⟩, h1⟩

/-- The grid after a save/restore round trip: same counts, every cell
rewritten to reference indices, Domains untouched. -/
theorem restore_save_grid (s : PatchState)
    (hsome : ∀ c ∈ s.grid.cells, c.isSome)
    (hcount : s.grid.cells.length = s.grid.rowCount * s.grid.colCount) :
    (restoreState (saveState s)).grid
      = Grid.mk s.grid.rowCount s.grid.colCount
          (s.grid.cells.map (Option.map (fun p =>
            (⟨p.domain, p.controlPoints.map (refFun s.grid)⟩
              : BezierPatch3)))) := by
  have hflt : s.grid.cells = (s.grid.cells.filterMap id).map some :=
    eq_filterMap_map_some s.grid.cells hsome
  have hpat : (saveState s).patches
      = (s.grid.cells.filterMap id).map (fun p =>
          SavedPatch.mk (p.controlPoints.map (refFun s.grid)) p.domain) := rfl
  have hplen : (saveState s).patches.length
      = (saveState s).rows * (saveState s).cols := by
    rw [hpat, List.length_map]
    show (s.grid.cells.filterMap id).length
      = s.grid.rowCount * s.grid.colCount
    rw [← hcount]
    conv_rhs => rw [hflt]
    rw [List.length_map]
  rw [restore_grid (saveState s) hplen, hpat]
  show Grid.mk s.grid.rowCount s.grid.colCount
      (((s.grid.cells.filterMap id).map (fun p =>
        SavedPatch.mk (p.controlPoints.map (refFun s.grid)) p.domain)).map
        (fun pd => some (⟨pd.domain, pd.controlPoints⟩ : BezierPatch3))) = _
  rw [List.map_map]
  conv_rhs => rw [hflt, List.map_map]
  rfl

/-- The slot-id traversal of the restored grid is the original traversal
transported through the reference assignment. -/
theorem restore_save_slots (s : PatchState)
    (hsome : ∀ c ∈ s.grid.cells, c.isSome)
    (hcount : s.grid.cells.length = s.grid.rowCount * s.grid.colCount) :
    patchSlotIdList (restoreState (saveState s)).grid
      = (patchSlotIdList s.grid).map (refFun s.grid) := by
  rw [restore_save_grid s hsome hcount]
  show ((s.grid.cells.map (Option.map (fun p =>
      (⟨p.domain, p.controlPoints.map (refFun s.grid)⟩
        : BezierPatch3)))).map
      (fun oc => match oc with
        | none => ([] : List ℕ)
        | some p => p.controlPoints)).flatten
    = ((s.grid.cells.map (fun oc => match oc with
        | none => ([] : List ℕ)
        | some p => p.controlPoints)).flatten).map (refFun s.grid)
  rw [List.map_map, List.map_flatten, List.map_map]
  congr 1
  apply List.map_congr_left
  intro c _
  cases c with
  | none => rfl
  | some p => rfl

/-- The tensor-product Bernstein sum depends only on the sixteen control
values. -/
theorem evalBezierQ_congr (c c' : ℕ → ℚ) (u v : ℚ)
    (h : ∀ k < 16, c k = c' k) :
    evalBezierQ c u v = evalBezierQ c' u v := by
  unfold evalBezierQ
  rw [show List.range 4 = [0, 1, 2, 3] from rfl]
  simp only [List.foldl_cons, List.foldl_nil]
  rw [h (0 * 4 + 0) (by norm_num), h (0 * 4 + 1) (by norm_num),
    h (0 * 4 + 2) (by norm_num), h (0 * 4 + 3) (by norm_num),
    h (1 * 4 + 0) (by norm_num), h (1 * 4 + 1) (by norm_num),
    h (1 * 4 + 2) (by norm_num), h (1 * 4 + 3) (by norm_num),
    h (2 * 4 + 0) (by norm_num), h (2 * 4 + 1) (by norm_num),
    h (2 * 4 + 2) (by norm_num), h (2 * 4 + 3) (by norm_num),
    h (3 * 4 + 0) (by norm_num), h (3 * 4 + 1) (by norm_num),
    h (3 * 4 + 2) (by norm_num), h (3 * 4 + 3) (by norm_num)]

/-- BezierPatch3.compute depends only on the Domain and the sixteen
control-point positions. -/
theorem patchComputeE_congr (st st' : Store) (p p' : BezierPatch3)
    (hdom : p'.domain = p.domain)
    (h : ∀ k < 16, netV st' p' k = netV st p k) (u v : ℚ) (mode : String) :
    patchComputeE st' p' u v mode = patchComputeE st p u v mode := by
  simp only [patchComputeE, hdom]
  split_ifs with h1 h2
  · rw [h 0 (by norm_num), h 3 (by norm_num), h 12 (by norm_num),
      h 15 (by norm_num)]
  · refine congrArg Except.ok ?_
    congr 1
    · exact evalBezierQ_congr _ _ _ _
        (fun k hk => by
          show (netV st' p' k).x = (netV st p k).x
          rw [h k hk])
    · exact evalBezierQ_congr _ _ _ _
        (fun k hk => by
          show (netV st' p' k).y = (netV st p k).y
          rw [h k hk])
    · exact evalBezierQ_congr _ _ _ _
        (fun k hk => by
          show (netV st' p' k).z = (netV st p k).z
          rw [h k hk])
  · rfl

/-- The first-match scan returns equal results over cell lists related
pointwise by a Domain-preserving, value-preserving patch transformation. -/
theorem computeCells_map_congr (st st' : Store)
    (T : BezierPatch3 → BezierPatch3) (hdom : ∀ p, (T p).domain = p.domain) :
    ∀ (cells : List (Option BezierPatch3)) (u v : ℚ) (mode : String),
    (∀ p, some p ∈ cells → ∀ k < 16, netV st' (T p) k = netV st p k) →
    computeCells st' (cells.map (Option.map T)) u v mode
      = computeCells st cells u v mode := by
  intro cells
  induction cells with
  | nil => intro u v mode _; rfl
  | cons c rest ih =>
    intro u v mode hp
    cases c with
    | none => rfl
    | some p =>
      show (if (T p).domain.contains u v
          then some (patchComputeE st' (T p) u v mode)
          else computeCells st' (rest.map (Option.map T)) u v mode)
        = (if p.domain.contains u v
          then some (patchComputeE st p u v mode)
          else computeCells st rest u v mode)
      rw [hdom p]
      split_ifs with hc
      · exact congrArg some (patchComputeE_congr st st' p (T p)
          (hdom p) (hp p (List.mem_cons_self _ _)) u v mode)
      · exact ih u v mode (fun q hq => hp q (List.mem_cons_of_mem _ hq))

/-- Patch.compute is unchanged by a save/restore round trip. -/
theorem restore_save_compute (s : PatchState)
    (hsome : ∀ c ∈ s.grid.cells, c.isSome)
    (hcount : s.grid.cells.length = s.grid.rowCount * s.grid.colCount)
    (hlen16 : ∀ c ∈ s.grid.cells, ∀ p, c = some p →
      p.controlPoints.length = 16)
    (u v : ℚ) (mode : String) :
    patchCompute (restoreState (saveState s)) u v mode
      = patchCompute s u v mode := by
  unfold patchCompute
  rw [restore_save_grid s hsome hcount]
  show computeCells (restoreState (saveState s)).store
      (s.grid.cells.map (Option.map (fun p =>
        (⟨p.domain, p.controlPoints.map (refFun s.grid)⟩ : BezierPatch3))))
      u v mode
    = computeCells s.store s.grid.cells u v mode
  refine computeCells_map_congr s.store (restoreState (saveState s)).store
    (fun p => ⟨p.domain, p.controlPoints.map (refFun s.grid)⟩)
    (fun p => rfl) s.grid.cells u v mode ?_
  intro p hmem k hk
  have h16 : p.controlPoints.length = 16 := hlen16 (some p) hmem p rfl
  have hsl : slotId (⟨p.domain, p.controlPoints.map (refFun s.grid)⟩
      : BezierPatch3) k = refFun s.grid (slotId p k) := by
    show (p.controlPoints.map (refFun s.grid)).getD k 0
      = refFun s.grid (p.controlPoints.getD k 0)
    exact getD_map_lt p.controlPoints (refFun s.grid) k (by omega) 0 0
  show valAt (restoreState (saveState s)).store
      (slotId (⟨p.domain, p.controlPoints.map (refFun s.grid)⟩
        : BezierPatch3) k) = netV s.store p k
  rw [hsl]
  exact restore_save_pos s (slotId p k)
    (slotId_mem_of_mem s.grid p hmem h16 k hk)

/-- In a structured grid every cell is present. -/
theorem structured_cells_some (g : Grid) (ub vb : List ℚ)
    (hsd : StructuredDomains g ub vb) : ∀ c ∈ g.cells, c.isSome := by
  obtain ⟨hlen, hR, hC, _, _, _, _, _, _, _, _, hcell⟩ := hsd
  intro c hc
  obtain ⟨n, hn, hcn⟩ := List.mem_iff_getElem.mp hc
  have hi : n / g.colCount < g.rowCount := by
    rw [Nat.div_lt_iff_lt_mul (by omega)]
    rw [hlen] at hn
    omega
  have hj : n % g.colCount < g.colCount := Nat.mod_lt _ (by omega)
  have h := (hcell (n / g.colCount) hi (n % g.colCount) hj).1
  unfold cellD at h
  rw [show n / g.colCount * g.colCount + n % g.colCount = n from by
    rw [Nat.mul_comm]; exact Nat.div_add_mod n g.colCount] at h
  rw [List.getD_eq_getElem?_getD, List.getElem?_eq_getElem hn] at h
  simp only [Option.getD_some] at h
  rw [hcn] at h
  exact h

/-- C2: a save/restore round trip on a structured composite patch reproduces
it up to renaming of point object identities: the restored grid has the same
row and column counts, Patch.compute returns the same result at every (u, v)
in every mode, the slot-id traversal of the restored grid is the original
traversal transported through the reference assignment of save, that
assignment is injective on live ids (two slots reference the same point
object after the round trip exactly when they did before), and every
restored point carries the original point's mirror link transported through
the same assignment. -/
theorem claim2_save_restore_roundtrip (s : PatchState) (ub vb : List ℚ)
    (hsd : StructuredDomains s.grid ub vb)
    (hlen16 : ∀ c ∈ s.grid.cells, ∀ p, c = some p →
      p.controlPoints.length = 16) :
    (restoreState (saveState s)).grid.rowCount = s.grid.rowCount ∧
    (restoreState (saveState s)).grid.colCount = s.grid.colCount ∧
    (∀ u v : ℚ, ∀ mode : String,
      patchCompute (restoreState (saveState s)) u v mode
        = patchCompute s u v mode) ∧
    patchSlotIdList (restoreState (saveState s)).grid
      = (patchSlotIdList s.grid).map (refFun s.grid) ∧
    (∀ id1 ∈ patchSlotIdList s.grid, ∀ id2 ∈ patchSlotIdList s.grid,
      (refFun s.grid id1 = refFun s.grid id2 ↔ id1 = id2)) ∧
    (∀ id ∈ patchSlotIdList s.grid,
      (getCP (restoreState (saveState s)).store
        (refFun s.grid id)).mirrorPoint
        = (getCP s.store id).mirrorPoint.map
            (fun o => (refFun s.grid o.1, refFun s.grid o.2))) := by
  have hsome := structured_cells_some s.grid ub vb hsd
  have hcount : s.grid.cells.length = s.grid.rowCount * s.grid.colCount :=
    hsd.1
  refine ⟨?_, ?_, ?_, ?_, ?_, ?_⟩
  · rw [restore_save_grid s hsome hcount]
  · rw [restore_save_grid s hsome hcount]
  · intro u v mode
    exact restore_save_compute s hsome hcount hlen16 u v mode
  · exact restore_save_slots s hsome hcount
  · intro id1 h1 id2 h2
    exact ⟨fun he => refFun_inj s.grid id1 id2 h1 h2 he,
      fun he => by rw [he]⟩
  · intro id hid
    exact restore_save_mir s id hid

/-- The round-trip theorem applied to a concrete one-cell composite patch. -/
theorem claim2_witness :
    StructuredDomains sampleState.grid [0, 1] [0, 1] ∧
    (∀ c ∈ sampleState.grid.cells, ∀ p, c = some p →
      p.controlPoints.length = 16) ∧
    (∀ u v : ℚ, ∀ mode : String,
      patchCompute (restoreState (saveState sampleState)) u v mode
        = patchCompute sampleState u v mode) ∧
    patchSlotIdList (restoreState (saveState sampleState)).grid
      = (patchSlotIdList sampleState.grid).map (refFun sampleState.grid) := by
  have hS : StructuredDomains sampleState.grid [0, 1] [0, 1] := by
    unfold StructuredDomains
    decide
  have h16 : ∀ c ∈ sampleState.grid.cells, ∀ p, c = some p →
      p.controlPoints.length = 16 := by
    intro c hc p hp
    simp only [sampleState, List.mem_singleton] at hc
    subst hc
    obtain rfl : p = samplePatch := by
      injection hp with h1
      exact h1.symm
    decide
  have h := claim2_save_restore_roundtrip sampleState [0, 1] [0, 1] hS h16
  exact ⟨hS, h16, h.2.2.1, h.2.2.2.1⟩

/-- setPos preserves the arena size. -/
theorem size_setPos (st : Store) (i : ℕ) (p : V3) :
    (setPos st i p).size = st.size := size_updCP st i _

/-- The position read after setPos. -/
theorem valAt_setPos (st : Store) (i : ℕ) (p : V3) (k : ℕ) :
    valAt (setPos st i p) k
      = if k = i ∧ i < st.size then p else valAt st k := by
  unfold valAt setPos
  rw [getCP_updCP]
  split
  · rfl
  · rfl

/-- pushCP grows the arena by one. -/
theorem size_pushCP (st : Store) (p : V3) :
    (pushCP st p).size = st.size + 1 := Array.size_push st _

/-- The position read after pushCP: the pushed value at the old size, all
other reads unchanged. -/
theorem valAt_pushCP (st : Store) (p : V3) (k : ℕ) :
    valAt (pushCP st p) k = if k = st.size then p else valAt st k := by
  unfold valAt getCP pushCP
  rw [Array.getD_eq_get?, Array.getD_eq_get?]
  by_cases hk : k = st.size
  · subst hk
    rw [Array.getElem?_push_eq, if_pos rfl]
    rfl
  · rw [if_neg hk]
    by_cases hlt : k < st.size
    · rw [Array.getElem?_push_lt _ _ _ hlt, Array.getElem?_eq_getElem hlt]
    · rw [Array.getElem?_len_le _ (by rw [Array.size_push]; omega),
        Array.getElem?_len_le _ (by omega)]

/-- Running position operations grows the arena by the number of pushes. -/
theorem runPosOps_size : ∀ (ops : List PosOp) (st : Store),
    (runPosOps st ops).size = st.size + pushCount ops := by
  intro ops
  induction ops with
  | nil => intro st; rfl
  | cons op rest ih =>
    intro st
    cases op with
    | set i p =>
      show (runPosOps (setPos st i p) rest).size = st.size + pushCount rest
      rw [ih, size_setPos]
    | push p =>
      show (runPosOps (pushCP st p) rest).size
        = st.size + (pushCount rest + 1)
      rw [ih, size_pushCP]
      omega

/-- The fundamental read lemma: a position after running the operations is
the last value written at that id, or the original position if the
operations never wrote it. -/
theorem runPosOps_valAt : ∀ (ops : List PosOp) (st : Store) (id : ℕ),
    valAt (runPosOps st ops) id
      = (opsWrite st.size ops id).getD (valAt st id) := by
  intro ops
  induction ops with
  | nil => intro st id; rfl
  | cons op rest ih =>
    intro st id
    cases op with
    | set i p =>
      show valAt (runPosOps (setPos st i p) rest) id
        = (opsWrite st.size (PosOp.set i p :: rest) id).getD (valAt st id)
      rw [ih, size_setPos, valAt_setPos]
      show _ = (match opsWrite st.size rest id with
        | some w => some w
        | none => if id = i ∧ i < st.size then some p
          else none).getD (valAt st id)
      cases hx : opsWrite st.size rest id with
      | some w => rfl
      | none =>
        split_ifs with hc
        · rfl
        · rfl
    | push p =>
      show valAt (runPosOps (pushCP st p) rest) id
        = (opsWrite st.size (PosOp.push p :: rest) id).getD (valAt st id)
      rw [ih, size_pushCP, valAt_pushCP]
      show _ = (match opsWrite (st.size + 1) rest id with
        | some w => some w
        | none => if id = st.size then some p
          else none).getD (valAt st id)
      cases hx : opsWrite (st.size + 1) rest id with
      | some w => rfl
      | none =>
        split_ifs with hc
        · rfl
        · rfl

/-- Operations never writing an already-live id leave no record for it. -/
theorem opsWrite_below : ∀ (ops : List PosOp) (n id : ℕ), id < n →
    (∀ i p, PosOp.set i p ∈ ops → id ≠ i) → opsWrite n ops id = none := by
  intro ops
  induction ops with
  | nil => intro n id _ _; rfl
  | cons op rest ih =>
    intro n id hlt hne
    cases op with
    | set i p =>
      show (match opsWrite n rest id with
        | some w => some w
        | none => if id = i ∧ i < n then some p else none) = none
      rw [ih n id hlt (fun i' p' h' => hne i' p' (List.mem_cons_of_mem _ h')),
        if_neg (fun hc => hne i p (List.mem_cons_self _ _) hc.1)]
    | push p =>
      show (match opsWrite (n + 1) rest id with
        | some w => some w
        | none => if id = n then some p else none) = none
      rw [ih (n + 1) id (by omega)
          (fun i' p' h' => hne i' p' (List.mem_cons_of_mem _ h')),
        if_neg (by omega)]

/-- The record at a fresh id (at or beyond the starting size) is the
corresponding pushed value, as long as every set targets a live id. -/
theorem opsWrite_fresh : ∀ (ops : List PosOp) (n id : ℕ),
    (∀ i p, PosOp.set i p ∈ ops → i < n) → n ≤ id →
    opsWrite n ops id = (pushVals ops)[id - n]? := by
  intro ops
  induction ops with
  | nil => intro n id _ _; simp [opsWrite, pushVals]
  | cons op rest ih =>
    intro n id hmem hge
    cases op with
    | set i p =>
      show (match opsWrite n rest id with
        | some w => some w
        | none => if id = i ∧ i < n then some p else none)
        = (pushVals rest)[id - n]?
      rw [ih n id (fun i' p' h' => hmem i' p' (List.mem_cons_of_mem _ h'))
          hge,
        if_neg (fun hc => by
          have := hmem i p (List.mem_cons_self _ _)
          omega)]
      cases hx : (pushVals rest)[id - n]? with
      | some w => rfl
      | none => rfl
    | push p =>
      show (match opsWrite (n + 1) rest id with
        | some w => some w
        | none => if id = n then some p else none)
        = (p :: pushVals rest)[id - n]?
      by_cases hid : id = n
      · subst hid
        rw [opsWrite_below rest (id + 1) id (by omega)
            (fun i' p' h' => by
              have := hmem i' p' (List.mem_cons_of_mem _ h')
              omega),
          if_pos rfl, Nat.sub_self]
        simp
      · rw [ih (n + 1) id (fun i' p' h' => by
            have := hmem i' p' (List.mem_cons_of_mem _ h')
            omega) (by omega),
          if_neg hid,
          show id - n = (id - (n + 1)) + 1 from by omega,
          List.getElem?_cons_succ]
        cases hx : (pushVals rest)[id - (n + 1)]? with
        | some w => rfl
        | none => rfl

/-- Decomposing the write record along an append of operation lists: the
later block wins, starting at the size grown by the earlier pushes. -/
theorem opsWrite_append : ∀ (ops1 ops2 : List PosOp) (n id : ℕ),
    opsWrite n (ops1 ++ ops2) id
      = match opsWrite (n + pushCount ops1) ops2 id with
        | some w => some w
        | none => opsWrite n ops1 id := by
  intro ops1
  induction ops1 with
  | nil =>
    intro ops2 n id
    show opsWrite n ops2 id = match opsWrite n ops2 id with
      | some w => some w
      | none => opsWrite n [] id
    cases hx : opsWrite n ops2 id with
    | some w => rfl
    | none => rfl
  | cons op rest ih =>
    intro ops2 n id
    cases op with
    | set i p =>
      show (match opsWrite n (rest ++ ops2) id with
        | some w => some w
        | none => if id = i ∧ i < n then some p else none)
        = match opsWrite (n + pushCount rest) ops2 id with
          | some w => some w
          | none => match opsWrite n rest id with
            | some w => some w
            | none => if id = i ∧ i < n then some p else none
      rw [ih]
      cases hA : opsWrite (n + pushCount rest) ops2 id with
      | some w => rfl
      | none =>
        cases hB : opsWrite n rest id with
        | some w => rfl
        | none => rfl
    | push p =>
      show (match opsWrite (n + 1) (rest ++ ops2) id with
        | some w => some w
        | none => if id = n then some p else none)
        = match opsWrite (n + (pushCount rest + 1)) ops2 id with
          | some w => some w
          | none => match opsWrite (n + 1) rest id with
            | some w => some w
            | none => if id = n then some p else none
      rw [ih, show n + (pushCount rest + 1) = n + 1 + pushCount rest from by
        omega]
      cases hA : opsWrite (n + 1 + pushCount rest) ops2 id with
      | some w => rfl
      | none =>
        cases hB : opsWrite (n + 1) rest id with
        | some w => rfl
        | none => rfl

/-- A set on a live id whose target the remaining operations never touch
records exactly its value. -/
theorem opsWrite_set_hit (post : List PosOp) (n i : ℕ) (p : V3)
    (h2 : i < n) (h3 : ∀ i' p', PosOp.set i' p' ∈ post → i ≠ i') :
    opsWrite n (PosOp.set i p :: post) i = some p := by
  show (match opsWrite n post i with
    | some w => some w
    | none => if i = i ∧ i < n then some p else none) = some p
  rw [opsWrite_below post n i h2 h3, if_pos ⟨rfl, h2⟩]

/-- The write record of a split list at the id of a set in the middle whose
target the tail never touches again. -/
theorem opsWrite_split_set (pre post : List PosOp) (n i : ℕ) (p : V3)
    (h2 : i < n) (h3 : ∀ i' p', PosOp.set i' p' ∈ post → i ≠ i') :
    opsWrite n (pre ++ PosOp.set i p :: post) i = some p := by
  rw [opsWrite_append,
    opsWrite_set_hit post (n + pushCount pre) i p (by omega) h3]

/-- Read a written position through runPosOps. -/
theorem runPosOps_write (st : Store) (ops : List PosOp) (id : ℕ) (val : V3)
    (h : opsWrite st.size ops id = some val) :
    valAt (runPosOps st ops) id = val := by
  rw [runPosOps_valAt, h]
  rfl

/-- Read an untouched position through runPosOps. -/
theorem runPosOps_keep (st : Store) (ops : List PosOp) (id : ℕ)
    (h : opsWrite st.size ops id = none) :
    valAt (runPosOps st ops) id = valAt st id := by
  rw [runPosOps_valAt, h]
  rfl

/-- A set operation's target is among the set targets. -/
theorem mem_setTargets : ∀ (ops : List PosOp) (i : ℕ) (p : V3),
    PosOp.set i p ∈ ops → i ∈ setTargets ops := by
  intro ops
  induction ops with
  | nil => intro i p h; simp at h
  | cons op rest ih =>
    intro i p h
    cases op with
    | set i' q =>
      rcases List.mem_cons.mp h with h1 | h2
      · injection h1 with e1 e2
        subst e1
        exact List.mem_cons_self _ _
      · exact List.mem_cons_of_mem _ (ih i p h2)
    | push q =>
      rcases List.mem_cons.mp h with h1 | h2
      · exact absurd h1 (by simp)
      · exact ih i p h2

/-- Skipping a set aimed at a different id. -/
theorem opsWrite_cons_set_skip (n i : ℕ) (p : V3) (rest : List PosOp)
    (id : ℕ) (h : id ≠ i) :
    opsWrite n (PosOp.set i p :: rest) id = opsWrite n rest id := by
  show (match opsWrite n rest id with
    | some w => some w
    | none => if id = i ∧ i < n then some p else none) = _
  rw [if_neg (fun hc => h hc.1)]
  cases hx : opsWrite n rest id with
  | some w => rfl
  | none => rfl

/-- Skipping a push creating a different id. -/
theorem opsWrite_cons_push_skip (n : ℕ) (p : V3) (rest : List PosOp)
    (id : ℕ) (h : id ≠ n) :
    opsWrite n (PosOp.push p :: rest) id = opsWrite (n + 1) rest id := by
  show (match opsWrite (n + 1) rest id with
    | some w => some w
    | none => if id = n then some p else none) = _
  rw [if_neg h]
  cases hx : opsWrite (n + 1) rest id with
  | some w => rfl
  | none => rfl

/-- No record at an id no set targets. -/
theorem opsWrite_below_targets (ops : List PosOp) (n id : ℕ) (h : id < n)
    (h2 : ∀ t ∈ setTargets ops, id ≠ t) : opsWrite n ops id = none :=
  opsWrite_below ops n id h
    (fun i p hmem => h2 i (mem_setTargets ops i p hmem))

/-- With pairwise-distinct live set targets, the record at a target is the
value its (unique) set writes. -/
theorem opsWrite_target : ∀ (ops : List PosOp) (n i : ℕ) (p : V3),
    (setTargets ops).Pairwise (fun a b => a ≠ b) →
    (∀ t ∈ setTargets ops, t < n) →
    PosOp.set i p ∈ ops →
    opsWrite n ops i = some p := by
  intro ops
  induction ops with
  | nil => intro n i p _ _ h; simp at h
  | cons op rest ih =>
    intro n i p hpair hlt hmem
    cases op with
    | set i' q =>
      have hpair' := (List.pairwise_cons.mp hpair)
      rcases List.mem_cons.mp hmem with h1 | h2
      · injection h1 with e1 e2
        subst e1
        subst e2
        show (match opsWrite n rest i with
          | some w => some w
          | none => if i = i ∧ i < n then some p else none) = some p
        rw [opsWrite_below rest n i
            (hlt i (List.mem_cons_self _ _))
            (fun a b hm => fun he =>
              (hpair'.1 a (mem_setTargets rest a b hm)) (he ▸ rfl)),
          if_pos ⟨rfl, hlt i (List.mem_cons_self _ _)⟩]
      · have hi : i ∈ setTargets rest := mem_setTargets rest i p h2
        rw [opsWrite_cons_set_skip n i' q rest i
            (fun he => (hpair'.1 i hi) he.symm)]
        exact ih n i p hpair'.2
          (fun t ht => hlt t (List.mem_cons_of_mem _ ht)) h2
    | push q =>
      have h2 : PosOp.set i p ∈ rest := by
        rcases List.mem_cons.mp hmem with h1 | h2
        · exact absurd h1 (by simp)
        · exact h2
      have hi : i ∈ setTargets rest := mem_setTargets rest i p h2
      have hlt' : i < n := hlt i hi
      rw [opsWrite_cons_push_skip n q rest i (by omega)]
      exact ih (n + 1) i p hpair
        (fun t ht => by have := hlt t ht; omega) h2

/-- The first-column horizontal split step as a run of position operations,
with the produced bottom and top patches written out (fresh ids counted from
the entry arena size). -/
theorem subHStep_none_eq (st : Store) (cur : BezierPatch3) (v : ℚ) :
    subHStep st cur v none
      = (runPosOps st (hOpsNone st cur v),
         ⟨⟨cur.domain.u0, cur.domain.v0, cur.domain.u1, v⟩,
          [slotId cur 0, slotId cur 1, slotId cur 2, slotId cur 3,
           slotId cur 4, slotId cur 5, slotId cur 6, slotId cur 7,
           st.size, st.size + 4, st.size + 5, st.size + 3,
           st.size + 2, st.size + 9, st.size + 10, st.size + 11]⟩,
         ⟨⟨cur.domain.u0, v, cur.domain.u1, cur.domain.v1⟩,
          [st.size + 2, st.size + 9, st.size + 10, st.size + 11,
           st.size + 1, st.size + 7, st.size + 8, st.size + 6,
           slotId cur 8, slotId cur 9, slotId cur 10, slotId cur 11,
           slotId cur 12, slotId cur 13, slotId cur 14,
           slotId cur 15]⟩) := by
  unfold subHStep hOpsNone runPosOps
  simp only [List.foldl_cons, List.foldl_nil, size_setPos, size_pushCP,
    Prod.mk.injEq]

/-- The head of the left subdivided curve is the original first point. -/
theorem subdivideCurve_head (t : ℚ) (p0 p1 p2 p3 : V3) :
    (subdivideCurve t [p0, p1, p2, p3]).1.getD 0 default = p0 := by
  rw [subdivideCurve_four]
  rfl

/-- The tail of the right subdivided curve is the original last point. -/
theorem subdivideCurve_last (t : ℚ) (p0 p1 p2 p3 : V3) :
    (subdivideCurve t [p0, p1, p2, p3]).2.getD 3 default = p3 := by
  rw [subdivideCurve_four]
  rfl

/-- The two halves meet at the de Casteljau apex. -/
theorem subdivideCurve_apex_eq (t : ℚ) (p0 p1 p2 p3 : V3) :
    (subdivideCurve t [p0, p1, p2, p3]).1.getD 3 default
      = (subdivideCurve t [p0, p1, p2, p3]).2.getD 0 default := by
  rw [subdivideCurve_four]
  rfl

/-- Value specification of the first-column horizontal step: every slot of
the produced bottom (top) patch reads, in the post-step arena, the
corresponding point of the left (right) de Casteljau half of its net
column's curve, and every live id outside the cell's interior slots keeps
its position. -/
theorem subHStep_none_values (st : Store) (cur : BezierPatch3) (v : ℚ)
    (hcl : ∀ k < 16, slotId cur k < st.size)
    (hinj : ∀ k < 16, ∀ k' < 16, 4 ≤ k' → k' ≤ 11 →
      slotId cur k = slotId cur k' → k = k') :
    (∀ k < 16, valAt (subHStep st cur v none).1
        (slotId (subHStep st cur v none).2.1 k)
      = (subdivideCurve
          ((v - cur.domain.v0) / (cur.domain.v1 - cur.domain.v0))
          (colVals st cur (k % 4))).1.getD (k / 4) default) ∧
    (∀ k < 16, valAt (subHStep st cur v none).1
        (slotId (subHStep st cur v none).2.2 k)
      = (subdivideCurve
          ((v - cur.domain.v0) / (cur.domain.v1 - cur.domain.v0))
          (colVals st cur (k % 4))).2.getD (k / 4) default) ∧
    (∀ id < st.size, (∀ k' < 16, 4 ≤ k' → k' ≤ 11 →
        id ≠ slotId cur k') →
      valAt (subHStep st cur v none).1 id = valAt st id) := by
  have hd : ∀ a b : ℕ, a < 16 → b < 16 → 4 ≤ b → b ≤ 11 → a ≠ b →
      slotId cur a ≠ slotId cur b := fun a b ha hb h1 h2 hne h =>
    hne (hinj a ha b hb h1 h2 h)
  have hTeq : setTargets (hOpsNone st cur v)
      = [4, 8, 7, 5, 6, 11, 9, 10].map (fun k => slotId cur k) := rfl
  have hpairT : (setTargets (hOpsNone st cur v)).Pairwise
      (fun a b => a ≠ b) := by
    rw [hTeq, List.pairwise_map]
    have hp0 : ([4, 8, 7, 5, 6, 11, 9, 10] : List ℕ).Pairwise
        (fun a b => a ≠ b ∧ a < 16 ∧ b < 16 ∧ 4 ≤ b ∧ b ≤ 11) := by
      decide
    exact hp0.imp (fun h => hd _ _ h.2.1 h.2.2.1 h.2.2.2.1 h.2.2.2.2 h.1)
  have hltT : ∀ t ∈ setTargets (hOpsNone st cur v), t < st.size := by
    rw [hTeq]
    intro t ht
    obtain ⟨k', hk', rfl⟩ := List.mem_map.mp ht
    have h' : k' = 4 ∨ k' = 8 ∨ k' = 7 ∨ k' = 5 ∨ k' = 6 ∨ k' = 11 ∨
        k' = 9 ∨ k' = 10 := by simpa using hk'
    exact hcl k' (by omega)
  have hkeepAll : ∀ a, a < 16 → (a < 4 ∨ 11 < a) →
      valAt (runPosOps st (hOpsNone st cur v)) (slotId cur a)
        = valAt st (slotId cur a) := by
    intro a ha hrange
    apply runPosOps_keep
    apply opsWrite_below_targets _ _ _ (hcl a ha)
    rw [hTeq]
    intro t ht
    obtain ⟨k', hk', rfl⟩ := List.mem_map.mp ht
    have h' : k' = 4 ∨ k' = 8 ∨ k' = 7 ∨ k' = 5 ∨ k' = 6 ∨ k' = 11 ∨
        k' = 9 ∨ k' = 10 := by simpa using hk'
    exact hd a k' ha (by omega) (by omega) (by omega) (by omega)
  have hwriteAll : ∀ (i : ℕ) (p : V3),
      PosOp.set (slotId cur i) p ∈ hOpsNone st cur v →
      valAt (runPosOps st (hOpsNone st cur v)) (slotId cur i) = p :=
    fun i p hmem => runPosOps_write _ _ _ _
      (opsWrite_target _ _ _ _ hpairT hltT hmem)
  have hfresh : ∀ (c : ℕ) (val : V3),
      (pushVals (hOpsNone st cur v))[c]? = some val →
      valAt (runPosOps st (hOpsNone st cur v)) (st.size + c) = val := by
    intro c val hv
    apply runPosOps_write
    rw [opsWrite_fresh _ _ _
        (fun i p hm => hltT i (mem_setTargets _ _ _ hm)) (by omega),
      show st.size + c - st.size = c from by omega]
    exact hv
  simp only [subHStep_none_eq]
  refine ⟨?_, ?_, ?_⟩
  · intro k hk
    interval_cases k
    · simp only [colVals, netV, Nat.reduceMod, Nat.reduceDiv]
      rw [subdivideCurve_head]
      exact hkeepAll 0 (by norm_num) (by norm_num)
    · simp only [colVals, netV, Nat.reduceMod, Nat.reduceDiv]
      rw [subdivideCurve_head]
      exact hkeepAll 1 (by norm_num) (by norm_num)
    · simp only [colVals, netV, Nat.reduceMod, Nat.reduceDiv]
      rw [subdivideCurve_head]
      exact hkeepAll 2 (by norm_num) (by norm_num)
    · simp only [colVals, netV, Nat.reduceMod, Nat.reduceDiv]
      rw [subdivideCurve_head]
      exact hkeepAll 3 (by norm_num) (by norm_num)
    · simp only [colVals, netV, Nat.reduceMod, Nat.reduceDiv]
      exact hwriteAll 4 _ (by simp [hOpsNone])
    · simp only [colVals, netV, Nat.reduceMod, Nat.reduceDiv]
      exact hwriteAll 5 _ (by simp [hOpsNone])
    · simp only [colVals, netV, Nat.reduceMod, Nat.reduceDiv]
      exact hwriteAll 6 _ (by simp [hOpsNone])
    · simp only [colVals, netV, Nat.reduceMod, Nat.reduceDiv]
      exact hwriteAll 7 _ (by simp [hOpsNone])
    · simp only [colVals, netV, Nat.reduceMod, Nat.reduceDiv]
      exact hfresh 0 _ (by simp [hOpsNone, pushVals])
    · simp only [colVals, netV, Nat.reduceMod, Nat.reduceDiv]
      exact hfresh 4 _ (by simp [hOpsNone, pushVals])
    · simp only [colVals, netV, Nat.reduceMod, Nat.reduceDiv]
      exact hfresh 5 _ (by simp [hOpsNone, pushVals])
    · simp only [colVals, netV, Nat.reduceMod, Nat.reduceDiv]
      exact hfresh 3 _ (by simp [hOpsNone, pushVals])
    · simp only [colVals, netV, Nat.reduceMod, Nat.reduceDiv]
      rw [subdivideCurve_apex_eq]
      exact hfresh 2 _ (by simp [hOpsNone, pushVals])
    · simp only [colVals, netV, Nat.reduceMod, Nat.reduceDiv]
      rw [subdivideCurve_apex_eq]
      exact hfresh 9 _ (by simp [hOpsNone, pushVals])
    · simp only [colVals, netV, Nat.reduceMod, Nat.reduceDiv]
      rw [subdivideCurve_apex_eq]
      exact hfresh 10 _ (by simp [hOpsNone, pushVals])
    · simp only [colVals, netV, Nat.reduceMod, Nat.reduceDiv]
      rw [subdivideCurve_apex_eq]
      exact hfresh 11 _ (by simp [hOpsNone, pushVals])
  · intro k hk
    interval_cases k
    · simp only [colVals, netV, Nat.reduceMod, Nat.reduceDiv]
      exact hfresh 2 _ (by simp [hOpsNone, pushVals])
    · simp only [colVals, netV, Nat.reduceMod, Nat.reduceDiv]
      exact hfresh 9 _ (by simp [hOpsNone, pushVals])
    · simp only [colVals, netV, Nat.reduceMod, Nat.reduceDiv]
      exact hfresh 10 _ (by simp [hOpsNone, pushVals])
    · simp only [colVals, netV, Nat.reduceMod, Nat.reduceDiv]
      exact hfresh 11 _ (by simp [hOpsNone, pushVals])
    · simp only [colVals, netV, Nat.reduceMod, Nat.reduceDiv]
      exact hfresh 1 _ (by simp [hOpsNone, pushVals])
    · simp only [colVals, netV, Nat.reduceMod, Nat.reduceDiv]
      exact hfresh 7 _ (by simp [hOpsNone, pushVals])
    · simp only [colVals, netV, Nat.reduceMod, Nat.reduceDiv]
      exact hfresh 8 _ (by simp [hOpsNone, pushVals])
    · simp only [colVals, netV, Nat.reduceMod, Nat.reduceDiv]
      exact hfresh 6 _ (by simp [hOpsNone, pushVals])
    · simp only [colVals, netV, Nat.reduceMod, Nat.reduceDiv]
      exact hwriteAll 8 _ (by simp [hOpsNone])
    · simp only [colVals, netV, Nat.reduceMod, Nat.reduceDiv]
      exact hwriteAll 9 _ (by simp [hOpsNone])
    · simp only [colVals, netV, Nat.reduceMod, Nat.reduceDiv]
      exact hwriteAll 10 _ (by simp [hOpsNone])
    · simp only [colVals, netV, Nat.reduceMod, Nat.reduceDiv]
      exact hwriteAll 11 _ (by simp [hOpsNone])
    · simp only [colVals, netV, Nat.reduceMod, Nat.reduceDiv]
      rw [subdivideCurve_last]
      exact hkeepAll 12 (by norm_num) (by norm_num)
    · simp only [colVals, netV, Nat.reduceMod, Nat.reduceDiv]
      rw [subdivideCurve_last]
      exact hkeepAll 13 (by norm_num) (by norm_num)
    · simp only [colVals, netV, Nat.reduceMod, Nat.reduceDiv]
      rw [subdivideCurve_last]
      exact hkeepAll 14 (by norm_num) (by norm_num)
    · simp only [colVals, netV, Nat.reduceMod, Nat.reduceDiv]
      rw [subdivideCurve_last]
      exact hkeepAll 15 (by norm_num) (by norm_num)
  · intro id hid hne
    apply runPosOps_keep
    apply opsWrite_below_targets _ _ _ hid
    rw [hTeq]
    intro t ht
    obtain ⟨k', hk', rfl⟩ := List.mem_map.mp ht
    have h' : k' = 4 ∨ k' = 8 ∨ k' = 7 ∨ k' = 5 ∨ k' = 6 ∨ k' = 11 ∨
        k' = 9 ∨ k' = 10 := by simpa using hk'
    exact hne k' (by omega) (by omega) (by omega)

/-- A later-column horizontal split step as a run of position operations. -/
theorem subHStep_some_eq (st : Store) (cur : BezierPatch3) (v : ℚ)
    (pb pt : BezierPatch3) :
    subHStep st cur v (some (pb, pt))
      = (runPosOps st (hOpsSome st cur v),
         ⟨⟨cur.domain.u0, cur.domain.v0, cur.domain.u1, v⟩,
          [slotId pb 3, slotId cur 1, slotId cur 2, slotId cur 3,
           slotId pb 7, slotId cur 5, slotId cur 6, slotId cur 7,
           slotId pb 11, st.size + 1, st.size + 2, st.size,
           slotId pb 15, st.size + 6, st.size + 7, st.size + 8]⟩,
         ⟨⟨cur.domain.u0, v, cur.domain.u1, cur.domain.v1⟩,
          [slotId pt 3, st.size + 6, st.size + 7, st.size + 8,
           slotId pt 7, st.size + 4, st.size + 5, st.size + 3,
           slotId pt 11, slotId cur 9, slotId cur 10, slotId cur 11,
           slotId pt 15, slotId cur 13, slotId cur 14,
           slotId cur 15]⟩) := by
  unfold subHStep hOpsSome runPosOps
  simp only [List.foldl_cons, List.foldl_nil, size_setPos, size_pushCP,
    Prod.mk.injEq]

/-- Value specification of a later-column horizontal step: every slot of
the produced bottom (top) patch outside net column 0 reads the
corresponding point of the left (right) de Casteljau half of its net
column's curve computed from the entry arena, and every live id outside
the cell's written interior slots keeps its position.  (Net column 0 is
taken by reference from the previous column's patches.) -/
theorem subHStep_some_values (st : Store) (cur pb pt : BezierPatch3)
    (v : ℚ)
    (hcl : ∀ k < 16, slotId cur k < st.size)
    (hinj : ∀ k < 16, ∀ k' < 16, 4 ≤ k' → k' ≤ 11 →
      slotId cur k = slotId cur k' → k = k') :
    (∀ k < 16, k % 4 ≠ 0 →
      valAt (subHStep st cur v (some (pb, pt))).1
        (slotId (subHStep st cur v (some (pb, pt))).2.1 k)
      = (subdivideCurve
          ((v - cur.domain.v0) / (cur.domain.v1 - cur.domain.v0))
          (colVals st cur (k % 4))).1.getD (k / 4) default) ∧
    (∀ k < 16, k % 4 ≠ 0 →
      valAt (subHStep st cur v (some (pb, pt))).1
        (slotId (subHStep st cur v (some (pb, pt))).2.2 k)
      = (subdivideCurve
          ((v - cur.domain.v0) / (cur.domain.v1 - cur.domain.v0))
          (colVals st cur (k % 4))).2.getD (k / 4) default) ∧
    (∀ id < st.size, (∀ k' < 16,
        (k' = 5 ∨ k' = 6 ∨ k' = 7 ∨ k' = 9 ∨ k' = 10 ∨ k' = 11) →
        id ≠ slotId cur k') →
      valAt (subHStep st cur v (some (pb, pt))).1 id = valAt st id) := by
  have hd : ∀ a b : ℕ, a < 16 → b < 16 → 4 ≤ b → b ≤ 11 → a ≠ b →
      slotId cur a ≠ slotId cur b := fun a b ha hb h1 h2 hne h =>
    hne (hinj a ha b hb h1 h2 h)
  have hTeq : setTargets (hOpsSome st cur v)
      = [7, 5, 6, 11, 9, 10].map (fun k => slotId cur k) := rfl
  have hpairT : (setTargets (hOpsSome st cur v)).Pairwise
      (fun a b => a ≠ b) := by
    rw [hTeq, List.pairwise_map]
    have hp0 : ([7, 5, 6, 11, 9, 10] : List ℕ).Pairwise
        (fun a b => a ≠ b ∧ a < 16 ∧ b < 16 ∧ 4 ≤ b ∧ b ≤ 11) := by
      decide
    exact hp0.imp (fun h => hd _ _ h.2.1 h.2.2.1 h.2.2.2.1 h.2.2.2.2 h.1)
  have hltT : ∀ t ∈ setTargets (hOpsSome st cur v), t < st.size := by
    rw [hTeq]
    intro t ht
    obtain ⟨k', hk', rfl⟩ := List.mem_map.mp ht
    have h' : k' = 7 ∨ k' = 5 ∨ k' = 6 ∨ k' = 11 ∨ k' = 9 ∨ k' = 10 := by
      simpa using hk'
    exact hcl k' (by omega)
  have hkeepAll : ∀ a, a < 16 → (a < 4 ∨ 11 < a) →
      valAt (runPosOps st (hOpsSome st cur v)) (slotId cur a)
        = valAt st (slotId cur a) := by
    intro a ha hrange
    apply runPosOps_keep
    apply opsWrite_below_targets _ _ _ (hcl a ha)
    rw [hTeq]
    intro t ht
    obtain ⟨k', hk', rfl⟩ := List.mem_map.mp ht
    have h' : k' = 7 ∨ k' = 5 ∨ k' = 6 ∨ k' = 11 ∨ k' = 9 ∨ k' = 10 := by
      simpa using hk'
    exact hd a k' ha (by omega) (by omega) (by omega) (by omega)
  have hwriteAll : ∀ (i : ℕ) (p : V3),
      PosOp.set (slotId cur i) p ∈ hOpsSome st cur v →
      valAt (runPosOps st (hOpsSome st cur v)) (slotId cur i) = p :=
    fun i p hmem => runPosOps_write _ _ _ _
      (opsWrite_target _ _ _ _ hpairT hltT hmem)
  have hfresh : ∀ (c : ℕ) (val : V3),
      (pushVals (hOpsSome st cur v))[c]? = some val →
      valAt (runPosOps st (hOpsSome st cur v)) (st.size + c) = val := by
    intro c val hv
    apply runPosOps_write
    rw [opsWrite_fresh _ _ _
        (fun i p hm => hltT i (mem_setTargets _ _ _ hm)) (by omega),
      show st.size + c - st.size = c from by omega]
    exact hv
  simp only [subHStep_some_eq]
  refine ⟨?_, ?_, ?_⟩
  · intro k hk hkm
    interval_cases k
    · exact absurd rfl hkm
    · simp only [colVals, netV, Nat.reduceMod, Nat.reduceDiv]
      rw [subdivideCurve_head]
      exact hkeepAll 1 (by norm_num) (by norm_num)
    · simp only [colVals, netV, Nat.reduceMod, Nat.reduceDiv]
      rw [subdivideCurve_head]
      exact hkeepAll 2 (by norm_num) (by norm_num)
    · simp only [colVals, netV, Nat.reduceMod, Nat.reduceDiv]
      rw [subdivideCurve_head]
      exact hkeepAll 3 (by norm_num) (by norm_num)
    · exact absurd rfl hkm
    · simp only [colVals, netV, Nat.reduceMod, Nat.reduceDiv]
      exact hwriteAll 5 _ (by simp [hOpsSome])
    · simp only [colVals, netV, Nat.reduceMod, Nat.reduceDiv]
      exact hwriteAll 6 _ (by simp [hOpsSome])
    · simp only [colVals, netV, Nat.reduceMod, Nat.reduceDiv]
      exact hwriteAll 7 _ (by simp [hOpsSome])
    · exact absurd rfl hkm
    · simp only [colVals, netV, Nat.reduceMod, Nat.reduceDiv]
      exact hfresh 1 _ (by simp [hOpsSome, pushVals])
    · simp only [colVals, netV, Nat.reduceMod, Nat.reduceDiv]
      exact hfresh 2 _ (by simp [hOpsSome, pushVals])
    · simp only [colVals, netV, Nat.reduceMod, Nat.reduceDiv]
      exact hfresh 0 _ (by simp [hOpsSome, pushVals])
    · exact absurd rfl hkm
    · simp only [colVals, netV, Nat.reduceMod, Nat.reduceDiv]
      rw [subdivideCurve_apex_eq]
      exact hfresh 6 _ (by simp [hOpsSome, pushVals])
    · simp only [colVals, netV, Nat.reduceMod, Nat.reduceDiv]
      rw [subdivideCurve_apex_eq]
      exact hfresh 7 _ (by simp [hOpsSome, pushVals])
    · simp only [colVals, netV, Nat.reduceMod, Nat.reduceDiv]
      rw [subdivideCurve_apex_eq]
      exact hfresh 8 _ (by simp [hOpsSome, pushVals])
  · intro k hk hkm
    interval_cases k
    · exact absurd rfl hkm
    · simp only [colVals, netV, Nat.reduceMod, Nat.reduceDiv]
      exact hfresh 6 _ (by simp [hOpsSome, pushVals])
    · simp only [colVals, netV, Nat.reduceMod, Nat.reduceDiv]
      exact hfresh 7 _ (by simp [hOpsSome, pushVals])
    · simp only [colVals, netV, Nat.reduceMod, Nat.reduceDiv]
      exact hfresh 8 _ (by simp [hOpsSome, pushVals])
    · exact absurd rfl hkm
    · simp only [colVals, netV, Nat.reduceMod, Nat.reduceDiv]
      exact hfresh 4 _ (by simp [hOpsSome, pushVals])
    · simp only [colVals, netV, Nat.reduceMod, Nat.reduceDiv]
      exact hfresh 5 _ (by simp [hOpsSome, pushVals])
    · simp only [colVals, netV, Nat.reduceMod, Nat.reduceDiv]
      exact hfresh 3 _ (by simp [hOpsSome, pushVals])
    · exact absurd rfl hkm
    · simp only [colVals, netV, Nat.reduceMod, Nat.reduceDiv]
      exact hwriteAll 9 _ (by simp [hOpsSome])
    · simp only [colVals, netV, Nat.reduceMod, Nat.reduceDiv]
      exact hwriteAll 10 _ (by simp [hOpsSome])
    · simp only [colVals, netV, Nat.reduceMod, Nat.reduceDiv]
      exact hwriteAll 11 _ (by simp [hOpsSome])
    · exact absurd rfl hkm
    · simp only [colVals, netV, Nat.reduceMod, Nat.reduceDiv]
      rw [subdivideCurve_last]
      exact hkeepAll 13 (by norm_num) (by norm_num)
    · simp only [colVals, netV, Nat.reduceMod, Nat.reduceDiv]
      rw [subdivideCurve_last]
      exact hkeepAll 14 (by norm_num) (by norm_num)
    · simp only [colVals, netV, Nat.reduceMod, Nat.reduceDiv]
      rw [subdivideCurve_last]
      exact hkeepAll 15 (by norm_num) (by norm_num)
  · intro id hid hne
    apply runPosOps_keep
    apply opsWrite_below_targets _ _ _ hid
    rw [hTeq]
    intro t ht
    obtain ⟨k', hk', rfl⟩ := List.mem_map.mp ht
    have h' : k' = 7 ∨ k' = 5 ∨ k' = 6 ∨ k' = 11 ∨ k' = 9 ∨ k' = 10 := by
      simpa using hk'
    exact hne k' (by omega) (by omega)

end BMP
